import Mathlib

/-!
# Window viewer: the top-stories aggregation

A shallow embedding of `windowviewer/compute/ranking.go` and of the record
types of `windowviewer/models/models.go`, followed by the properties of
`ComputeTopStories` that the specification states.

Modelling conventions.

* Go `int` and `int64` values are integers; the two arithmetic operations of the
  code that can leave the 64-bit range (unary minus and subtraction) wrap
  around, see `int64Wrap`.
* Go's `sort.Slice` is a deterministic but unspecified (not stable) sorting
  routine.  It is a parameter, `SliceSorter`, carrying exactly its documented
  contract.  `goSort` is the instance Go runs on short slices: insertion sort
  (slices of at most twelve elements; at most six before Go 1.19).
* Go's `map[string]*storyData` is an association list in insertion order with
  pairwise distinct keys.  Ranging over a Go map visits the entries in an
  order the runtime picks at random; the order is a parameter, `MapRange`.
-/

namespace Compute

/-! ## Records (`models/models.go`) -/

/-- The record `models.Story`. -/
structure Story where
  StoryID : String
  Rank : Int
  Headline : String
  URL : String
  Username : String
  Points : Int
  Comments : Int
  DiscussionURL : String
  AgeValue : Int
  AgeUnit : String
  Page : Int
  deriving DecidableEq, Repr

/-- The record `models.Snapshot`. -/
structure Snapshot where
  ID : Int
  FetchedAt : Int
  NumPages : Int
  TotalStories : Int
  Stories : List Story
  deriving DecidableEq, Repr

/-- The record `models.RankedStory`. -/
structure RankedStory where
  StoryID : String
  Headline : String
  URL : String
  Username : String
  DiscussionURL : String
  BestRank : Int
  MaxPoints : Int
  MaxComments : Int
  IncrementalPoints : Int
  IncrementalComments : Int
  deriving DecidableEq, Repr

/-- The unexported accumulator `storyData` of `ranking.go`. -/
structure storyData where
  storyID : String
  headline : String
  url : String
  username : String
  discussionURL : String
  bestRank : Int
  maxPoints : Int
  maxComments : Int
  firstPoints : Int
  lastPoints : Int
  firstComments : Int
  lastComments : Int
  firstFetchedAt : Int
  lastFetchedAt : Int
  deriving DecidableEq, Repr

/-! ## Machine arithmetic -/

/-- Reduction of an integer to the two's-complement 64-bit range. -/
def int64Wrap (x : Int) : Int := (x + 2 ^ 63) % 2 ^ 64 - 2 ^ 63

/-- Go's unary minus on `int`. -/
def negInt64 (x : Int) : Int := int64Wrap (-x)

/-- Go's subtraction on `int`. -/
def subInt64 (a b : Int) : Int := int64Wrap (a - b)

/-! ## The Go runtime: `sort.Slice` and map iteration -/

/-- A sorting routine with the signature of `sort.Slice`: a comparison `less`
and the slice to sort. -/
structure SliceSorter where
  sortSlice : {α : Type} → (α → α → Bool) → List α → List α

/-- The contract of `sort.Slice`: the result is a rearrangement of the slice,
and when `less` is asymmetric and its negation is transitive (a strict weak
ordering, as the documentation of `sort.Slice` demands) no element is `less`
than an element placed before it.  Nothing is promised about the relative order
of elements neither of which is `less` than the other. -/
def SliceSorter.Lawful (S : SliceSorter) : Prop :=
  (∀ (α : Type) (less : α → α → Bool) (l : List α), (S.sortSlice less l).Perm l) ∧
  (∀ (α : Type) (less : α → α → Bool) (l : List α),
    (∀ a b, less a b = true → less b a = false) →
    (∀ a b c, less a b = false → less b c = false → less a c = false) →
    (S.sortSlice less l).Pairwise (fun a b => less b a = false))

/-- The order in which one `for ... range` loop visits the entries of the map. -/
structure MapRange where
  range : List storyData → List storyData

/-- Ranging over a map visits every entry exactly once, in some order. -/
def MapRange.Lawful (R : MapRange) : Prop := ∀ m, (R.range m).Perm m

/-- One step of Go's `insertionSortLessFunc`: the new element `x` travels left
past every element it is `less` than.  `acc` is the sorted prefix, last element
first. -/
def insertLeft {α : Type} (less : α → α → Bool) (x : α) : List α → List α
  | [] => [x]
  | y :: ys => if less x y then y :: insertLeft less x ys else x :: y :: ys

/-- Go's `insertionSortLessFunc`, which is all `sort.Slice` runs on a short
slice. -/
def insertionSort {α : Type} (less : α → α → Bool) (l : List α) : List α :=
  (l.foldl (fun acc x => insertLeft less x acc) []).reverse

/-- The sorting routine Go runs on short slices. -/
def goSort : SliceSorter := ⟨fun less l => insertionSort less l⟩

/-- A map iteration that visits the entries in the order of their insertion. -/
def insertionOrder : MapRange := ⟨fun m => m⟩

/-- A map iteration that visits the entries against the order of their insertion. -/
def reverseOrder : MapRange := ⟨fun m => m.reverse⟩

/-! ## `ranking.go` -/

def CriteriaBestRank : String := "best_rank"
def CriteriaMaxPoints : String := "max_points"
def CriteriaMaxComments : String := "max_comments"
def CriteriaIncrementalComments : String := "incremental_comments"
def CriteriaIncrementalPoints : String := "incremental_points"

/-- All valid criteria values. -/
def ValidCriteria : List String :=
  [CriteriaBestRank, CriteriaMaxPoints, CriteriaMaxComments,
   CriteriaIncrementalComments, CriteriaIncrementalPoints]

/-- Whether the given criteria is valid: a linear scan of `ValidCriteria`. -/
def IsValidCriteria (criteria : String) : Bool :=
  ValidCriteria.any (fun c => c == criteria)

/-- The accumulator created at the first occurrence of a story
(the `!exists` branch). -/
def newStoryData (fetchedAt : Int) (story : Story) : storyData :=
  { storyID := story.StoryID
    headline := story.Headline
    url := story.URL
    username := story.Username
    discussionURL := story.DiscussionURL
    bestRank := story.Rank
    maxPoints := story.Points
    maxComments := story.Comments
    firstPoints := story.Points
    lastPoints := story.Points
    firstComments := story.Comments
    lastComments := story.Comments
    firstFetchedAt := fetchedAt
    lastFetchedAt := fetchedAt }

/-- The update of an existing accumulator at a further occurrence of its story
(the `else` branch). -/
def updateStoryData (sd : storyData) (fetchedAt : Int) (story : Story) : storyData :=
  let later : Bool := decide (fetchedAt > sd.lastFetchedAt)
  { storyID := sd.storyID
    headline := story.Headline
    url := story.URL
    username := story.Username
    discussionURL := story.DiscussionURL
    bestRank := if story.Rank < sd.bestRank then story.Rank else sd.bestRank
    maxPoints := if story.Points > sd.maxPoints then story.Points else sd.maxPoints
    maxComments := if story.Comments > sd.maxComments then story.Comments else sd.maxComments
    firstPoints := sd.firstPoints
    lastPoints := if later then story.Points else sd.lastPoints
    firstComments := sd.firstComments
    lastComments := if later then story.Comments else sd.lastComments
    firstFetchedAt := sd.firstFetchedAt
    lastFetchedAt := if later then fetchedAt else sd.lastFetchedAt }

/-- Map lookup `storyMap[id]`. -/
def mapLookup (m : List storyData) (id : String) : Option storyData :=
  m.find? (fun sd => sd.storyID == id)

/-- The body of the inner loop: one story of one snapshot. -/
def processStory (m : List storyData) (fetchedAt : Int) (story : Story) : List storyData :=
  match mapLookup m story.StoryID with
  | none => m ++ [newStoryData fetchedAt story]
  | some _ =>
    m.map (fun sd => if sd.storyID == story.StoryID then updateStoryData sd fetchedAt story else sd)

/-- The inner loop: all stories of one snapshot. -/
def processSnapshot (m : List storyData) (snapshot : Snapshot) : List storyData :=
  snapshot.Stories.foldl (fun m story => processStory m snapshot.FetchedAt story) m

/-- The aggregation loop over the sorted snapshots, from the empty map. -/
def aggregate (sortedSnapshots : List Snapshot) : List storyData :=
  sortedSnapshots.foldl processSnapshot []

/-- The `switch criteria` computing the metric of an accumulator; a criteria
matching no case leaves the zero value. -/
def computeMetric (criteria : String) (sd : storyData) : Int :=
  if criteria = CriteriaBestRank then negInt64 sd.bestRank
  else if criteria = CriteriaMaxPoints then sd.maxPoints
  else if criteria = CriteriaMaxComments then sd.maxComments
  else if criteria = CriteriaIncrementalComments then subInt64 sd.lastComments sd.firstComments
  else if criteria = CriteriaIncrementalPoints then subInt64 sd.lastPoints sd.firstPoints
  else 0

/-- The `models.RankedStory` built from an accumulator. -/
def toRankedStory (sd : storyData) : RankedStory :=
  { StoryID := sd.storyID
    Headline := sd.headline
    URL := sd.url
    Username := sd.username
    DiscussionURL := sd.discussionURL
    BestRank := sd.bestRank
    MaxPoints := sd.maxPoints
    MaxComments := sd.maxComments
    IncrementalPoints := subInt64 sd.lastPoints sd.firstPoints
    IncrementalComments := subInt64 sd.lastComments sd.firstComments }

/-- How a call ends: with a value, with a returned `error`, or in a run-time
panic. -/
inductive CallResult (α : Type) where
  | ok (value : α)
  | error (msg : String)
  | panic (msg : String)
  deriving DecidableEq, Repr

/-- The comparison of the first `sort.Slice`: ascending `FetchedAt`. -/
def lessFetchedAt (a b : Snapshot) : Bool := decide (a.FetchedAt < b.FetchedAt)

/-- The comparison of the second `sort.Slice`: descending metric. -/
def lessMetric (a b : storyData × Int) : Bool := decide (a.2 > b.2)

/-- The map built by the aggregation loop of `ComputeTopStories`. -/
def storyMapOf (S : SliceSorter) (snapshots : List Snapshot) : List storyData :=
  aggregate (S.sortSlice lessFetchedAt snapshots)

/-- The slice `stories` after the second `sort.Slice`. -/
def sortedStories (S : SliceSorter) (R : MapRange) (snapshots : List Snapshot)
    (criteria : String) : List (storyData × Int) :=
  S.sortSlice lessMetric
    ((R.range (storyMapOf S snapshots)).map (fun sd => (sd, computeMetric criteria sd)))

/-- The function `ComputeTopStories`. -/
def ComputeTopStories (S : SliceSorter) (R : MapRange) (snapshots : List Snapshot)
    (criteria : String) (limit : Int) : CallResult (List RankedStory) :=
  if !IsValidCriteria criteria then
    .error ("invalid criteria: " ++ criteria)
  else
    let stories := sortedStories S R snapshots criteria
    let limit := if limit > (stories.length : Int) then (stories.length : Int) else limit
    if limit < 0 then
      .panic "runtime error: makeslice: len out of range"
    else
      .ok ((stories.take limit.toNat).map (fun e => toRankedStory e.1))

/-! ## Vocabulary of the specification -/

/-- The ranking metric of a returned record, read off its fields with Go's
arithmetic: `-best_rank`, `max_points`, `max_comments`, `incremental_comments`,
`incremental_points`. -/
def rankedMetric (criteria : String) (r : RankedStory) : Int :=
  if criteria = CriteriaBestRank then negInt64 r.BestRank
  else if criteria = CriteriaMaxPoints then r.MaxPoints
  else if criteria = CriteriaMaxComments then r.MaxComments
  else if criteria = CriteriaIncrementalComments then r.IncrementalComments
  else if criteria = CriteriaIncrementalPoints then r.IncrementalPoints
  else 0

/-- All story records of all snapshots. -/
def allStories (snapshots : List Snapshot) : List Story :=
  snapshots.flatMap (fun s => s.Stories)

/-- All records of one story across the snapshots. -/
def occurrencesOf (id : String) (snapshots : List Snapshot) : List Story :=
  (allStories snapshots).filter (fun st => st.StoryID == id)

/-- The number of distinct `story_id` values occurring in the snapshots. -/
def distinctStoryCount (snapshots : List Snapshot) : Nat :=
  ((allStories snapshots).map (fun st => st.StoryID)).dedup.length

/-- Whether a snapshot lists the story. -/
def containsStory (id : String) (s : Snapshot) : Bool :=
  s.Stories.any (fun st => st.StoryID == id)

/-- The record of the story in a snapshot (the first one, should the snapshot
list the story more than once). -/
def recordIn (id : String) (s : Snapshot) : Option Story :=
  s.Stories.find? (fun st => st.StoryID == id)

/-- The order of the specification's story time series: ascending `fetched_at`,
ties broken by snapshot id ascending. -/
def timeOrderLE (a b : Snapshot) : Prop :=
  a.FetchedAt < b.FetchedAt ∨ (a.FetchedAt = b.FetchedAt ∧ a.ID ≤ b.ID)

instance : DecidableRel timeOrderLE := fun a b => by
  unfold timeOrderLE; exact inferInstance

instance : IsAntisymm Snapshot (fun a b => a.FetchedAt < b.FetchedAt) :=
  ⟨fun _ _ h1 h2 => absurd h1 (not_lt_of_gt h2)⟩

instance : IsTotal Snapshot timeOrderLE :=
  ⟨fun a b => by unfold timeOrderLE; omega⟩

instance : IsTrans Snapshot timeOrderLE :=
  ⟨fun a b c h1 h2 => by unfold timeOrderLE at *; omega⟩

/-- The snapshots that list the story, in the order of the time series. -/
def timeSeries (id : String) (snapshots : List Snapshot) : List Snapshot :=
  (List.insertionSort timeOrderLE snapshots).filter (containsStory id)

/-- The occurrence of the story in the earliest snapshot containing it. -/
def firstOccurrence (id : String) (snapshots : List Snapshot) : Option Story :=
  (timeSeries id snapshots).head?.bind (recordIn id)

/-- The occurrence of the story in the latest snapshot containing it. -/
def lastOccurrence (id : String) (snapshots : List Snapshot) : Option Story :=
  (timeSeries id snapshots).getLast?.bind (recordIn id)

/-! ## Sample data -/

/-- A story record with the given identifier, rank, points, and comments. -/
def sampleStory (id : String) (rank points comments : Int) : Story :=
  { StoryID := id, Rank := rank, Headline := "headline", URL := "url", Username := "user",
    Points := points, Comments := comments, DiscussionURL := "discussion",
    AgeValue := 1, AgeUnit := "hours", Page := 1 }

/-- A snapshot with the given id, fetch time and stories. -/
def sampleSnapshot (id fetchedAt : Int) (stories : List Story) : Snapshot :=
  { ID := id, FetchedAt := fetchedAt, NumPages := 1,
    TotalStories := stories.length, Stories := stories }

/-- Two snapshots one minute apart, with two stories that both reach rank 1. -/
def sampleWindow : List Snapshot :=
  [sampleSnapshot 1 0 [sampleStory "storyA" 1 10 3, sampleStory "storyB" 2 40 5],
   sampleSnapshot 2 60 [sampleStory "storyB" 1 45 9, sampleStory "storyA" 2 20 4]]

/-- Two snapshots with one fetch time, the story gaining ten points from the
first to the second. -/
def tieWindow : List Snapshot :=
  [sampleSnapshot 1 0 [sampleStory "storyA" 1 10 3],
   sampleSnapshot 2 0 [sampleStory "storyA" 1 20 5]]

/-- A window in which storyC is listed by one snapshot only. -/
def lateArrival : List Snapshot :=
  [sampleSnapshot 1 0 [sampleStory "storyA" 1 10 3],
   sampleSnapshot 2 60 [sampleStory "storyA" 1 20 5, sampleStory "storyC" 2 7 1]]

/-- Two snapshots with one fetch time followed by a later one; storyA has 10,
20 and then 50 points. -/
def tieThenLater : List Snapshot :=
  [sampleSnapshot 1 0 [sampleStory "storyA" 1 10 3],
   sampleSnapshot 2 0 [sampleStory "storyA" 1 20 5],
   sampleSnapshot 3 60 [sampleStory "storyA" 1 50 9]]

/-- The snapshots of `tieThenLater` with the first two exchanged. -/
def tieThenLaterSwapped : List Snapshot :=
  [sampleSnapshot 2 0 [sampleStory "storyA" 1 20 5],
   sampleSnapshot 1 0 [sampleStory "storyA" 1 10 3],
   sampleSnapshot 3 60 [sampleStory "storyA" 1 50 9]]

/-- A record of storyA under the given headline. -/
def titled (headline : String) : Story :=
  { sampleStory "storyA" 1 10 3 with Headline := headline }

/-- The story is retitled between the first snapshot and the second. -/
def retitledWindow : List Snapshot :=
  [sampleSnapshot 1 0 [titled "old title"], sampleSnapshot 2 60 [titled "new title"]]

/-- Two snapshots with one fetch time, the one with the greater id carrying the
new title. -/
def retitledTie : List Snapshot :=
  [sampleSnapshot 1 60 [titled "old title"], sampleSnapshot 2 60 [titled "new title"]]

/-- The snapshots of `retitledTie` exchanged. -/
def retitledTieSwapped : List Snapshot :=
  [sampleSnapshot 2 60 [titled "new title"], sampleSnapshot 1 60 [titled "old title"]]

/-! ## Auxiliary definitions for the proofs -/

/-- The keys of the map, in insertion order. -/
def mapKeys (m : List storyData) : List String := m.map (fun sd => sd.storyID)

/-- The story records the two nested loops visit, in the order they visit
them, each with the `FetchedAt` of its snapshot. -/
def visits (snapshots : List Snapshot) : List (Int × Story) :=
  snapshots.flatMap (fun s => s.Stories.map (fun st => (s.FetchedAt, st)))

/-- The visits of one story. -/
def visitsOf (id : String) (os : List (Int × Story)) : List (Int × Story) :=
  os.filter (fun o => o.2.StoryID == id)

/-- The loop body applied to a visit. -/
def visitStep (m : List storyData) (o : Int × Story) : List storyData :=
  processStory m o.1 o.2

/-- An accumulator updated at each of the given visits. -/
def foldStory (sd : storyData) (os : List (Int × Story)) : storyData :=
  os.foldl (fun sd o => updateStoryData sd o.1 o.2) sd

/-- The accumulator of a story after the given visits of it. -/
def storyAfter : List (Int × Story) → Option storyData
  | [] => none
  | o :: os => some (foldStory (newStoryData o.1 o.2) os)

/-- The visits of one story inside one snapshot. -/
def visitBlock (id : String) (s : Snapshot) : List (Int × Story) :=
  (s.Stories.filter (fun st => st.StoryID == id)).map (fun st => (s.FetchedAt, st))

/-- The first-seen points and comments of an accumulator. -/
def firstFields (sd : storyData) : Int × Int := (sd.firstPoints, sd.firstComments)

/-- The last-seen points and comments of an accumulator. -/
def lastFields (sd : storyData) : Int × Int := (sd.lastPoints, sd.lastComments)

/-- The points and comments of a story record. -/
def recordFields (st : Story) : Int × Int := (st.Points, st.Comments)

/-- The display metadata of an accumulator: headline, url, username, discussion url. -/
def metadataOf (sd : storyData) : String × String × String × String :=
  (sd.headline, sd.url, sd.username, sd.discussionURL)

/-- The display metadata of a story record. -/
def storyMetadata (st : Story) : String × String × String × String :=
  (st.Headline, st.URL, st.Username, st.DiscussionURL)

end Compute

/-!
# Snapshot store

A shallow embedding of `snapshotdb/store/store.go`.

Modelling conventions.

* A `time.Time` is an instant, an integer count of nanoseconds since the Unix
  epoch, together with the offset from UTC of its location at that instant
  (`Time`).
* The driver `go-sqlite3` writes a `time.Time`, as a column value and as a query
  argument alike, as the text `t.Format("2006-01-02 15:04:05.999999999-07:00")`
  (`timestampText`), and reads the text back into the same time.  SQLite
  compares and orders such texts byte by byte.
* The SQLite database is two tables of rows with their `AUTOINCREMENT`
  sequences.  A transaction works on its own view of the tables; `Commit`
  installs the view, `Rollback` drops it, and a `Rollback` after a `Commit` does
  nothing.  Reads see the committed tables.
* Every call into the database can fail.  Which calls fail is a parameter
  (`SaveFaults`, `QueryFaults`), as is the error each one reports.
* `ORDER BY` rearranges the selected rows so that they ascend in the ordering
  column and promises nothing about rows equal in it: it obeys the contract
  `Compute.SliceSorter.Lawful`, and the routine the engine uses is a parameter.
-/

namespace Store

/-- A `time.Time`: the instant, in nanoseconds since the Unix epoch, and the
offset of its location from UTC at that instant, in seconds. -/
structure Time where
  instant : Int
  offset : Int
  deriving DecidableEq, Repr

/-- The decimal digits of a number, at least `width` of them. -/
def padded (width : Nat) (n : Nat) : List Char :=
  let ds := Nat.toDigits 10 n
  List.replicate (width - ds.length) '0' ++ ds

/-- The year, month and day of the day `days` days after 1 January 1970, in the
proleptic Gregorian calendar. -/
def civilDate (days : Int) : Int × Int × Int :=
  let z := days + 719468
  let era := z / 146097
  let doe := z % 146097
  let yoe := (doe - doe / 1460 + doe / 36524 - doe / 146096) / 365
  let doy := doe - (365 * yoe + yoe / 4 - yoe / 100)
  let mp := (5 * doy + 2) / 153
  let d := doy - (153 * mp + 2) / 5 + 1
  let m := if mp < 10 then mp + 3 else mp - 9
  let y := yoe + era * 400
  (if m ≤ 2 then y + 1 else y, m, d)

/-- The fraction of a second as the layout `.999999999` prints it: nothing for a
whole second, otherwise a point and the nine digits without trailing zeros. -/
def fractionText (nanos : Nat) : List Char :=
  if nanos = 0 then []
  else '.' :: ((padded 9 nanos).reverse.dropWhile (fun c => c == '0')).reverse

/-- The text `t.Format("2006-01-02 15:04:05.999999999-07:00")`, which is what the
driver stores in a column and binds to a `?` for the time `t`. -/
def timestampText (t : Time) : List Char :=
  let localNanos := t.instant + t.offset * 1000000000
  let secs := localNanos / 1000000000
  let nanos := localNanos % 1000000000
  let date := civilDate (secs / 86400)
  let sod := secs % 86400
  let zone := Int.tdiv t.offset 60
  (if date.1 < 0 then ['-'] else []) ++ padded 4 date.1.natAbs ++ ['-'] ++
    padded 2 date.2.1.toNat ++ ['-'] ++ padded 2 date.2.2.toNat ++ [' '] ++
    padded 2 (sod / 3600).toNat ++ [':'] ++ padded 2 (sod % 3600 / 60).toNat ++ [':'] ++
    padded 2 (sod % 60).toNat ++ fractionText nanos.toNat ++
    [if zone < 0 then '-' else '+'] ++ padded 2 (zone.natAbs / 60) ++ [':'] ++
    padded 2 (zone.natAbs % 60)

/-- The record `store.Story`; also a row of table `stories`. -/
structure Story where
  ID : Int
  SnapshotID : Int
  StoryID : String
  Rank : Int
  Headline : String
  URL : String
  Username : String
  Points : Int
  Comments : Int
  DiscussionURL : String
  AgeValue : Int
  AgeUnit : String
  Page : Int
  deriving DecidableEq, Repr

/-- The record `store.Snapshot`. -/
structure Snapshot where
  ID : Int
  FetchedAt : Time
  NumPages : Int
  TotalStories : Int
  Stories : List Story
  deriving DecidableEq, Repr

/-- A row of table `snapshots`. -/
structure SnapshotRow where
  id : Int
  fetched_at : Time
  num_pages : Int
  total_stories : Int
  deriving DecidableEq, Repr

/-- The two tables and the sequences from which `AUTOINCREMENT` draws ids: each
holds the largest id handed out so far. -/
structure Tables where
  snapshots : List SnapshotRow
  stories : List Story
  snapshotSeq : Int
  storySeq : Int
  deriving DecidableEq, Repr

/-- The database handle: the committed tables and the view of the open
transaction, if one is open. -/
structure Conn where
  committed : Tables
  tx : Option Tables
  deriving DecidableEq, Repr

/-- The database created by `createTables`. -/
def emptyTables : Tables := { snapshots := [], stories := [], snapshotSeq := 0, storySeq := 0 }

/-- The handle returned by `New` on a fresh database file. -/
def emptyConn : Conn := { committed := emptyTables, tx := none }

/-- Statement `INSERT INTO snapshots (fetched_at, num_pages, total_stories)`;
returns the new tables and the id of the inserted row. -/
def insertSnapshotRow (t : Tables) (fetchedAt : Time) (numPages totalStories : Int) :
    Tables × Int :=
  let id := t.snapshotSeq + 1
  ({ t with
      snapshots := t.snapshots ++
        [{ id := id, fetched_at := fetchedAt, num_pages := numPages,
           total_stories := totalStories }]
      snapshotSeq := id }, id)

/-- Statement `INSERT INTO stories (snapshot_id, story_id, ...)`. -/
def insertStoryRow (t : Tables) (snapshotID : Int) (story : Story) : Tables :=
  let id := t.storySeq + 1
  { t with
    stories := t.stories ++ [{ story with ID := id, SnapshotID := snapshotID }]
    storySeq := id }

/-- Call `db.Begin()`. -/
def Conn.beginTx (c : Conn) : Conn := { c with tx := some c.committed }

/-- A statement run inside the open transaction. -/
def Conn.txExec (c : Conn) (f : Tables → Tables) : Conn := { c with tx := c.tx.map f }

/-- Call `tx.Rollback()`: drops the view of the open transaction; without an open
transaction it does nothing. -/
def Conn.rollback (c : Conn) : Conn := { c with tx := none }

/-- Call `tx.Commit()` that succeeds. -/
def Conn.commit (c : Conn) : Conn :=
  match c.tx with
  | some t => { committed := t, tx := none }
  | none => c

/-- Call `tx.Commit()` that fails: nothing is installed and the transaction is over. -/
def Conn.commitFailed (c : Conn) : Conn := { c with tx := none }

/-- Which steps of `SaveSnapshot` fail, and with what error. -/
structure SaveFaults where
  beginTx : Option String
  insertSnapshot : Option String
  lastInsertId : Option String
  prepare : Option String
  insertStory : Nat → Option String
  commit : Option String

/-- No step fails. -/
def noSaveFaults : SaveFaults :=
  { beginTx := none, insertSnapshot := none, lastInsertId := none, prepare := none,
    insertStory := fun _ => none, commit := none }

/-- Statement `INSERT INTO snapshots` run inside the open transaction, followed by
`result.LastInsertId()`. -/
def Conn.txInsertSnapshot (c : Conn) (fetchedAt : Time) (numPages totalStories : Int) :
    Conn × Int :=
  match c.tx with
  | some t =>
    let r := insertSnapshotRow t fetchedAt numPages totalStories
    ({ c with tx := some r.1 }, r.2)
  | none => (c, 0)

/-- The loop over `snapshot.Stories`; `i` counts the stories already inserted. -/
def insertStories (faults : SaveFaults) (snapshotID : Int) :
    List Story → Nat → Conn → Conn × Option String
  | [], _, c => (c, none)
  | story :: rest, i, c =>
    match faults.insertStory i with
    | some err => (c, some err)
    | none =>
      insertStories faults snapshotID rest (i + 1)
        (c.txExec (fun t => insertStoryRow t snapshotID story))

/-- The method `Store.SaveSnapshot`.  Every return after `Begin` runs the deferred
`tx.Rollback()`. -/
def SaveSnapshot (c : Conn) (faults : SaveFaults) (snapshot : Snapshot) :
    Conn × Option String :=
  match faults.beginTx with
  | some err => (c, some err)
  | none =>
    let c := c.beginTx
    match faults.insertSnapshot with
    | some err => (c.rollback, some err)
    | none =>
      let inserted := c.txInsertSnapshot snapshot.FetchedAt snapshot.NumPages
        snapshot.TotalStories
      let c := inserted.1
      match faults.lastInsertId with
      | some err => (c.rollback, some err)
      | none =>
        let snapshotID := inserted.2
        match faults.prepare with
        | some err => (c.rollback, some err)
        | none =>
          match insertStories faults snapshotID snapshot.Stories 0 c with
          | (c, some err) => (c.rollback, some err)
          | (c, none) =>
            match faults.commit with
            | some err => (c.commitFailed.rollback, some err)
            | none => (c.commit.rollback, none)

/-! ## Reads -/

/-- Which steps of one query fail: the query itself, the `rows.Scan` of the
`i`-th row, or the iteration, which then stops before the `i`-th row and
reports the error through `rows.Err()`. -/
structure QueryFaults where
  query : Option String
  scan : Nat → Option String
  iter : Option (Nat × String)

/-- No step fails. -/
def noQueryFaults : QueryFaults := { query := none, scan := fun _ => none, iter := none }

/-- The error with which the iteration stops before row `i`, if it does. -/
def iterErrAt (f : QueryFaults) (i : Nat) : Option String :=
  match f.iter with
  | some (k, err) => if k = i then some err else none
  | none => none

/-- The loop `for rows.Next() { ... }` followed by `return acc, rows.Err()`:
`body` is what the loop does with a scanned row, an error of which returns
`nil` and the error at once. -/
def scanLoop {ρ α : Type} (f : QueryFaults) (body : ρ → Except String α) :
    List ρ → Nat → List α → List α × Option String
  | [], i, acc => (acc, iterErrAt f i)
  | row :: rest, i, acc =>
    match iterErrAt f i with
    | some err => (acc, some err)
    | none =>
      match f.scan i with
      | some err => ([], some err)
      | none =>
        match body row with
        | .error err => ([], some err)
        | .ok a => scanLoop f body rest (i + 1) (acc ++ [a])

/-- Clause `ORDER BY rank`. -/
def lessRank (a b : Story) : Bool := decide (a.Rank < b.Rank)

/-- Clause `ORDER BY fetched_at`: the order of the stored texts, byte by byte. -/
def lessFetched (a b : SnapshotRow) : Bool :=
  decide (timestampText a.fetched_at < timestampText b.fetched_at)

/-- Clause `ORDER BY fetched_at DESC`. -/
def lessFetchedDesc (a b : SnapshotRow) : Bool :=
  decide (timestampText b.fetched_at < timestampText a.fetched_at)

/-- Clause `ORDER BY stories.story_id`: the lexical order of the texts, character
by character. -/
def lessStoryID (a b : String) : Bool := decide (a.toList < b.toList)

/-- Clause `WHERE fetched_at >= ? AND fetched_at <= ?`: the stored text is
compared with the texts bound for the two times. -/
def inRange (fromTime toTime : Time) (row : SnapshotRow) : Bool :=
  !decide (timestampText row.fetched_at < timestampText fromTime) &&
    !decide (timestampText toTime < timestampText row.fetched_at)

/-- The method `Store.getStoriesForSnapshot`. -/
def getStoriesForSnapshot (E : Compute.SliceSorter) (db : Tables) (f : QueryFaults)
    (snapshotID : Int) : List Story × Option String :=
  match f.query with
  | some err => ([], some err)
  | none =>
    scanLoop f (fun row => Except.ok row)
      (E.sortSlice lessRank (db.stories.filter (fun st => st.SnapshotID == snapshotID))) 0 []

/-- The body of the loop of `GetSnapshotsInRange` after the scan of a row. -/
def loadSnapshot (E : Compute.SliceSorter) (db : Tables) (fs : Int → QueryFaults)
    (row : SnapshotRow) : Except String Snapshot :=
  match getStoriesForSnapshot E db (fs row.id) row.id with
  | (_, some err) => .error err
  | (stories, none) =>
    .ok { ID := row.id, FetchedAt := row.fetched_at, NumPages := row.num_pages,
          TotalStories := row.total_stories, Stories := stories }

/-- The method `Store.GetSnapshotsInRange`; `fs id` are the faults of the query
for the stories of snapshot `id`. -/
def GetSnapshotsInRange (E : Compute.SliceSorter) (db : Tables) (f : QueryFaults)
    (fs : Int → QueryFaults) (fromTime toTime : Time) : List Snapshot × Option String :=
  match f.query with
  | some err => ([], some err)
  | none =>
    scanLoop f (loadSnapshot E db fs)
      (E.sortSlice lessFetched (db.snapshots.filter (inRange fromTime toTime))) 0 []

/-- The rows of `stories JOIN snapshots ON stories.snapshot_id = snapshots.id`. -/
def joinStoriesSnapshots (db : Tables) : List (Story × SnapshotRow) :=
  db.stories.flatMap (fun st =>
    (db.snapshots.filter (fun sn => st.SnapshotID == sn.id)).map (fun sn => (st, sn)))

/-- The method `Store.GetStoryIDsInRange`. -/
def GetStoryIDsInRange (E : Compute.SliceSorter) (db : Tables) (f : QueryFaults)
    (fromTime toTime : Time) : List String × Option String :=
  match f.query with
  | some err => ([], some err)
  | none =>
    scanLoop f (fun id => Except.ok id)
      (E.sortSlice lessStoryID
        (((joinStoriesSnapshots db).filter (fun p => inRange fromTime toTime p.2)).map
          (fun p => p.1.StoryID)).dedup) 0 []

/-- The method `Store.GetLastSnapshotTime`: `fault` is an error of the query other
than `sql.ErrNoRows`.  The result is the instant of the time read; the scheduler
calls `Add` and `Before` on it, which depend on nothing else. -/
def GetLastSnapshotTime (E : Compute.SliceSorter) (db : Tables) (fault : Option String) :
    Option Int × Option String :=
  match fault with
  | some err => (none, some err)
  | none =>
    match (E.sortSlice lessFetchedDesc db.snapshots).head? with
    | none => (none, none)
    | some row => (some row.fetched_at.instant, none)

/-! ## Vocabulary of the specification -/

/-- The header of a returned snapshot: the row of table `snapshots` it was read from. -/
def Snapshot.header (s : Snapshot) : SnapshotRow :=
  { id := s.ID, fetched_at := s.FetchedAt, num_pages := s.NumPages,
    total_stories := s.TotalStories }

/-- A story record without the two columns the database fills in. -/
def Story.content (st : Story) : Story := { st with ID := 0, SnapshotID := 0 }

/-- The rows `SaveSnapshot` adds to table `stories`: the stories in their order,
with consecutive ids after `seq` and the id of the new snapshot. -/
def storyRows (snapshotID : Int) : Int → List Story → List Story
  | _, [] => []
  | seq, story :: rest =>
    { story with ID := seq + 1, SnapshotID := snapshotID } :: storyRows snapshotID (seq + 1) rest

/-- No snapshot row and no story row refers to a snapshot id the sequence has not
handed out yet.  It holds of the empty database and every `SaveSnapshot` keeps it. -/
def Tables.WellFormed (t : Tables) : Prop :=
  (∀ r ∈ t.snapshots, r.id ≤ t.snapshotSeq) ∧ (∀ st ∈ t.stories, st.SnapshotID ≤ t.snapshotSeq)

/-- The handle after a series of further `SaveSnapshot` calls. -/
def saveAll (c : Conn) (calls : List (SaveFaults × Snapshot)) : Conn :=
  calls.foldl (fun c call => (SaveSnapshot c call.1 call.2).1) c

/-- The tables `new` hold everything `old` holds, and what they hold beyond it belongs
to snapshot ids past the sequence of `old`. -/
def Tables.Extends (old new : Tables) : Prop :=
  ∃ sn st, new.snapshots = old.snapshots ++ sn ∧ new.stories = old.stories ++ st ∧
    (∀ r ∈ sn, old.snapshotSeq < r.id) ∧ (∀ x ∈ st, old.snapshotSeq < x.SnapshotID) ∧
    old.snapshotSeq ≤ new.snapshotSeq

/-! ## Sample data -/

/-- A story as the fetcher hands it over: no row id, no snapshot id yet. -/
def sampleStory (id : String) (rank points comments : Int) : Story :=
  { ID := 0, SnapshotID := 0, StoryID := id, Rank := rank, Headline := "headline",
    URL := "url", Username := "user", Points := points, Comments := comments,
    DiscussionURL := "discussion", AgeValue := 1, AgeUnit := "hours", Page := 1 }

/-- A fetched snapshot of two stories, the second-ranked one listed first. -/
def sampleFetched : Snapshot :=
  { ID := 0, FetchedAt := { instant := 60, offset := 0 }, NumPages := 1, TotalStories := 2,
    Stories := [sampleStory "storyB" 2 40 5, sampleStory "storyA" 1 10 3] }

/-- The time `time.Unix(sec, 0)` of a process whose local zone is UTC. -/
def unixUTC (sec : Int) : Time := { instant := sec * 1000000000, offset := 0 }

/-- The snapshot fetched on 6 December 2025 at 10:30:00 UTC. -/
def fetched2025 : Snapshot :=
  { sampleFetched with FetchedAt := { instant := 1765017000000000000, offset := 0 } }

/-- A snapshot fetched half an hour before `fetched2025`, at 12:00:00 in a zone
two hours east of UTC. -/
def fetchedEast : Snapshot :=
  { sampleFetched with FetchedAt := { instant := 1765015200000000000, offset := 7200 } }

/-- The store after one save of `fetched2025`. -/
def store2025 : Tables := (SaveSnapshot emptyConn noSaveFaults fetched2025).1.committed

/-- Only the commit fails. -/
def commitFails : SaveFaults := { noSaveFaults with commit := some "disk I/O error" }

/-- Only the insertion of the second story fails. -/
def secondStoryFails : SaveFaults :=
  { noSaveFaults with insertStory := fun i => if i = 1 then some "disk full" else none }

end Store

/-!
# Fetch client and scheduler

A shallow embedding of `FetchWithRetry` of `snapshotdb/parser/client.go` and of
the fetch cycle of `snapshotdb/scheduler/scheduler.go`.

Modelling conventions.

* A `time.Duration` is an integer count of nanoseconds.
* The outcome of the `k`-th call of `doFetch` (an HTTP exchange) is a parameter.
* Every reading of the clock (`time.Now()`) is a parameter of the step that takes
  it, so that readings taken at different points of a step may differ.
* The counters of `Stats` are integers: they grow by one per fetch cycle and stay
  far below the 64-bit range.
* Locks, goroutines and channels are left out: the embedding is the sequential
  behaviour of one fetch cycle and of the start-up of `run`.
-/

namespace Parser

/-- What a call of `FetchWithRetry` does: the pair it returns, the number of calls of
`doFetch` it makes and the durations it hands to `time.Sleep`, in order. -/
structure FetchRun where
  result : Except String Store.Snapshot
  attempts : Nat
  sleeps : List Int
  deriving Repr

/-- The initial `delay`, `100 * time.Millisecond`. -/
def baseDelay : Int := 100 * 1000000

/-- The bound `maxDelay`, `5 * time.Second`. -/
def maxDelay : Int := 5 * 1000000000

/-- The error `fmt.Errorf("failed after %d retries: %w", maxRetries, lastErr)`. -/
def failedAfter (maxRetries : Int) (lastErr : Option String) : String :=
  "failed after " ++ toString maxRetries ++ " retries: " ++ lastErr.getD "%!w(<nil>)"

/-- The loop of `FetchWithRetry` from the state (`attempt`, `delay`, `lastErr`) on;
`sleeps` are the sleeps so far and `fuel` bounds the iterations still to run. -/
def retryLoop (doFetch : Nat → Except String Store.Snapshot) (maxRetries : Int) :
    Nat → Nat → Int → Option String → List Int → FetchRun
  | 0, attempt, _, lastErr, sleeps =>
    { result := .error (failedAfter maxRetries lastErr), attempts := attempt, sleeps := sleeps }
  | fuel + 1, attempt, delay, lastErr, sleeps =>
    if (attempt : Int) < maxRetries then
      match doFetch attempt with
      | .ok snapshot => { result := .ok snapshot, attempts := attempt + 1, sleeps := sleeps }
      | .error err =>
        if (attempt : Int) < maxRetries - 1 then
          let doubled := delay * 2
          retryLoop doFetch maxRetries fuel (attempt + 1)
            (if doubled > maxDelay then maxDelay else doubled) (some err) (sleeps ++ [delay])
        else
          retryLoop doFetch maxRetries fuel (attempt + 1) delay (some err) sleeps
    else
      { result := .error (failedAfter maxRetries lastErr), attempts := attempt,
        sleeps := sleeps }

/-- The method `Client.FetchWithRetry`.  The loop runs `maxRetries` times at most,
which is the fuel it is given. -/
def FetchWithRetry (doFetch : Nat → Except String Store.Snapshot) (maxRetries : Int) :
    FetchRun :=
  retryLoop doFetch maxRetries maxRetries.toNat 0 baseDelay none []

/-- The method `Client.Fetch`. -/
def Fetch (doFetch : Nat → Except String Store.Snapshot) : FetchRun :=
  FetchWithRetry doFetch 5

/-- The wait the specification prescribes after the `k`-th failed attempt, counted
from `k = 0` for the first: `min(100ms * 2^k, 5s)`. -/
def backoff (k : Nat) : Int := min (baseDelay * 2 ^ k) maxDelay

/-- A fetcher that fails twice and then delivers. -/
def thirdTimeLucky (k : Nat) : Except String Store.Snapshot :=
  if k < 2 then .error "connection refused" else .ok Store.sampleFetched

/-- A fetcher that never delivers. -/
def alwaysDown (_ : Nat) : Except String Store.Snapshot := .error "connection refused"

end Parser

namespace Scheduler

/-- The record `scheduler.Stats`, without its lock. -/
structure Stats where
  StartedAt : Int
  SnapshotsTotal : Int
  SnapshotsErrors : Int
  LastSnapshotAt : Option Int
  NextSnapshotAt : Option Int
  deriving DecidableEq, Repr

/-- The record `logger.ErrorEntry`, a line of the error log. -/
structure ErrorEntry where
  Timestamp : Int
  Error : String
  Context : String
  deriving DecidableEq, Repr

/-- What the scheduler owns and writes to: its statistics, the database and the
error log. -/
structure State where
  stats : Stats
  db : Store.Conn
  errorLog : List ErrorEntry
  deriving Repr

/-- What a call of `logError` meets: the clock reading (Unix seconds) and whether the
write to the log file fails. -/
structure LogEnv where
  now : Int
  writeFails : Bool

/-- The scheduler built by `New` at time `now`, over the given database and log. -/
def New (now : Int) (db : Store.Conn) (errorLog : List ErrorEntry) : State :=
  { stats := { StartedAt := now, SnapshotsTotal := 0, SnapshotsErrors := 0,
               LastSnapshotAt := none, NextSnapshotAt := none },
    db := db, errorLog := errorLog }

/-- The method `Scheduler.logError`: a failure of the logger is only printed. -/
def logError (st : State) (env : LogEnv) (errMsg context : String) : State :=
  if env.writeFails then st
  else { st with errorLog := st.errorLog ++
          [{ Timestamp := env.now, Error := errMsg, Context := context }] }

/-- What one fetch cycle meets: the clock on entry, the outcomes of the calls of
`doFetch`, the faults of the save, the clock after the save, and the logger. -/
structure CycleEnv where
  nowStart : Int
  doFetch : Nat → Except String Store.Snapshot
  saveFaults : Store.SaveFaults
  nowSaved : Int
  log : LogEnv

/-- The method `Scheduler.fetchSnapshot`, one fetch cycle; `freq` is `s.freq`. -/
def fetchSnapshot (freq : Int) (env : CycleEnv) (st : State) : State :=
  let next := env.nowStart + freq
  let st := { st with stats := { st.stats with NextSnapshotAt := some next } }
  match (Parser.Fetch env.doFetch).result with
  | .error err =>
    let st := logError st env.log err "fetch_snapshot"
    { st with stats := { st.stats with SnapshotsErrors := st.stats.SnapshotsErrors + 1 } }
  | .ok snapshot =>
    match Store.SaveSnapshot st.db env.saveFaults snapshot with
    | (db, some err) =>
      let st := logError { st with db := db } env.log err "save_snapshot"
      { st with stats := { st.stats with SnapshotsErrors := st.stats.SnapshotsErrors + 1 } }
    | (db, none) =>
      let now := env.nowSaved
      { st with
        db := db
        stats := { st.stats with
          SnapshotsTotal := st.stats.SnapshotsTotal + 1
          LastSnapshotAt := some now } }

/-- What the start-up of `run` meets: the fault of the query for the last snapshot
time, the logger, and the clock readings in the order the code may take them: in
the branch without a previous snapshot, in the test `nextFetch.Before(time.Now())`,
in the clamping assignment, and in `time.Until(nextFetch)`. -/
structure StartEnv where
  lastQueryFault : Option String
  log : LogEnv
  nowNoPrevious : Int
  nowCheck : Int
  nowClamp : Int
  nowUntil : Int

/-- The start-up of `run` up to the initial wait. -/
structure StartResult where
  state : State
  nextFetch : Int
  initialDelay : Int

/-- The method `Scheduler.run` from its entry to the computation of `initialDelay`;
the initial wait takes place when `initialDelay > 0`. -/
def startup (E : Compute.SliceSorter) (freq : Int) (env : StartEnv) (st : State) :
    StartResult :=
  let last := Store.GetLastSnapshotTime E st.db.committed env.lastQueryFault
  let st := match last.2 with
    | some err => logError st env.log err "get_last_snapshot_time"
    | none => st
  let nextFetch := match last.1 with
    | none => env.nowNoPrevious
    | some lastSnapshot =>
      let nextFetch := lastSnapshot + freq
      if nextFetch < env.nowCheck then env.nowClamp else nextFetch
  { state := { st with stats := { st.stats with NextSnapshotAt := some nextFetch } },
    nextFetch := nextFetch,
    initialDelay := nextFetch - env.nowUntil }

/-! ## Sample data -/

/-- A logger that works. -/
def sampleLog : LogEnv := { now := 1700000000, writeFails := false }

/-- A cycle that starts at instant 0, fetches at the third attempt and has saved the
snapshot two seconds after it started. -/
def slowCycle : CycleEnv :=
  { nowStart := 0, doFetch := Parser.thirdTimeLucky, saveFaults := Store.noSaveFaults,
    nowSaved := 2000000000, log := sampleLog }

/-- A cycle whose fetch exhausts its retries. -/
def failedCycle : CycleEnv :=
  { nowStart := 0, doFetch := Parser.alwaysDown, saveFaults := Store.noSaveFaults,
    nowSaved := 2000000000, log := sampleLog }

/-- A cycle whose save fails at the commit. -/
def unsavedCycle : CycleEnv :=
  { nowStart := 0, doFetch := Parser.thirdTimeLucky, saveFaults := Store.commitFails,
    nowSaved := 2000000000, log := sampleLog }

/-- A fresh scheduler over an empty database. -/
def freshScheduler : State := New 0 Store.emptyConn []

/-- One minute, as a `time.Duration`. -/
def oneMinute : Int := 60 * 1000000000

/-- A scheduler over a database with two saved snapshots, fetched at the instants
60 and 30. -/
def savedScheduler : State :=
  New 0 (Store.saveAll Store.emptyConn
    [(Store.noSaveFaults, Store.sampleFetched),
     (Store.noSaveFaults,
        { Store.sampleFetched with FetchedAt := { instant := 30, offset := 0 } })]) []

/-- The scheduler after the given fetch cycles, one after the other. -/
def runCycles (freq : Int) (envs : List CycleEnv) (st : State) : State :=
  envs.foldl (fun st env => fetchSnapshot freq env st) st

end Scheduler

/-!
# Text to integer

A shallow embedding of the two library functions with which the handlers read
numbers: `strconv.ParseInt(s, 10, 64)` and `strconv.Atoi(s)`.  Both return a
value and an error; a caller that drops the error keeps the value.

A text is the list of its characters.  A character outside ASCII is several
bytes in Go, none of which is a decimal digit, so it ends the conversion with a
syntax error just as the character does here.
-/

namespace Strconv

/-- The two errors a conversion reports (`strconv.ErrSyntax`, `strconv.ErrRange`). -/
inductive NumError where
  | ErrSyntax
  | ErrRange
  deriving DecidableEq, Repr

/-- The largest `uint64`. -/
def maxUint64 : Nat := 2 ^ 64 - 1

/-- Whether the byte is one of `'0'` to `'9'`. -/
def isDecimal (c : Char) : Bool := decide (48 ≤ c.toNat) && decide (c.toNat ≤ 57)

/-- The loop of `ParseUint(s, 10, 64)`: `n` is the `uint64` read so far.  The
multiplication and the addition are those of `uint64`. -/
def parseUintLoop : List Char → Nat → Nat × Option NumError
  | [], n => (n, none)
  | c :: cs, n =>
    if isDecimal c then
      let d := c.toNat - 48
      if n ≥ maxUint64 / 10 + 1 then (maxUint64, some .ErrRange)
      else
        let n10 := (n * 10) % 2 ^ 64
        let n1 := (n10 + d) % 2 ^ 64
        if n1 < n10 ∨ n1 > maxUint64 then (maxUint64, some .ErrRange)
        else parseUintLoop cs n1
    else (0, some .ErrSyntax)

/-- The function `strconv.ParseUint(s, 10, 64)`. -/
def ParseUint (s : List Char) : Nat × Option NumError :=
  if s = [] then (0, some .ErrSyntax) else parseUintLoop s 0

/-- The function `strconv.ParseInt(s, 10, 64)`: the value and the error. -/
def ParseInt (s : String) : Int × Option NumError :=
  match s.data with
  | [] => (0, some .ErrSyntax)
  | c :: rest =>
    let neg := decide (c = '-')
    let digits := if c = '+' ∨ c = '-' then rest else c :: rest
    match ParseUint digits with
    | (_, some .ErrSyntax) => (0, some .ErrSyntax)
    | (un, _) =>
      let cutoff : Nat := 2 ^ 63
      if !neg && decide (un ≥ cutoff) then ((cutoff : Int) - 1, some .ErrRange)
      else if neg && decide (un > cutoff) then (-(cutoff : Int), some .ErrRange)
      else
        let n := Compute.int64Wrap (un : Int)
        (if neg then Compute.negInt64 n else n, none)

/-- The function `strconv.Atoi(s)` where `int` has 64 bits: the same value and
error as `ParseInt(s, 10, 0)`. -/
def Atoi (s : String) : Int × Option NumError := ParseInt s

/-! ## Vocabulary of the specification -/

/-- The number written by a run of decimal digits. -/
def decimalValue (ds : List Char) : Nat :=
  ds.foldl (fun n c => n * 10 + (c.toNat - 48)) 0

/-- The sign and the digits of a text: a leading `+` or `-` is the sign. -/
def signAndDigits : List Char → Bool × List Char
  | [] => (false, [])
  | c :: ds =>
    if c = '-' then (true, ds) else if c = '+' then (false, ds) else (false, c :: ds)

/-- The 64-bit integer a text denotes in base 10, if it denotes one: an optional
sign followed by one or more decimal digits, the number lying between
`-2^63` and `2^63 - 1`. -/
def int64Of (s : String) : Option Int :=
  let sd := signAndDigits s.data
  if sd.2 ≠ [] ∧ sd.2.all isDecimal = true then
    let v : Int := if sd.1 then -(decimalValue sd.2 : Int) else (decimalValue sd.2 : Int)
    if -(2 : Int) ^ 63 ≤ v ∧ v ≤ 2 ^ 63 - 1 then some v else none
  else none

end Strconv

namespace Store

/-- The record `store.StoryOccurrence`. -/
structure StoryOccurrence where
  ID : Int
  SnapshotID : Int
  FetchedAt : Time
  Rank : Int
  Headline : String
  URL : String
  Username : String
  Points : Int
  Comments : Int
  DiscussionURL : String
  AgeValue : Int
  AgeUnit : String
  Page : Int
  deriving DecidableEq, Repr

/-- Clause `ORDER BY snapshots.fetched_at` over the joined rows. -/
def lessJoinedFetched (a b : Story × SnapshotRow) : Bool :=
  decide (timestampText a.2.fetched_at < timestampText b.2.fetched_at)

/-- The columns `GetStoryInRange` selects from a joined row. -/
def occurrenceOf (p : Story × SnapshotRow) : StoryOccurrence :=
  { ID := p.1.ID, SnapshotID := p.1.SnapshotID, FetchedAt := p.2.fetched_at,
    Rank := p.1.Rank, Headline := p.1.Headline, URL := p.1.URL, Username := p.1.Username,
    Points := p.1.Points, Comments := p.1.Comments, DiscussionURL := p.1.DiscussionURL,
    AgeValue := p.1.AgeValue, AgeUnit := p.1.AgeUnit, Page := p.1.Page }

/-- The method `Store.GetStoryInRange`. -/
def GetStoryInRange (E : Compute.SliceSorter) (db : Tables) (f : QueryFaults)
    (storyID : String) (fromTime toTime : Time) : List StoryOccurrence × Option String :=
  match f.query with
  | some err => ([], some err)
  | none =>
    scanLoop f (fun p => Except.ok (occurrenceOf p))
      (E.sortSlice lessJoinedFetched
        ((joinStoriesSnapshots db).filter
          (fun p => p.1.StoryID == storyID && inRange fromTime toTime p.2))) 0 []

end Store

/-!
# The HTTP interface of the snapshot store

A shallow embedding of `snapshotdb/api/handlers.go`.

Modelling conventions.

* A request is its method, the path of its URL and the pairs of its query as
  `r.URL.Query()` parses them; `Get` is the first value of a key, or the empty
  text.
* A response is the status written and the value handed to the JSON encoder.
* `time.Unix(sec, 0)` is the instant `sec` seconds after the epoch and
  `t.Unix()` the whole seconds of an instant, rounded down.  The location of a
  time made by `time.Unix` is the local zone of the process, a parameter
  (`Local`): its offset from UTC, in seconds, at an instant.
* The handlers read the committed tables of the store; which database calls
  fail is a parameter, as in `Store`.
-/

namespace Api

/-- The parts of `*http.Request` the handlers read. -/
structure Request where
  Method : String
  Path : String
  Query : List (String × String)
  deriving DecidableEq, Repr

/-- The call `r.URL.Query().Get(key)`. -/
def Request.Get (r : Request) (key : String) : String :=
  match r.Query.find? (fun p => p.1 == key) with
  | some p => p.2
  | none => ""

/-- The record `StoryDTO`. -/
structure StoryDTO where
  StoryID : String
  Rank : Int
  Headline : String
  URL : String
  Username : String
  Points : Int
  Comments : Int
  DiscussionURL : String
  AgeValue : Int
  AgeUnit : String
  Page : Int
  deriving DecidableEq, Repr

/-- The record `SnapshotDTO`. -/
structure SnapshotDTO where
  ID : Int
  FetchedAt : Int
  NumPages : Int
  TotalStories : Int
  Stories : List StoryDTO
  deriving DecidableEq, Repr

/-- The record `StoryOccurrenceDTO`. -/
structure StoryOccurrenceDTO where
  SnapshotID : Int
  FetchedAt : Int
  Rank : Int
  Headline : String
  URL : String
  Username : String
  Points : Int
  Comments : Int
  DiscussionURL : String
  AgeValue : Int
  AgeUnit : String
  Page : Int
  deriving DecidableEq, Repr

/-- The value a handler encodes: `ErrorResponse`, `SnapshotsResponse`,
`StoriesResponse` or `StoryResponse`. -/
inductive Body where
  | ErrorResponse (Error : String)
  | SnapshotsResponse (Snapshots : List SnapshotDTO)
  | StoriesResponse (StoryIDs : List String) (Count : Int)
  | StoryResponse (StoryID : String) (Occurrences : List StoryOccurrenceDTO)
  deriving DecidableEq, Repr

/-- What a handler writes: the status and the encoded value. -/
structure Response where
  status : Int
  body : Body
  deriving DecidableEq, Repr

/-- The method `writeError`. -/
def writeError (status : Int) (message : String) : Response :=
  { status := status, body := .ErrorResponse message }

/-- The type `paramError`. -/
structure paramError where
  param : String
  message : String
  deriving DecidableEq, Repr

/-- The method `paramError.Error`. -/
def paramError.Error (e : paramError) : String := e.param ++ ": " ++ e.message

/-- The call `time.Unix(sec, 0)`: the instant. -/
def timeUnix (sec : Int) : Int := sec * 1000000000

/-- The time of an instant in the local zone, such as `time.Unix` returns. -/
def localTime (Local : Int → Int) (instant : Int) : Store.Time :=
  { instant := instant, offset := Local instant }

/-- The method `Time.Unix`. -/
def unixSeconds (t : Int) : Int := t / 1000000000

/-- The method `Handler.parseTimeRange`. -/
def parseTimeRange (r : Request) : Except paramError (Int × Int) :=
  let fromStr := r.Get "from"
  let toStr := r.Get "to"
  if fromStr = "" then
    .error { param := "from", message := "required" }
  else if toStr = "" then
    .error { param := "to", message := "required" }
  else
    match Strconv.ParseInt fromStr with
    | (_, some _) => .error { param := "from", message := "must be a valid Unix timestamp" }
    | (fromUnix, none) =>
      match Strconv.ParseInt toStr with
      | (_, some _) => .error { param := "to", message := "must be a valid Unix timestamp" }
      | (toUnix, none) =>
        if fromUnix > toUnix then
          .error { param := "from/to", message := "from must be less than or equal to to" }
        else
          .ok (timeUnix fromUnix, timeUnix toUnix)

/-- The conversion of a stored story to a `StoryDTO`. -/
def storyDTO (s : Store.Story) : StoryDTO :=
  { StoryID := s.StoryID, Rank := s.Rank, Headline := s.Headline, URL := s.URL,
    Username := s.Username, Points := s.Points, Comments := s.Comments,
    DiscussionURL := s.DiscussionURL, AgeValue := s.AgeValue, AgeUnit := s.AgeUnit,
    Page := s.Page }

/-- The conversion of a stored snapshot to a `SnapshotDTO`. -/
def snapshotDTO (snap : Store.Snapshot) : SnapshotDTO :=
  { ID := snap.ID, FetchedAt := unixSeconds snap.FetchedAt.instant, NumPages := snap.NumPages,
    TotalStories := snap.TotalStories, Stories := snap.Stories.map storyDTO }

/-- The conversion of a `store.StoryOccurrence` to a `StoryOccurrenceDTO`. -/
def occurrenceDTO (occ : Store.StoryOccurrence) : StoryOccurrenceDTO :=
  { SnapshotID := occ.SnapshotID, FetchedAt := unixSeconds occ.FetchedAt.instant,
    Rank := occ.Rank,
    Headline := occ.Headline, URL := occ.URL, Username := occ.Username, Points := occ.Points,
    Comments := occ.Comments, DiscussionURL := occ.DiscussionURL, AgeValue := occ.AgeValue,
    AgeUnit := occ.AgeUnit, Page := occ.Page }

/-- The method `Handler.handleSnapshots`. -/
def handleSnapshots (E : Compute.SliceSorter) (Local : Int → Int) (db : Store.Tables)
    (f : Store.QueryFaults) (fs : Int → Store.QueryFaults) (r : Request) : Response :=
  if r.Method ≠ "GET" then writeError 405 "method not allowed"
  else
    match parseTimeRange r with
    | .error err => writeError 400 err.Error
    | .ok (fromTime, toTime) =>
      match Store.GetSnapshotsInRange E db f fs (localTime Local fromTime)
          (localTime Local toTime) with
      | (_, some err) => writeError 500 ("database error: " ++ err)
      | (snapshots, none) =>
        { status := 200, body := .SnapshotsResponse (snapshots.map snapshotDTO) }

/-- The method `Handler.handleStories`. -/
def handleStories (E : Compute.SliceSorter) (Local : Int → Int) (db : Store.Tables)
    (f : Store.QueryFaults) (r : Request) : Response :=
  if r.Method ≠ "GET" then writeError 405 "method not allowed"
  else
    match parseTimeRange r with
    | .error err => writeError 400 err.Error
    | .ok (fromTime, toTime) =>
      match Store.GetStoryIDsInRange E db f (localTime Local fromTime)
          (localTime Local toTime) with
      | (_, some err) => writeError 500 ("database error: " ++ err)
      | (storyIDs, none) =>
        { status := 200, body := .StoriesResponse storyIDs storyIDs.length }

/-- The call `strings.TrimPrefix(s, lead)`. -/
def trimLeading (s lead : String) : String :=
  if lead.data.isPrefixOf s.data then String.mk (s.data.drop lead.data.length) else s

/-- The method `Handler.handleStory`. -/
def handleStory (E : Compute.SliceSorter) (Local : Int → Int) (db : Store.Tables)
    (f : Store.QueryFaults) (r : Request) : Response :=
  if r.Method ≠ "GET" then writeError 405 "method not allowed"
  else
    let storyID := trimLeading r.Path "/story/"
    if storyID = "" then writeError 400 "story ID required"
    else
      match parseTimeRange r with
      | .error err => writeError 400 err.Error
      | .ok (fromTime, toTime) =>
        match Store.GetStoryInRange E db f storyID (localTime Local fromTime)
            (localTime Local toTime) with
        | (_, some err) => writeError 500 ("database error: " ++ err)
        | (occurrences, none) =>
          if occurrences.length = 0 then
            writeError 404 "story not found in the specified time range"
          else
            { status := 200,
              body := .StoryResponse storyID (occurrences.map occurrenceDTO) }

/-! ## Vocabulary of the specification -/

/-- The query parameter is missing or empty: the query has no pair with this
key, or the first such pair has the empty text as its value. -/
def Request.missingOrEmpty (r : Request) (key : String) : Prop :=
  r.Query.lookup key = none ∨ r.Query.lookup key = some ""

/-- The parameter's text is a base-10 64-bit integer. -/
def Request.isInt64 (r : Request) (key : String) : Prop :=
  ∃ v, Strconv.int64Of (r.Get key) = some v

/-- The time range of the request is refused: `from` or `to` is missing or empty
or not a base-10 64-bit integer, or `from > to`. -/
def Request.badTimeRange (r : Request) : Prop :=
  r.missingOrEmpty "from" ∨ r.missingOrEmpty "to" ∨ ¬ r.isInt64 "from" ∨ ¬ r.isInt64 "to" ∨
    ∃ a b, Strconv.int64Of (r.Get "from") = some a ∧ Strconv.int64Of (r.Get "to") = some b ∧
      a > b

/-! ## Sample data -/

/-- A `GET` request with the given path and query. -/
def get (path : String) (query : List (String × String)) : Request :=
  { Method := "GET", Path := path, Query := query }

/-- The store after one save of `Store.sampleFetched`. -/
def sampleDB : Store.Tables :=
  (Store.SaveSnapshot Store.emptyConn Store.noSaveFaults Store.sampleFetched).1.committed

/-- The store after two saves, the later snapshot saved first. -/
def twoSavesDB : Store.Tables :=
  (Store.saveAll Store.emptyConn
    [(Store.noSaveFaults,
        { Store.sampleFetched with FetchedAt := { instant := 7000000000, offset := 0 } }),
     (Store.noSaveFaults,
        { Store.sampleFetched with FetchedAt := { instant := 3000000000, offset := 0 } })]).committed

/-- A request for the occurrences of `storyA` in the first ten seconds. -/
def storyARequest : Request := get "/story/storyA" [("from", "0"), ("to", "10")]

/-- The query of the store fails. -/
def queryFails : Store.QueryFaults := { Store.noQueryFaults with query := some "disk I/O error" }

/-- The local zone of a process that runs in UTC. -/
def utc (_ : Int) : Int := 0

/-- The store after the saves of `Store.fetchedEast` and, half an hour later, of
`Store.fetched2025`. -/
def mixedOffsetsDB : Store.Tables :=
  (Store.saveAll Store.emptyConn
    [(Store.noSaveFaults, Store.fetchedEast), (Store.noSaveFaults, Store.fetched2025)]).committed

/-- The `fetched_at` values of the occurrences of a `StoryResponse`, in order. -/
def occurrenceTimes (response : Response) : List Int :=
  match response.body with
  | .StoryResponse _ occurrences => occurrences.map (fun o => o.FetchedAt)
  | _ => []

end Api

/-!
# The HTTP interface of the window viewer

A shallow embedding of `windowviewer/handlers/handlers.go`.  Requests are those
of `Api`; the client of the snapshot store, `SnapshotDBClient.GetSnapshots`, is
a parameter: for a window it returns the snapshots or an error.
-/

namespace Handlers

/-- The value `TopHandler` encodes: `ErrorResponse` or `TopStoriesResponse`. -/
inductive Body where
  | ErrorResponse (Error : String)
  | TopStoriesResponse (From To : Int) (Criteria : String) (Stories : List Compute.RankedStory)
  deriving DecidableEq, Repr

/-- What the handler writes: the status and the encoded value. -/
structure Response where
  status : Int
  body : Body
  deriving DecidableEq, Repr

/-- The function `writeError`. -/
def writeError (status : Int) (message : String) : Response :=
  { status := status, body := .ErrorResponse message }

/-- The values with which `TopHandler` goes on after its checks. -/
structure TopParams where
  fromUnix : Int
  toUnix : Int
  criteria : String
  limit : Int
  deriving DecidableEq, Repr

/-- The block `limit := 10; if limitStr != "" { ... }` of `TopHandler`: the limit,
or nothing where the handler answers 400. -/
def parseLimit (limitStr : String) : Option Int :=
  if limitStr ≠ "" then
    match Strconv.Atoi limitStr with
    | (_, some _) => none
    | (parsedLimit, none) => if parsedLimit < 1 then none else some parsedLimit
  else some 10

/-- The first part of `TopHandler`, up to the fetch of the snapshots: the
response written by a failed check, or the parameters. -/
def topParams (r : Api.Request) : Except Response TopParams :=
  if r.Method ≠ "GET" then .error (writeError 405 "method not allowed")
  else
    let fromStr := r.Get "from"
    let toStr := r.Get "to"
    let criteria := r.Get "criteria"
    let limitStr := r.Get "limit"
    if fromStr = "" then .error (writeError 400 "missing required parameter: from")
    else if toStr = "" then .error (writeError 400 "missing required parameter: to")
    else if criteria = "" then .error (writeError 400 "missing required parameter: criteria")
    else
      match Strconv.ParseInt fromStr with
      | (_, some _) =>
        .error (writeError 400 "invalid 'from' parameter: must be a Unix timestamp")
      | (fromUnix, none) =>
        match Strconv.ParseInt toStr with
        | (_, some _) =>
          .error (writeError 400 "invalid 'to' parameter: must be a Unix timestamp")
        | (toUnix, none) =>
          if fromUnix > toUnix then
            .error (writeError 400 "'from' must be less than or equal to 'to'")
          else if !Compute.IsValidCriteria criteria then
            .error (writeError 400
              ("invalid criteria: must be one of " ++ ", ".intercalate Compute.ValidCriteria))
          else
            match parseLimit limitStr with
            | none =>
              .error (writeError 400 "invalid 'limit' parameter: must be a positive integer")
            | some limit =>
              .ok { fromUnix := fromUnix, toUnix := toUnix, criteria := criteria,
                    limit := limit }

/-- The method `Handler.TopHandler`. -/
def TopHandler (S : Compute.SliceSorter) (R : Compute.MapRange)
    (GetSnapshots : Int → Int → Except String (List Compute.Snapshot)) (r : Api.Request) :
    Compute.CallResult Response :=
  match topParams r with
  | .error response => .ok response
  | .ok p =>
    match GetSnapshots p.fromUnix p.toUnix with
    | .error err => .ok (writeError 500 ("failed to fetch snapshots: " ++ err))
    | .ok snapshots =>
      match Compute.ComputeTopStories S R snapshots p.criteria p.limit with
      | .panic msg => .panic msg
      | .error err => .ok (writeError 500 ("failed to compute top stories: " ++ err))
      | .ok rankedStories =>
        .ok { status := 200,
              body := .TopStoriesResponse p.fromUnix p.toUnix p.criteria rankedStories }

/-! ## Vocabulary of the specification -/

/-- The integer a text denotes in base 10, whatever its size: an optional sign
followed by one or more decimal digits. -/
def integerOf (s : String) : Option Int :=
  let sd := Strconv.signAndDigits s.data
  if sd.2 ≠ [] ∧ sd.2.all Strconv.isDecimal = true then
    some (if sd.1 then -(Strconv.decimalValue sd.2 : Int) else (Strconv.decimalValue sd.2 : Int))
  else none

/-- The checks on `from`, `to` and `criteria` fail: one of them is missing or
empty, `from` or `to` is not a base-10 64-bit integer, `from > to`, or the
criteria is not one of the five valid values. -/
def badWindow (r : Api.Request) : Prop :=
  r.missingOrEmpty "from" ∨ r.missingOrEmpty "to" ∨ r.missingOrEmpty "criteria" ∨
    ¬ r.isInt64 "from" ∨ ¬ r.isInt64 "to" ∨
    (∃ a b, Strconv.int64Of (r.Get "from") = some a ∧
      Strconv.int64Of (r.Get "to") = some b ∧ a > b) ∨
    r.Get "criteria" ∉ Compute.ValidCriteria

/-- The parameter `limit` is present and is not an integer `>= 1`. -/
def limitPresentNotPositive (r : Api.Request) : Prop :=
  r.Query.lookup "limit" ≠ none ∧ ¬ ∃ n, integerOf (r.Get "limit") = some n ∧ 1 ≤ n

/-- The parameter `limit` is not empty and is not a base-10 integer between `1`
and `2^63 - 1`. -/
def limitRefused (r : Api.Request) : Prop :=
  r.Get "limit" ≠ "" ∧ ¬ ∃ n, Strconv.int64Of (r.Get "limit") = some n ∧ 1 ≤ n

/-- The status the handler answers with, if it answers. -/
def answered (res : Compute.CallResult Response) : Option Int :=
  match res with
  | .ok response => some response.status
  | _ => none

/-! ## Sample data -/

/-- A client of a store that holds `Compute.sampleWindow`. -/
def sampleClient (_ _ : Int) : Except String (List Compute.Snapshot) :=
  .ok Compute.sampleWindow

/-- A client that cannot reach the store. -/
def downClient (_ _ : Int) : Except String (List Compute.Snapshot) :=
  .error "failed to fetch snapshots: connection refused"

/-- A request for the top stories by points. -/
def topRequest (limit : List (String × String)) : Api.Request :=
  Api.get "/top" ([("from", "0"), ("to", "100"), ("criteria", "max_points")] ++ limit)

end Handlers

/-!
# The querier: filters and sorting

A shallow embedding of `querier/query/filter.go` and `querier/query/sort.go`.

Modelling conventions.

* A pointer field that may be `nil` is an `Option`.
* The fuzzy matcher `github.com/sahilm/fuzzy` and `strings.ToLower` are
  parameters (`FuzzyLib`): `Find pattern text` is the score of the match of the
  pattern in the one text searched, if it matches.
* `strings.Compare` orders texts byte by byte, which for UTF-8 is the order of
  their lists of characters.
* `sort.SliceStable` is a parameter with the contract `StableSorter`; Go's
  insertion sort, which it runs on short slices, is `Compute.goSort`.
* Multiplications are those of Go's 64-bit `int`.
-/

namespace Query

/-- The record `models.Story`. -/
structure Story where
  ID : String
  Headline : String
  URL : String
  DiscussionURL : String
  Username : String
  Points : Int
  Comments : Int
  Rank : Int
  Page : Int
  AgeValue : Int
  AgeUnit : String
  deriving DecidableEq, Repr

/-- The record `models.FuzzyFilter`. -/
structure FuzzyFilter where
  Match : String
  Threshold : Option Int
  deriving DecidableEq, Repr

/-- The record `models.RangeInt`. -/
structure RangeInt where
  Min : Option Int
  Max : Option Int
  deriving DecidableEq, Repr

/-- The record `models.AgeRange`. -/
structure AgeRange where
  Unit : String
  Min : Option Int
  Max : Option Int
  deriving DecidableEq, Repr

/-- The record `models.Filters`. -/
structure Filters where
  Headline : Option FuzzyFilter
  Username : Option FuzzyFilter
  URL : Option FuzzyFilter
  Points : Option RangeInt
  Comments : Option RangeInt
  Rank : Option RangeInt
  Page : Option RangeInt
  Age : Option AgeRange
  deriving DecidableEq, Repr

/-- The record `models.SortSpec`. -/
structure SortSpec where
  Field : String
  Direction : String
  deriving DecidableEq, Repr

/-- The library functions of the fuzzy filters. -/
structure FuzzyLib where
  ToLower : String → String
  Find : String → String → Option Int

/-- The constant `defaultFuzzyThreshold`. -/
def defaultFuzzyThreshold : Int := 50

/-- The product of two `int`s. -/
def mulInt64 (a b : Int) : Int := Compute.int64Wrap (a * b)

/-- The function `matchesFuzzy`. -/
def matchesFuzzy (L : FuzzyLib) (text : String) (filter : FuzzyFilter) : Bool :=
  if filter.Match = "" then true
  else
    let threshold := match filter.Threshold with
      | some t => t
      | none => defaultFuzzyThreshold
    match L.Find (L.ToLower filter.Match) (L.ToLower text) with
    | none => false
    | some matchScore =>
      let maxScore := mulInt64 (filter.Match.utf8ByteSize : Int) 2
      let score := Int.tdiv (mulInt64 matchScore 100) maxScore
      let score := if score > 100 then 100 else score
      decide (score ≥ threshold)

/-- The function `matchesRange`. -/
def matchesRange (value : Int) (r : RangeInt) : Bool :=
  if (match r.Min with | some m => decide (value < m) | none => false) then false
  else if (match r.Max with | some m => decide (value > m) | none => false) then false
  else true

/-- The function `toMinutes`. -/
def toMinutes (value : Int) (unit : String) : Int :=
  if unit = "minutes" then value
  else if unit = "hours" then mulInt64 value 60
  else if unit = "days" then mulInt64 (mulInt64 value 60) 24
  else value

/-- The function `matchesAge`. -/
def matchesAge (story : Story) (ageRange : AgeRange) : Bool :=
  let storyAgeMinutes := toMinutes story.AgeValue story.AgeUnit
  let filterMin := match ageRange.Min with
    | some m => toMinutes m ageRange.Unit
    | none => 0
  let filterMax := match ageRange.Max with
    | some m => toMinutes m ageRange.Unit
    | none => 2 ^ 63 - 1
  decide (storyAgeMinutes ≥ filterMin) && decide (storyAgeMinutes ≤ filterMax)

/-- One line `if filters.X != nil && !matches(..., filters.X) { return false }` of
`matchesAllFilters`: whether the filter, if present, lets the story pass. -/
def passes {φ : Type} (filter : Option φ) (isMatch : φ → Bool) : Bool :=
  match filter with
  | none => true
  | some f => isMatch f

/-- The function `matchesAllFilters`. -/
def matchesAllFilters (L : FuzzyLib) (story : Story) (filters : Filters) : Bool :=
  if !passes filters.Headline (matchesFuzzy L story.Headline) then false
  else if !passes filters.Username (matchesFuzzy L story.Username) then false
  else if !passes filters.URL (matchesFuzzy L story.URL) then false
  else if !passes filters.Points (matchesRange story.Points) then false
  else if !passes filters.Comments (matchesRange story.Comments) then false
  else if !passes filters.Rank (matchesRange story.Rank) then false
  else if !passes filters.Page (matchesRange story.Page) then false
  else if !passes filters.Age (matchesAge story) then false
  else true

/-- The function `Filter`: the loop appends the matching stories in order. -/
def Filter (L : FuzzyLib) (stories : List Story) (filters : Option Filters) : List Story :=
  match filters with
  | none => stories
  | some f => stories.foldl (fun result story =>
      if matchesAllFilters L story f then result ++ [story] else result) []

/-- The function `strings.Compare`. -/
def stringsCompare (a b : String) : Int :=
  if a = b then 0 else if a.toList < b.toList then -1 else 1

/-- The function `compareInt`. -/
def compareInt (a b : Int) : Int :=
  if a < b then -1 else if a > b then 1 else 0

/-- The function `compareField`. -/
def compareField (a b : Story) (field : String) : Int :=
  if field = "id" then stringsCompare a.ID b.ID
  else if field = "headline" then stringsCompare a.Headline b.Headline
  else if field = "url" then stringsCompare a.URL b.URL
  else if field = "discussion_url" then stringsCompare a.DiscussionURL b.DiscussionURL
  else if field = "username" then stringsCompare a.Username b.Username
  else if field = "points" then compareInt a.Points b.Points
  else if field = "comments" then compareInt a.Comments b.Comments
  else if field = "rank" then compareInt a.Rank b.Rank
  else if field = "page" then compareInt a.Page b.Page
  else if field = "age_value" then compareInt a.AgeValue b.AgeValue
  else if field = "age" then
    compareInt (toMinutes a.AgeValue a.AgeUnit) (toMinutes b.AgeValue b.AgeUnit)
  else 0

/-- The comparison `Sort` hands to `sort.SliceStable`: the loop over the
specifications. -/
def lessBySpecs : List SortSpec → Story → Story → Bool
  | [], _, _ => false
  | spec :: rest, a, b =>
    let cmp := compareField a b spec.Field
    if cmp = 0 then lessBySpecs rest a b
    else if spec.Direction = "desc" then decide (cmp > 0)
    else decide (cmp < 0)

/-- The function `Sort` (a reserved word here, hence the longer name). -/
def SortStories (S : Compute.SliceSorter) (stories : List Story) (specs : List SortSpec) :
    List Story :=
  if specs.length = 0 then stories
  else S.sortSlice (lessBySpecs specs) stories

/-- The contract of `sort.SliceStable`: that of `sort.Slice`, and elements none
of which is `less` than another keep the order they had in the slice. -/
def StableSorter (S : Compute.SliceSorter) : Prop :=
  S.Lawful ∧
  ∀ (α : Type) (less : α → α → Bool) (l : List α) (q : α → Bool),
    (∀ a b, less a b = true → less b a = false) →
    (∀ a b c, less a b = false → less b c = false → less a c = false) →
    (∀ a b, q a = true → q b = true → less a b = false) →
    (S.sortSlice less l).filter q = l.filter q

/-! ## Vocabulary of the specification -/

/-- The value lies in the range: `min <= value <= max`, a bound that is left
out not bounding that side, and a filter that is left out not bounding at all. -/
def withinRange (value : Int) (r : Option RangeInt) : Prop :=
  ∀ range, r = some range →
    (∀ m, range.Min = some m → m ≤ value) ∧ (∀ m, range.Max = some m → value ≤ m)

/-- The story satisfies the four range filters. -/
def satisfiesRanges (f : Filters) (s : Story) : Prop :=
  withinRange s.Points f.Points ∧ withinRange s.Comments f.Comments ∧
    withinRange s.Rank f.Rank ∧ withinRange s.Page f.Page

/-- The two stories are equal on the field of the specification. -/
def tiedOn (spec : SortSpec) (a b : Story) : Prop := compareField a b spec.Field = 0

/-- Story `a` comes strictly before `b` by one specification: its field is the
smaller one, or the larger one when the direction is `desc`. -/
def strictlyBefore (spec : SortSpec) (a b : Story) : Prop :=
  if spec.Direction = "desc" then compareField a b spec.Field > 0
  else compareField a b spec.Field < 0

/-- The order of a multi-key sort: `a` may stand before `b` when the first
specification on which they differ puts `a` first, or they differ on none. -/
def mayPrecede : List SortSpec → Story → Story → Prop
  | [], _, _ => True
  | spec :: rest, a, b => strictlyBefore spec a b ∨ (tiedOn spec a b ∧ mayPrecede rest a b)

/-- The two stories are equal on every specification. -/
def tiedOnAll (specs : List SortSpec) (a b : Story) : Bool :=
  specs.all (fun spec => decide (compareField a b spec.Field = 0))

/-! ## Sample data -/

/-- A matcher that finds a pattern only in the text equal to it. -/
def exactLib : FuzzyLib :=
  { ToLower := fun s => s,
    Find := fun pattern text => if pattern = text then some (2 * pattern.length) else none }

/-- A story with the given id, points, comments and rank. -/
def sampleStory (id : String) (points comments rank : Int) : Story :=
  { ID := id, Headline := "headline", URL := "url", DiscussionURL := "discussion",
    Username := "user", Points := points, Comments := comments, Rank := rank, Page := 1,
    AgeValue := 1, AgeUnit := "hours" }

/-- Four stories, two of them with the same points. -/
def sampleStories : List Story :=
  [sampleStory "a" 10 7 1, sampleStory "b" 30 2 2, sampleStory "c" 10 5 3,
   sampleStory "d" 20 5 4]

/-- Points between 10 and 20, at least five comments. -/
def sampleFilters : Filters :=
  { Headline := none, Username := none, URL := none,
    Points := some { Min := some 10, Max := some 20 },
    Comments := some { Min := some 5, Max := none },
    Rank := none, Page := none, Age := none }

/-! ## Auxiliary definitions -/

/-- A three-way comparison in the manner of `strings.Compare`: the sign flips
when the arguments are exchanged, and `<= 0` is transitive. -/
def IsCmp {α : Type} (cmp : α → α → Int) : Prop :=
  (∀ a b, cmp a b < 0 ↔ 0 < cmp b a) ∧
  (∀ a b c, cmp a b ≤ 0 → cmp b c ≤ 0 → cmp a c ≤ 0)

/-- The comparison of one specification with its direction applied: negative
when the first story comes first. -/
def directed (spec : SortSpec) (a b : Story) : Int :=
  if spec.Direction = "desc" then -(compareField a b spec.Field)
  else compareField a b spec.Field

end Query

/-!
# The page parser: the age of a story

A shallow embedding of `parseAge` of `parser/parser.go`.  The regular expression
`^(\d+)\s+(\w+)$` is embedded as the matcher it denotes: the classes `\d`, `\s`
and `\w` are the ASCII ones, `\s` shares no character with the other two, and
so a text matches in one way only, as a run of digits, a run of white space and
a run of word characters.
-/

namespace HNParser

/-- The function `strings.TrimSuffix`. -/
def TrimSuffix (s suffix : List Char) : List Char :=
  if suffix.isSuffixOf s then s.take (s.length - suffix.length) else s

/-- The predicate `unicode.IsSpace`. -/
def isSpace (c : Char) : Bool :=
  [0x09, 0x0A, 0x0B, 0x0C, 0x0D, 0x20, 0x85, 0xA0, 0x1680, 0x2028, 0x2029, 0x202F, 0x205F,
    0x3000].contains c.toNat || (decide (0x2000 ≤ c.toNat) && decide (c.toNat ≤ 0x200A))

/-- The function `strings.TrimSpace`. -/
def TrimSpace (s : List Char) : List Char :=
  ((s.dropWhile isSpace).reverse.dropWhile isSpace).reverse

/-- The class `\s` of the regular expression. -/
def reSpace (c : Char) : Bool := [0x09, 0x0A, 0x0C, 0x0D, 0x20].contains c.toNat

/-- The class `\w` of the regular expression. -/
def reWord (c : Char) : Bool :=
  Strconv.isDecimal c || (decide (65 ≤ c.toNat) && decide (c.toNat ≤ 90)) ||
    (decide (97 ≤ c.toNat) && decide (c.toNat ≤ 122)) || decide (c.toNat = 95)

/-- The call `re.FindStringSubmatch(ageStr)` for `^(\d+)\s+(\w+)$`: the two groups
of the match, if the text matches. -/
def findAgeSubmatch (s : List Char) : Option (List Char × List Char) :=
  let digits := s.takeWhile Strconv.isDecimal
  let rest := s.dropWhile Strconv.isDecimal
  let spaces := rest.takeWhile reSpace
  let word := rest.dropWhile reSpace
  if digits ≠ [] ∧ spaces ≠ [] ∧ word ≠ [] ∧ word.all reWord = true then some (digits, word)
  else none

/-- The function `parseAge`. -/
def parseAge (ageStr : String) : Int × String :=
  let ageStr := TrimSuffix ageStr.data " ago".data
  let ageStr := TrimSpace ageStr
  match findAgeSubmatch ageStr with
  | some (digits, word) => ((Strconv.Atoi (String.mk digits)).1, String.mk word)
  | none => (0, "")

/-! ## Vocabulary of the specification -/

/-- The units of the enumeration `age_unit`. -/
def ageUnits : List String := ["minutes", "hours", "days"]

end HNParser

namespace Query

/-- A story with the given id whose age is the one `parseAge` reads off the text. -/
def agedStory (id ageText : String) : Story :=
  { sampleStory id 10 5 1 with
    AgeValue := (HNParser.parseAge ageText).1, AgeUnit := (HNParser.parseAge ageText).2 }

end Query

namespace Compute

/-! ## The sorting routine and the map iterations meet their contracts -/

theorem insertLeft_perm {α : Type} (less : α → α → Bool) (x : α) (l : List α) :
    (insertLeft less x l).Perm (x :: l) := by
  induction l with
  | nil => simp [insertLeft]
  | cons y ys ih =>
    unfold insertLeft
    split
    · exact (List.Perm.cons y ih).trans (List.Perm.swap x y ys)
    · exact List.Perm.refl _

theorem foldl_insertLeft_perm {α : Type} (less : α → α → Bool) (l acc : List α) :
    (l.foldl (fun acc x => insertLeft less x acc) acc).Perm (l ++ acc) := by
  induction l generalizing acc with
  | nil => simp
  | cons x xs ih =>
    simp only [List.foldl_cons]
    refine (ih _).trans ?_
    refine (List.Perm.append_left xs (insertLeft_perm less x acc)).trans ?_
    simp [List.perm_middle]

theorem insertionSort_perm {α : Type} (less : α → α → Bool) (l : List α) :
    (insertionSort less l).Perm l := by
  unfold insertionSort
  refine (List.reverse_perm _).trans ?_
  simpa using foldl_insertLeft_perm less l []

theorem insertLeft_pairwise {α : Type} (less : α → α → Bool)
    (hasym : ∀ a b, less a b = true → less b a = false)
    (htrans : ∀ a b c, less a b = false → less b c = false → less a c = false)
    (x : α) (l : List α) (hl : l.Pairwise (fun a b => less a b = false)) :
    (insertLeft less x l).Pairwise (fun a b => less a b = false) := by
  induction l with
  | nil => simp [insertLeft]
  | cons y ys ih =>
    rw [List.pairwise_cons] at hl
    unfold insertLeft
    split
    · rename_i hxy
      rw [List.pairwise_cons]
      refine ⟨?_, ih hl.2⟩
      intro w hw
      rcases List.mem_cons.mp ((insertLeft_perm less x ys).mem_iff.mp hw) with rfl | hw
      · exact hasym _ _ hxy
      · exact hl.1 w hw
    · rename_i hxy
      have hxy : less x y = false := by simpa using hxy
      rw [List.pairwise_cons]
      refine ⟨?_, List.pairwise_cons.mpr hl⟩
      intro w hw
      rcases List.mem_cons.mp hw with rfl | hw
      · exact hxy
      · exact htrans _ _ _ hxy (hl.1 w hw)

theorem foldl_insertLeft_pairwise {α : Type} (less : α → α → Bool)
    (hasym : ∀ a b, less a b = true → less b a = false)
    (htrans : ∀ a b c, less a b = false → less b c = false → less a c = false)
    (l acc : List α) (hacc : acc.Pairwise (fun a b => less a b = false)) :
    (l.foldl (fun acc x => insertLeft less x acc) acc).Pairwise (fun a b => less a b = false) := by
  induction l generalizing acc with
  | nil => simpa using hacc
  | cons x xs ih =>
    simp only [List.foldl_cons]
    exact ih _ (insertLeft_pairwise less hasym htrans x acc hacc)

theorem insertionSort_sorted {α : Type} (less : α → α → Bool) (l : List α)
    (hasym : ∀ a b, less a b = true → less b a = false)
    (htrans : ∀ a b c, less a b = false → less b c = false → less a c = false) :
    (insertionSort less l).Pairwise (fun a b => less b a = false) := by
  unfold insertionSort
  rw [List.pairwise_reverse]
  exact foldl_insertLeft_pairwise less hasym htrans l [] List.Pairwise.nil

theorem goSort_lawful : goSort.Lawful :=
  ⟨fun _ less l => insertionSort_perm less l,
   fun _ less l hasym htrans => insertionSort_sorted less l hasym htrans⟩

theorem insertionOrder_lawful : insertionOrder.Lawful := fun m => List.Perm.refl m

theorem reverseOrder_lawful : reverseOrder.Lawful := fun m => List.reverse_perm m

/-! ## Machine arithmetic -/

theorem int64Wrap_of_range (x : Int) (h1 : -2 ^ 63 ≤ x) (h2 : x < 2 ^ 63) :
    int64Wrap x = x := by
  unfold int64Wrap
  rw [Int.emod_eq_of_lt (by omega) (by omega)]
  simp

theorem subInt64_self (a : Int) : subInt64 a a = 0 := by
  simp [subInt64, int64Wrap]

theorem negInt64_of_range (x : Int) (h1 : -2 ^ 63 < x) (h2 : x < 2 ^ 63) :
    negInt64 x = -x := by
  unfold negInt64
  exact int64Wrap_of_range _ (by omega) (by omega)

/-! ## The map -/

theorem mapLookup_eq_none_iff (m : List storyData) (id : String) :
    mapLookup m id = none ↔ id ∉ mapKeys m := by
  unfold mapLookup mapKeys
  rw [List.find?_eq_none]
  simp only [List.mem_map, not_exists, not_and, beq_iff_eq]

theorem mapLookup_some (m : List storyData) (id : String) (sd : storyData)
    (h : mapLookup m id = some sd) : sd ∈ m ∧ sd.storyID = id := by
  unfold mapLookup at h
  exact ⟨List.mem_of_find?_eq_some h, by simpa using List.find?_some h⟩

theorem mapLookup_of_mem (m : List storyData) (sd : storyData)
    (hnd : (mapKeys m).Nodup) (h : sd ∈ m) : mapLookup m sd.storyID = some sd := by
  induction m with
  | nil => cases h
  | cons a m ih =>
    simp only [mapKeys, List.map_cons, List.nodup_cons, List.mem_map, not_exists, not_and] at hnd
    unfold mapLookup
    rcases List.mem_cons.mp h with rfl | h
    · simp [List.find?_cons]
    · have hne : (a.storyID == sd.storyID) = false := by
        simpa using fun e => hnd.1 sd h (Eq.symm e)
      rw [List.find?_cons, hne]
      exact ih hnd.2 h

theorem mapLookup_map (f : storyData → storyData) (hf : ∀ sd, (f sd).storyID = sd.storyID)
    (l : List storyData) (id : String) :
    mapLookup (l.map f) id = (mapLookup l id).map f := by
  induction l with
  | nil => rfl
  | cons a l ih =>
    unfold mapLookup at ih ⊢
    rw [List.map_cons, List.find?_cons, List.find?_cons, hf]
    cases a.storyID == id with
    | true => rfl
    | false => exact ih

theorem processStory_lookup (m : List storyData) (t : Int) (st : Story) (id : String) :
    mapLookup (processStory m t st) id =
      if st.StoryID = id then
        some (match mapLookup m id with
              | none => newStoryData t st
              | some sd => updateStoryData sd t st)
      else mapLookup m id := by
  unfold processStory
  cases hl : mapLookup m st.StoryID with
  | none =>
    simp only [mapLookup, List.find?_append] at hl ⊢
    by_cases hid : st.StoryID = id
    · subst hid
      simp [hl, newStoryData]
    · simp [hid, newStoryData]
  | some sd0 =>
    simp only
    rw [mapLookup_map _ (by intro sd; split <;> rfl)]
    by_cases hid : st.StoryID = id
    · subst hid
      simp [hl, (mapLookup_some _ _ _ hl).2]
    · simp only [hid, if_false]
      cases hl2 : mapLookup m id with
      | none => rfl
      | some sd2 =>
        have := (mapLookup_some _ _ _ hl2).2
        have hne : ¬ sd2.storyID = st.StoryID := fun e => hid (e.symm.trans this)
        simp [hne]

theorem processStory_keys (m : List storyData) (t : Int) (st : Story) :
    mapKeys (processStory m t st) =
      if st.StoryID ∈ mapKeys m then mapKeys m else mapKeys m ++ [st.StoryID] := by
  unfold processStory
  cases hl : mapLookup m st.StoryID with
  | none =>
    have := (mapLookup_eq_none_iff _ _).mp hl
    rw [if_neg this]
    simp [mapKeys, newStoryData]
  | some sd0 =>
    have h1 := mapLookup_some _ _ _ hl
    have hmem : st.StoryID ∈ mapKeys m := by
      unfold mapKeys; exact List.mem_map.mpr ⟨sd0, h1.1, h1.2⟩
    rw [if_pos hmem]
    simp only [mapKeys, List.map_map]
    apply List.map_congr_left
    intro sd _
    simp only [Function.comp]
    split <;> rfl

/-! ## The aggregation loop, one story at a time -/

theorem processSnapshot_eq (m : List storyData) (s : Snapshot) :
    processSnapshot m s =
      (s.Stories.map (fun st => (s.FetchedAt, st))).foldl visitStep m := by
  unfold processSnapshot
  rw [List.foldl_map]
  rfl

theorem foldl_processSnapshot_eq (snaps : List Snapshot) (m : List storyData) :
    snaps.foldl processSnapshot m = (visits snaps).foldl visitStep m := by
  induction snaps generalizing m with
  | nil => rfl
  | cons s snaps ih =>
    simp only [List.foldl_cons, visits, List.flatMap_cons, List.foldl_append]
    rw [ih, processSnapshot_eq]
    rfl

theorem aggregate_eq (snaps : List Snapshot) :
    aggregate snaps = (visits snaps).foldl visitStep [] :=
  foldl_processSnapshot_eq snaps []

theorem foldl_visitStep_lookup (os : List (Int × Story)) (m : List storyData) (id : String) :
    mapLookup (os.foldl visitStep m) id =
      match mapLookup m id with
      | some sd => some (foldStory sd (visitsOf id os))
      | none => storyAfter (visitsOf id os) := by
  induction os generalizing m with
  | nil =>
    cases h : mapLookup m id <;> simp [visitsOf, foldStory, storyAfter, h]
  | cons o os ih =>
    rw [List.foldl_cons, ih, visitStep, processStory_lookup]
    by_cases hid : o.2.StoryID = id
    · have hf : visitsOf id (o :: os) = o :: visitsOf id os := by
        simp [visitsOf, List.filter_cons, hid]
      rw [if_pos hid, hf]
      cases h : mapLookup m id <;> simp [foldStory, storyAfter]
    · have hf : visitsOf id (o :: os) = visitsOf id os := by
        simp [visitsOf, List.filter_cons, hid]
      rw [if_neg hid, hf]

theorem foldl_visitStep_keys_nodup (os : List (Int × Story)) (m : List storyData)
    (hm : (mapKeys m).Nodup) : (mapKeys (os.foldl visitStep m)).Nodup := by
  induction os generalizing m with
  | nil => exact hm
  | cons o os ih =>
    rw [List.foldl_cons]
    apply ih
    rw [visitStep, processStory_keys]
    split
    · exact hm
    · rename_i hno
      rw [List.nodup_append]
      refine ⟨hm, List.nodup_singleton _, ?_⟩
      intro a ha hb
      rw [List.mem_singleton] at hb
      exact hno (hb ▸ ha)

theorem foldl_visitStep_mem_keys (os : List (Int × Story)) (m : List storyData) (id : String) :
    id ∈ mapKeys (os.foldl visitStep m) ↔
      id ∈ mapKeys m ∨ id ∈ os.map (fun o => o.2.StoryID) := by
  induction os generalizing m with
  | nil => simp
  | cons o os ih =>
    rw [List.foldl_cons, ih, visitStep, processStory_keys]
    by_cases h : o.2.StoryID ∈ mapKeys m
    · rw [if_pos h]
      simp only [List.map_cons, List.mem_cons]
      constructor
      · rintro (h1 | h1)
        · exact Or.inl h1
        · exact Or.inr (Or.inr h1)
      · rintro (h1 | h1 | h1)
        · exact Or.inl h1
        · exact Or.inl (h1 ▸ h)
        · exact Or.inr h1
    · rw [if_neg h]
      simp only [List.map_cons, List.mem_cons, List.mem_append, List.mem_singleton]
      tauto

theorem aggregate_lookup (snaps : List Snapshot) (id : String) :
    mapLookup (aggregate snaps) id = storyAfter (visitsOf id (visits snaps)) := by
  rw [aggregate_eq, foldl_visitStep_lookup]
  rfl

theorem aggregate_keys_nodup (snaps : List Snapshot) : (mapKeys (aggregate snaps)).Nodup := by
  rw [aggregate_eq]
  exact foldl_visitStep_keys_nodup _ _ List.nodup_nil

theorem aggregate_mem (snaps : List Snapshot) (sd : storyData) (h : sd ∈ aggregate snaps) :
    storyAfter (visitsOf sd.storyID (visits snaps)) = some sd := by
  rw [← aggregate_lookup]
  exact mapLookup_of_mem _ _ (aggregate_keys_nodup snaps) h

theorem visits_map_storyID (snaps : List Snapshot) :
    (visits snaps).map (fun o => o.2.StoryID) = (allStories snaps).map (fun st => st.StoryID) := by
  induction snaps with
  | nil => rfl
  | cons s snaps ih =>
    simp only [visits, allStories, List.flatMap_cons, List.map_append, List.map_map] at ih ⊢
    rw [ih]
    rfl

theorem aggregate_mem_keys (snaps : List Snapshot) (id : String) :
    id ∈ mapKeys (aggregate snaps) ↔ id ∈ (allStories snaps).map (fun st => st.StoryID) := by
  rw [aggregate_eq, foldl_visitStep_mem_keys, visits_map_storyID]
  simp [mapKeys]

theorem aggregate_length (snaps : List Snapshot) :
    (aggregate snaps).length = distinctStoryCount snaps := by
  have hp : (mapKeys (aggregate snaps)).Perm
      ((allStories snaps).map (fun st => st.StoryID)).dedup := by
    rw [List.perm_ext_iff_of_nodup (aggregate_keys_nodup snaps) (List.nodup_dedup _)]
    intro a
    rw [aggregate_mem_keys, List.mem_dedup]
  have := hp.length_eq
  simpa [mapKeys, distinctStoryCount] using this

theorem allStories_perm {l₁ l₂ : List Snapshot} (h : l₁.Perm l₂) :
    (allStories l₁).Perm (allStories l₂) := by
  unfold allStories
  exact h.flatMap_right _

theorem distinctStoryCount_perm {l₁ l₂ : List Snapshot} (h : l₁.Perm l₂) :
    distinctStoryCount l₁ = distinctStoryCount l₂ := by
  unfold distinctStoryCount
  have hp := (allStories_perm h).map (fun st => st.StoryID)
  apply List.Perm.length_eq
  rw [List.perm_ext_iff_of_nodup (List.nodup_dedup _) (List.nodup_dedup _)]
  intro a
  rw [List.mem_dedup, List.mem_dedup]
  exact hp.mem_iff

/-! ## The shape of the result -/

theorem lessFetchedAt_asymm (a b : Snapshot) (h : lessFetchedAt a b = true) :
    lessFetchedAt b a = false := by
  simp only [lessFetchedAt, decide_eq_true_eq, decide_eq_false_iff_not] at h ⊢
  omega

theorem lessFetchedAt_negTrans (a b c : Snapshot) (h1 : lessFetchedAt a b = false)
    (h2 : lessFetchedAt b c = false) : lessFetchedAt a c = false := by
  simp only [lessFetchedAt, decide_eq_false_iff_not] at h1 h2 ⊢
  omega

theorem lessMetric_asymm (a b : storyData × Int) (h : lessMetric a b = true) :
    lessMetric b a = false := by
  simp only [lessMetric, decide_eq_true_eq, decide_eq_false_iff_not] at h ⊢
  omega

theorem lessMetric_negTrans (a b c : storyData × Int) (h1 : lessMetric a b = false)
    (h2 : lessMetric b c = false) : lessMetric a c = false := by
  simp only [lessMetric, decide_eq_false_iff_not] at h1 h2 ⊢
  omega

theorem sortedStories_perm (S : SliceSorter) (R : MapRange) (hS : S.Lawful) (hR : R.Lawful)
    (snaps : List Snapshot) (c : String) :
    (sortedStories S R snaps c).Perm
      ((storyMapOf S snaps).map (fun sd => (sd, computeMetric c sd))) :=
  (hS.1 _ _ _).trans ((hR _).map _)

theorem sortedStories_metric (S : SliceSorter) (R : MapRange) (hS : S.Lawful)
    (snaps : List Snapshot) (c : String) (e : storyData × Int)
    (he : e ∈ sortedStories S R snaps c) : e.2 = computeMetric c e.1 := by
  have h := (hS.1 _ _ _).mem_iff.mp he
  obtain ⟨sd, _, rfl⟩ := List.mem_map.mp h
  rfl

theorem sortedStories_pairwise (S : SliceSorter) (R : MapRange) (hS : S.Lawful)
    (snaps : List Snapshot) (c : String) :
    (sortedStories S R snaps c).Pairwise (fun a b => b.2 ≤ a.2) := by
  have h := hS.2 _ lessMetric
    ((R.range (storyMapOf S snaps)).map (fun sd => (sd, computeMetric c sd)))
    lessMetric_asymm lessMetric_negTrans
  refine h.imp ?_
  intro a b hab
  simp only [lessMetric, decide_eq_false_iff_not] at hab
  omega

theorem sortedStories_length (S : SliceSorter) (R : MapRange) (hS : S.Lawful) (hR : R.Lawful)
    (snaps : List Snapshot) (c : String) :
    (sortedStories S R snaps c).length = distinctStoryCount snaps := by
  rw [(sortedStories_perm S R hS hR snaps c).length_eq, List.length_map, storyMapOf,
    aggregate_length]
  exact distinctStoryCount_perm (hS.1 _ _ _)

theorem isValidCriteria_iff (c : String) :
    IsValidCriteria c = true ↔
      (c = "best_rank" ∨ c = "max_points" ∨ c = "max_comments" ∨
        c = "incremental_comments" ∨ c = "incremental_points") := by
  simp only [IsValidCriteria, ValidCriteria, CriteriaBestRank, CriteriaMaxPoints,
    CriteriaMaxComments, CriteriaIncrementalComments, CriteriaIncrementalPoints,
    List.any_cons, List.any_nil, Bool.or_false, Bool.or_eq_true, beq_iff_eq]
  constructor <;> intro h <;> rcases h with h | h | h | h | h <;> simp [h]

theorem ComputeTopStories_ok (S : SliceSorter) (R : MapRange) (snaps : List Snapshot)
    (c : String) (limit : Int) (hc : IsValidCriteria c = true) (hl : 0 ≤ limit) :
    ComputeTopStories S R snaps c limit =
      .ok (((sortedStories S R snaps c).take limit.toNat).map (fun e => toRankedStory e.1)) := by
  unfold ComputeTopStories
  simp only [hc, Bool.not_true, Bool.false_eq_true, if_false]
  split
  · rename_i hgt
    rw [if_neg (by omega)]
    congr 2
    rw [Int.toNat_ofNat, List.take_length]
    rw [List.take_of_length_le]
    omega
  · rw [if_neg (by omega)]

theorem rankedMetric_toRankedStory (c : String) (sd : storyData) :
    rankedMetric c (toRankedStory sd) = computeMetric c sd := rfl

theorem mem_result (S : SliceSorter) (R : MapRange) (hS : S.Lawful) (hR : R.Lawful)
    (snaps : List Snapshot) (c : String) (n : Nat) (r : RankedStory)
    (hr : r ∈ ((sortedStories S R snaps c).take n).map (fun e => toRankedStory e.1)) :
    ∃ sd ∈ storyMapOf S snaps, r = toRankedStory sd := by
  obtain ⟨e, he, rfl⟩ := List.mem_map.mp hr
  have he2 := (sortedStories_perm S R hS hR snaps c).mem_iff.mp (List.mem_of_mem_take he)
  obtain ⟨sd, hsd, rfl⟩ := List.mem_map.mp he2
  exact ⟨sd, hsd, rfl⟩

/-! ## Ordering of the result -/

/-- C1: for every snapshot list, valid criteria and limit >= 0, ComputeTopStories
returns a list sorted descending by the metric of the requested criteria
(minus best_rank, max_points, max_comments, incremental_comments or
incremental_points, read off each returned record); with max_points the first
record's max_points is at least that of every other record, and with best_rank
the records are in ascending best_rank whenever their ranks are 64-bit values
other than the least one. -/
theorem ComputeTopStories_sorted_descending (S : SliceSorter) (R : MapRange) (hS : S.Lawful)
    (snapshots : List Snapshot) (criteria : String) (limit : Int)
    (hc : IsValidCriteria criteria = true) (hl : 0 ≤ limit) :
    ∃ result, ComputeTopStories S R snapshots criteria limit = .ok result ∧
      result.Pairwise (fun a b => rankedMetric criteria b ≤ rankedMetric criteria a) ∧
      (criteria = "max_points" → ∀ first rest, result = first :: rest →
        ∀ r ∈ rest, r.MaxPoints ≤ first.MaxPoints) ∧
      (criteria = "best_rank" →
        (∀ r ∈ result, -2 ^ 63 < r.BestRank ∧ r.BestRank < 2 ^ 63) →
        result.Pairwise (fun a b => a.BestRank ≤ b.BestRank)) := by
  refine ⟨_, ComputeTopStories_ok S R snapshots criteria limit hc hl, ?_⟩
  have hsorted : (((sortedStories S R snapshots criteria).take limit.toNat).map
      (fun e => toRankedStory e.1)).Pairwise
      (fun a b => rankedMetric criteria b ≤ rankedMetric criteria a) := by
    rw [List.pairwise_map]
    have h := (sortedStories_pairwise S R hS snapshots criteria).sublist
      (List.take_sublist limit.toNat _)
    refine h.imp_of_mem ?_
    intro a b ha hb hab
    rw [rankedMetric_toRankedStory, rankedMetric_toRankedStory,
      ← sortedStories_metric S R hS snapshots criteria a (List.mem_of_mem_take ha),
      ← sortedStories_metric S R hS snapshots criteria b (List.mem_of_mem_take hb)]
    exact hab
  refine ⟨hsorted, ?_, ?_⟩
  · intro hcrit first rest hres r hr
    rw [hres, List.pairwise_cons] at hsorted
    have := hsorted.1 r hr
    subst hcrit
    simpa [rankedMetric, CriteriaBestRank, CriteriaMaxPoints] using this
  · intro hcrit hrange
    refine hsorted.imp_of_mem ?_
    intro a b ha hb hab
    subst hcrit
    simp only [rankedMetric, CriteriaBestRank, if_true] at hab
    rw [negInt64_of_range _ (hrange a ha).1 (hrange a ha).2,
      negInt64_of_range _ (hrange b hb).1 (hrange b hb).2] at hab
    omega

theorem ComputeTopStories_sorted_descending_witness :
    goSort.Lawful ∧ IsValidCriteria "max_points" = true ∧ (0 : Int) ≤ 2 ∧
    ∃ result, ComputeTopStories goSort insertionOrder sampleWindow "max_points" 2 = .ok result ∧
      result.Pairwise (fun a b => rankedMetric "max_points" b ≤ rankedMetric "max_points" a) ∧
      ("max_points" = "max_points" → ∀ first rest, result = first :: rest →
        ∀ r ∈ rest, r.MaxPoints ≤ first.MaxPoints) ∧
      ("max_points" = "best_rank" →
        (∀ r ∈ result, -2 ^ 63 < r.BestRank ∧ r.BestRank < 2 ^ 63) →
        result.Pairwise (fun a b => a.BestRank ≤ b.BestRank)) :=
  ⟨goSort_lawful, by decide, by decide,
   ComputeTopStories_sorted_descending goSort insertionOrder goSort_lawful sampleWindow
     "max_points" 2 (by decide) (by decide)⟩

/-! ## Errors -/

/-- C4: ComputeTopStories returns an error if and only if criteria is not one of
best_rank, max_points, max_comments, incremental_comments, incremental_points;
for every valid criteria, snapshot list and limit >= 0 it returns a result and
no error. -/
theorem ComputeTopStories_error_iff (S : SliceSorter) (R : MapRange)
    (snapshots : List Snapshot) (criteria : String) (limit : Int) :
    ((∃ msg, ComputeTopStories S R snapshots criteria limit = .error msg) ↔
      ¬ (criteria = "best_rank" ∨ criteria = "max_points" ∨ criteria = "max_comments" ∨
          criteria = "incremental_comments" ∨ criteria = "incremental_points")) ∧
    ((criteria = "best_rank" ∨ criteria = "max_points" ∨ criteria = "max_comments" ∨
          criteria = "incremental_comments" ∨ criteria = "incremental_points") →
      0 ≤ limit → ∃ result, ComputeTopStories S R snapshots criteria limit = .ok result) := by
  rw [← isValidCriteria_iff]
  constructor
  · constructor
    · rintro ⟨msg, hmsg⟩ hv
      unfold ComputeTopStories at hmsg
      simp only [hv, Bool.not_true, Bool.false_eq_true, if_false] at hmsg
      split_ifs at hmsg
    · intro hv
      have hv2 : IsValidCriteria criteria = false := by simpa using hv
      exact ⟨"invalid criteria: " ++ criteria, by simp [ComputeTopStories, hv2]⟩
  · intro hv hl
    exact ⟨_, ComputeTopStories_ok S R snapshots criteria limit hv hl⟩

theorem ComputeTopStories_error_iff_witness :
    (∃ msg, ComputeTopStories goSort insertionOrder sampleWindow "hottest" 3 = .error msg) ∧
    (∃ result, ComputeTopStories goSort insertionOrder sampleWindow "best_rank" 3 = .ok result) :=
  ⟨(ComputeTopStories_error_iff goSort insertionOrder sampleWindow "hottest" 3).1.mpr (by decide),
   (ComputeTopStories_error_iff goSort insertionOrder sampleWindow "best_rank" 3).2
     (Or.inl rfl) (by decide)⟩

/-! ## Size of the result -/

/-- C6: for every snapshot list, valid criteria and limit >= 0, the number of
entries ComputeTopStories returns is min(limit, number of distinct story_id
values occurring in the input snapshots). -/
theorem ComputeTopStories_length (S : SliceSorter) (R : MapRange) (hS : S.Lawful)
    (hR : R.Lawful) (snapshots : List Snapshot) (criteria : String) (limit : Int)
    (hc : IsValidCriteria criteria = true) (hl : 0 ≤ limit) :
    ∃ result, ComputeTopStories S R snapshots criteria limit = .ok result ∧
      (result.length : Int) = min limit (distinctStoryCount snapshots : Int) := by
  refine ⟨_, ComputeTopStories_ok S R snapshots criteria limit hc hl, ?_⟩
  rw [List.length_map, List.length_take, sortedStories_length S R hS hR]
  omega

theorem ComputeTopStories_length_witness :
    goSort.Lawful ∧ reverseOrder.Lawful ∧ IsValidCriteria "best_rank" = true ∧ (0 : Int) ≤ 1 ∧
    ∃ result, ComputeTopStories goSort reverseOrder sampleWindow "best_rank" 1 = .ok result ∧
      (result.length : Int) = min 1 (distinctStoryCount sampleWindow : Int) :=
  ⟨goSort_lawful, reverseOrder_lawful, by decide, by decide,
   ComputeTopStories_length goSort reverseOrder goSort_lawful reverseOrder_lawful sampleWindow
     "best_rank" 1 (by decide) (by decide)⟩

/-! ## Best rank and maxima -/

theorem foldStory_cons (sd : storyData) (o : Int × Story) (os : List (Int × Story)) :
    foldStory sd (o :: os) = foldStory (updateStoryData sd o.1 o.2) os := rfl

theorem foldStory_bestRank (os : List (Int × Story)) (sd : storyData) :
    ((foldStory sd os).bestRank = sd.bestRank ∨
        ∃ o ∈ os, o.2.Rank = (foldStory sd os).bestRank) ∧
      (foldStory sd os).bestRank ≤ sd.bestRank ∧
      ∀ o ∈ os, (foldStory sd os).bestRank ≤ o.2.Rank := by
  induction os generalizing sd with
  | nil => simp [foldStory]
  | cons o os ih =>
    rw [foldStory_cons]
    obtain ⟨h1, h2, h3⟩ := ih (updateStoryData sd o.1 o.2)
    have hu : (updateStoryData sd o.1 o.2).bestRank =
        if o.2.Rank < sd.bestRank then o.2.Rank else sd.bestRank := rfl
    rw [hu] at h1 h2
    refine ⟨?_, ?_, ?_⟩
    · rcases h1 with h1 | ⟨o', ho', h1⟩
      · split at h1
        · exact Or.inr ⟨o, List.mem_cons_self _ _, h1.symm⟩
        · exact Or.inl h1
      · exact Or.inr ⟨o', List.mem_cons_of_mem _ ho', h1⟩
    · split at h2 <;> omega
    · intro o' ho'
      rcases List.mem_cons.mp ho' with rfl | ho'
      · split at h2 <;> omega
      · exact h3 o' ho'

theorem foldStory_maxPoints (os : List (Int × Story)) (sd : storyData) :
    ((foldStory sd os).maxPoints = sd.maxPoints ∨
        ∃ o ∈ os, o.2.Points = (foldStory sd os).maxPoints) ∧
      sd.maxPoints ≤ (foldStory sd os).maxPoints ∧
      ∀ o ∈ os, o.2.Points ≤ (foldStory sd os).maxPoints := by
  induction os generalizing sd with
  | nil => simp [foldStory]
  | cons o os ih =>
    rw [foldStory_cons]
    obtain ⟨h1, h2, h3⟩ := ih (updateStoryData sd o.1 o.2)
    have hu : (updateStoryData sd o.1 o.2).maxPoints =
        if o.2.Points > sd.maxPoints then o.2.Points else sd.maxPoints := rfl
    rw [hu] at h1 h2
    refine ⟨?_, ?_, ?_⟩
    · rcases h1 with h1 | ⟨o', ho', h1⟩
      · split at h1
        · exact Or.inr ⟨o, List.mem_cons_self _ _, h1.symm⟩
        · exact Or.inl h1
      · exact Or.inr ⟨o', List.mem_cons_of_mem _ ho', h1⟩
    · split at h2 <;> omega
    · intro o' ho'
      rcases List.mem_cons.mp ho' with rfl | ho'
      · split at h2 <;> omega
      · exact h3 o' ho'

theorem foldStory_maxComments (os : List (Int × Story)) (sd : storyData) :
    ((foldStory sd os).maxComments = sd.maxComments ∨
        ∃ o ∈ os, o.2.Comments = (foldStory sd os).maxComments) ∧
      sd.maxComments ≤ (foldStory sd os).maxComments ∧
      ∀ o ∈ os, o.2.Comments ≤ (foldStory sd os).maxComments := by
  induction os generalizing sd with
  | nil => simp [foldStory]
  | cons o os ih =>
    rw [foldStory_cons]
    obtain ⟨h1, h2, h3⟩ := ih (updateStoryData sd o.1 o.2)
    have hu : (updateStoryData sd o.1 o.2).maxComments =
        if o.2.Comments > sd.maxComments then o.2.Comments else sd.maxComments := rfl
    rw [hu] at h1 h2
    refine ⟨?_, ?_, ?_⟩
    · rcases h1 with h1 | ⟨o', ho', h1⟩
      · split at h1
        · exact Or.inr ⟨o, List.mem_cons_self _ _, h1.symm⟩
        · exact Or.inl h1
      · exact Or.inr ⟨o', List.mem_cons_of_mem _ ho', h1⟩
    · split at h2 <;> omega
    · intro o' ho'
      rcases List.mem_cons.mp ho' with rfl | ho'
      · split at h2 <;> omega
      · exact h3 o' ho'

theorem foldStory_storyID (os : List (Int × Story)) (sd : storyData) :
    (foldStory sd os).storyID = sd.storyID := by
  induction os generalizing sd with
  | nil => rfl
  | cons o os ih => rw [foldStory_cons, ih]; rfl

theorem visitsOf_map_snd (id : String) (snaps : List Snapshot) :
    (visitsOf id (visits snaps)).map (fun o => o.2) = occurrencesOf id snaps := by
  induction snaps with
  | nil => rfl
  | cons s snaps ih =>
    simp only [visitsOf, visits, occurrencesOf, allStories, List.flatMap_cons, List.filter_append,
      List.map_append] at ih ⊢
    rw [ih]
    congr 1
    rw [List.filter_map, List.map_map]
    simp [Function.comp_def]

theorem occurrencesOf_perm (id : String) {l₁ l₂ : List Snapshot} (h : l₁.Perm l₂) :
    (occurrencesOf id l₁).Perm (occurrencesOf id l₂) :=
  (allStories_perm h).filter _

/-- Every accumulator of the map holds the least rank and the greatest points
and comments over the records of its story. -/
theorem storyMapOf_extrema (S : SliceSorter) (hS : S.Lawful) (snaps : List Snapshot)
    (sd : storyData) (hsd : sd ∈ storyMapOf S snaps) :
    ((∃ st ∈ occurrencesOf sd.storyID snaps, st.Rank = sd.bestRank) ∧
        ∀ st ∈ occurrencesOf sd.storyID snaps, sd.bestRank ≤ st.Rank) ∧
    ((∃ st ∈ occurrencesOf sd.storyID snaps, st.Points = sd.maxPoints) ∧
        ∀ st ∈ occurrencesOf sd.storyID snaps, st.Points ≤ sd.maxPoints) ∧
    ((∃ st ∈ occurrencesOf sd.storyID snaps, st.Comments = sd.maxComments) ∧
        ∀ st ∈ occurrencesOf sd.storyID snaps, st.Comments ≤ sd.maxComments) := by
  have hperm := hS.1 _ lessFetchedAt snaps
  have hmemiff : ∀ st, st ∈ occurrencesOf sd.storyID snaps ↔
      ∃ o ∈ visitsOf sd.storyID (visits (S.sortSlice lessFetchedAt snaps)), o.2 = st := by
    intro st
    rw [← (occurrencesOf_perm sd.storyID hperm).mem_iff, ← visitsOf_map_snd, List.mem_map]
  have hafter := aggregate_mem _ sd hsd
  generalize visitsOf sd.storyID (visits (S.sortSlice lessFetchedAt snaps)) = os at hmemiff hafter
  cases os with
  | nil => cases hafter
  | cons o os =>
    simp only [storyAfter, Option.some.injEq] at hafter
    have hb := foldStory_bestRank os (newStoryData o.1 o.2)
    have hp := foldStory_maxPoints os (newStoryData o.1 o.2)
    have hcm := foldStory_maxComments os (newStoryData o.1 o.2)
    rw [hafter] at hb hp hcm
    simp only [newStoryData] at hb hp hcm
    simp only [hmemiff, List.mem_cons]
    refine ⟨⟨?_, ?_⟩, ⟨?_, ?_⟩, ⟨?_, ?_⟩⟩
    · rcases hb.1 with h | ⟨o', ho', h⟩
      · exact ⟨o.2, ⟨o, Or.inl rfl, rfl⟩, h.symm⟩
      · exact ⟨o'.2, ⟨o', Or.inr ho', rfl⟩, h⟩
    · rintro st ⟨o', ho' | ho', rfl⟩
      · rw [ho']; exact hb.2.1
      · exact hb.2.2 o' ho'
    · rcases hp.1 with h | ⟨o', ho', h⟩
      · exact ⟨o.2, ⟨o, Or.inl rfl, rfl⟩, h.symm⟩
      · exact ⟨o'.2, ⟨o', Or.inr ho', rfl⟩, h⟩
    · rintro st ⟨o', ho' | ho', rfl⟩
      · rw [ho']; exact hp.2.1
      · exact hp.2.2 o' ho'
    · rcases hcm.1 with h | ⟨o', ho', h⟩
      · exact ⟨o.2, ⟨o, Or.inl rfl, rfl⟩, h.symm⟩
      · exact ⟨o'.2, ⟨o', Or.inr ho', rfl⟩, h⟩
    · rintro st ⟨o', ho' | ho', rfl⟩
      · rw [ho']; exact hcm.2.1
      · exact hcm.2.2 o' ho'

/-- C2: for every snapshot list and valid criteria, each RankedStory returned by
ComputeTopStories has best_rank equal to the minimum rank, max_points equal to
the maximum points and max_comments equal to the maximum comments over all
occurrences of its story_id in all input snapshots: each value is attained by
an occurrence and bounds every occurrence. -/
theorem ComputeTopStories_extrema (S : SliceSorter) (R : MapRange) (hS : S.Lawful)
    (hR : R.Lawful) (snapshots : List Snapshot) (criteria : String) (limit : Int)
    (hc : IsValidCriteria criteria = true) (hl : 0 ≤ limit) :
    ∃ result, ComputeTopStories S R snapshots criteria limit = .ok result ∧
      ∀ r ∈ result,
        ((∃ st ∈ occurrencesOf r.StoryID snapshots, st.Rank = r.BestRank) ∧
          ∀ st ∈ occurrencesOf r.StoryID snapshots, r.BestRank ≤ st.Rank) ∧
        ((∃ st ∈ occurrencesOf r.StoryID snapshots, st.Points = r.MaxPoints) ∧
          ∀ st ∈ occurrencesOf r.StoryID snapshots, st.Points ≤ r.MaxPoints) ∧
        ((∃ st ∈ occurrencesOf r.StoryID snapshots, st.Comments = r.MaxComments) ∧
          ∀ st ∈ occurrencesOf r.StoryID snapshots, st.Comments ≤ r.MaxComments) := by
  refine ⟨_, ComputeTopStories_ok S R snapshots criteria limit hc hl, ?_⟩
  intro r hr
  obtain ⟨sd, hsd, rfl⟩ := mem_result S R hS hR snapshots criteria _ r hr
  exact storyMapOf_extrema S hS snapshots sd hsd

theorem ComputeTopStories_extrema_witness :
    goSort.Lawful ∧ insertionOrder.Lawful ∧ IsValidCriteria "max_comments" = true ∧
    (0 : Int) ≤ 5 ∧
    ∃ result, ComputeTopStories goSort insertionOrder sampleWindow "max_comments" 5 = .ok result ∧
      ∀ r ∈ result,
        ((∃ st ∈ occurrencesOf r.StoryID sampleWindow, st.Rank = r.BestRank) ∧
          ∀ st ∈ occurrencesOf r.StoryID sampleWindow, r.BestRank ≤ st.Rank) ∧
        ((∃ st ∈ occurrencesOf r.StoryID sampleWindow, st.Points = r.MaxPoints) ∧
          ∀ st ∈ occurrencesOf r.StoryID sampleWindow, st.Points ≤ r.MaxPoints) ∧
        ((∃ st ∈ occurrencesOf r.StoryID sampleWindow, st.Comments = r.MaxComments) ∧
          ∀ st ∈ occurrencesOf r.StoryID sampleWindow, st.Comments ≤ r.MaxComments) :=
  ⟨goSort_lawful, insertionOrder_lawful, by decide, by decide,
   ComputeTopStories_extrema goSort insertionOrder goSort_lawful insertionOrder_lawful
     sampleWindow "max_comments" 5 (by decide) (by decide)⟩

/-! ## First and last occurrence -/

theorem foldStory_append (sd : storyData) (os₁ os₂ : List (Int × Story)) :
    foldStory sd (os₁ ++ os₂) = foldStory (foldStory sd os₁) os₂ := by
  unfold foldStory
  rw [List.foldl_append]

theorem foldStory_firstFields (os : List (Int × Story)) (sd : storyData) :
    firstFields (foldStory sd os) = firstFields sd := by
  induction os generalizing sd with
  | nil => rfl
  | cons o os ih => rw [foldStory_cons, ih]; rfl

/-- Visits that are not later than the accumulator's last fetch time leave its
last-seen values alone. -/
theorem foldStory_not_later (os : List (Int × Story)) (sd : storyData)
    (h : ∀ o ∈ os, o.1 ≤ sd.lastFetchedAt) :
    lastFields (foldStory sd os) = lastFields sd ∧
      (foldStory sd os).lastFetchedAt = sd.lastFetchedAt := by
  induction os generalizing sd with
  | nil => exact ⟨rfl, rfl⟩
  | cons o os ih =>
    rw [foldStory_cons]
    have ho : ¬ (o.1 > sd.lastFetchedAt) := by
      have := h o (List.mem_cons_self _ _)
      omega
    have h1 : lastFields (updateStoryData sd o.1 o.2) = lastFields sd := by
      simp [lastFields, updateStoryData, ho]
    have h2 : (updateStoryData sd o.1 o.2).lastFetchedAt = sd.lastFetchedAt := by
      simp [updateStoryData, ho]
    have := ih (updateStoryData sd o.1 o.2) (by
      intro o' ho'
      rw [h2]
      exact h o' (List.mem_cons_of_mem _ ho'))
    rw [h1, h2] at this
    exact this

theorem visitsOf_visits (id : String) (snaps : List Snapshot) :
    visitsOf id (visits snaps) = snaps.flatMap (visitBlock id) := by
  induction snaps with
  | nil => rfl
  | cons s snaps ih =>
    simp only [visitsOf, visits, List.flatMap_cons, List.filter_append] at ih ⊢
    rw [ih]
    congr 1
    rw [visitBlock, List.filter_map]
    rfl

theorem visitBlock_time (id : String) (s : Snapshot) (o : Int × Story)
    (ho : o ∈ visitBlock id s) : o.1 = s.FetchedAt := by
  obtain ⟨st, _, rfl⟩ := List.mem_map.mp ho
  rfl

theorem visitBlock_eq_nil (id : String) (s : Snapshot) (h : containsStory id s = false) :
    visitBlock id s = [] := by
  unfold visitBlock
  rw [List.map_eq_nil_iff, List.filter_eq_nil_iff]
  intro st hst hid
  have : containsStory id s = true := List.any_eq_true.mpr ⟨st, hst, hid⟩
  rw [h] at this
  cases this

theorem visitBlock_of_contains (id : String) (s : Snapshot) (h : containsStory id s = true) :
    ∃ st rest, recordIn id s = some st ∧ visitBlock id s = (s.FetchedAt, st) :: rest := by
  unfold visitBlock recordIn
  unfold containsStory at h
  obtain ⟨st0, hst0, hid0⟩ := List.any_eq_true.mp h
  have hne : s.Stories.filter (fun st => st.StoryID == id) ≠ [] := by
    intro hnil
    have : st0 ∈ s.Stories.filter (fun st => st.StoryID == id) :=
      List.mem_filter.mpr ⟨hst0, hid0⟩
    rw [hnil] at this
    cases this
  rw [← List.filter_head?]
  cases hf : s.Stories.filter (fun st => st.StoryID == id) with
  | nil => exact absurd hf hne
  | cons st rest => exact ⟨st, rest.map (fun st => (s.FetchedAt, st)), rfl, rfl⟩

theorem flatMap_visitBlock_filter (id : String) (snaps : List Snapshot) :
    (snaps.filter (containsStory id)).flatMap (visitBlock id) = snaps.flatMap (visitBlock id) := by
  induction snaps with
  | nil => rfl
  | cons s snaps ih =>
    cases h : containsStory id s with
    | true => rw [List.filter_cons_of_pos h, List.flatMap_cons, List.flatMap_cons, ih]
    | false =>
      rw [List.filter_cons_of_neg (by simp [h]), List.flatMap_cons, ih, visitBlock_eq_nil id s h]
      rfl

/-- A snapshot later than the accumulator's last fetch time installs its record of the
story as the last-seen values. -/
theorem foldStory_visitBlock (id : String) (s : Snapshot) (sd : storyData)
    (hc : containsStory id s = true) (hlt : sd.lastFetchedAt < s.FetchedAt) :
    (recordIn id s).map recordFields = some (lastFields (foldStory sd (visitBlock id s))) ∧
      (foldStory sd (visitBlock id s)).lastFetchedAt = s.FetchedAt := by
  obtain ⟨st, rest, hrec, hblk⟩ := visitBlock_of_contains id s hc
  have hrest : ∀ o ∈ rest, o.1 = s.FetchedAt := fun o ho =>
    visitBlock_time id s o (hblk ▸ List.mem_cons_of_mem _ ho)
  rw [hblk, foldStory_cons, hrec]
  have h1 : lastFields (updateStoryData sd s.FetchedAt st) = recordFields st := by
    simp [lastFields, recordFields, updateStoryData, hlt]
  have h2 : (updateStoryData sd s.FetchedAt st).lastFetchedAt = s.FetchedAt := by
    simp [updateStoryData, hlt]
  have := foldStory_not_later rest (updateStoryData sd s.FetchedAt st) (by
    intro o ho
    rw [h2, hrest o ho])
  rw [h1, h2] at this
  exact ⟨by rw [this.1]; rfl, this.2⟩

/-- Over snapshots that all list the story and have strictly increasing fetch times, all
later than the accumulator's, the last-seen values end up those of the last snapshot. -/
theorem foldStory_flatMap_last (id : String) (T : List Snapshot) (s : Snapshot) (sd : storyData)
    (hT : (s :: T).Pairwise (fun a b => a.FetchedAt < b.FetchedAt))
    (hc : ∀ x ∈ s :: T, containsStory id x = true)
    (hlt : sd.lastFetchedAt < s.FetchedAt) :
    ((s :: T).getLast?.bind (recordIn id)).map recordFields =
      some (lastFields (foldStory sd ((s :: T).flatMap (visitBlock id)))) := by
  induction T generalizing s sd with
  | nil =>
    simp only [List.flatMap_cons, List.flatMap_nil, List.append_nil, List.getLast?_singleton,
      Option.some_bind]
    exact (foldStory_visitBlock id s sd (hc s (List.mem_cons_self _ _)) hlt).1
  | cons s' T ih =>
    rw [List.getLast?_cons_cons, List.flatMap_cons, foldStory_append]
    rw [List.pairwise_cons] at hT
    apply ih s' _ hT.2 (fun x hx => hc x (List.mem_cons_of_mem _ hx))
    rw [(foldStory_visitBlock id s sd (hc s (List.mem_cons_self _ _)) hlt).2]
    exact hT.1 s' (List.mem_cons_self _ _)

/-- When the snapshots listing a story come in strictly increasing fetch time, the
accumulator of the story holds as first-seen values those of the first such snapshot
and as last-seen values those of the last one. -/
theorem storyAfter_first_last (id : String) (L : List Snapshot)
    (hT : (L.filter (containsStory id)).Pairwise (fun a b => a.FetchedAt < b.FetchedAt))
    (sd : storyData) (h : storyAfter (visitsOf id (visits L)) = some sd) :
    ((L.filter (containsStory id)).head?.bind (recordIn id)).map recordFields
        = some (firstFields sd) ∧
      ((L.filter (containsStory id)).getLast?.bind (recordIn id)).map recordFields
        = some (lastFields sd) := by
  rw [visitsOf_visits, ← flatMap_visitBlock_filter] at h
  have hc : ∀ x ∈ L.filter (containsStory id), containsStory id x = true :=
    fun x hx => (List.mem_filter.mp hx).2
  generalize L.filter (containsStory id) = T at h hT hc
  cases T with
  | nil => cases h
  | cons s T =>
    obtain ⟨f, rest, hrec, hblk⟩ := visitBlock_of_contains id s (hc s (List.mem_cons_self _ _))
    have hrest : ∀ o ∈ rest, o.1 = s.FetchedAt := fun o ho =>
      visitBlock_time id s o (hblk ▸ List.mem_cons_of_mem _ ho)
    rw [List.flatMap_cons, hblk, List.cons_append] at h
    simp only [storyAfter, Option.some.injEq, foldStory_append] at h
    have h1 := foldStory_not_later rest (newStoryData s.FetchedAt f) (by
      intro o ho
      rw [hrest o ho]
      exact le_refl _)
    have hfirst : firstFields sd = recordFields f := by
      rw [← h, foldStory_firstFields, foldStory_firstFields]
      rfl
    refine ⟨by rw [List.head?_cons, Option.some_bind, hrec, hfirst]; rfl, ?_⟩
    cases T with
    | nil =>
      simp only [List.flatMap_nil, foldStory, List.foldl_nil] at h
      rw [List.getLast?_singleton, Option.some_bind, hrec, ← h]
      change some (recordFields f) = _
      unfold foldStory at h1
      rw [h1.1]
      rfl
    | cons s' T =>
      rw [List.getLast?_cons_cons, ← h]
      rw [List.pairwise_cons] at hT
      apply foldStory_flatMap_last id T s' _ hT.2 (fun x hx => hc x (List.mem_cons_of_mem _ hx))
      rw [h1.2]
      exact hT.1 s' (List.mem_cons_self _ _)

theorem pairwise_lt_of_le_of_nodup (T : List Snapshot)
    (hle : T.Pairwise (fun a b => a.FetchedAt ≤ b.FetchedAt))
    (hnd : (T.map (fun s => s.FetchedAt)).Nodup) :
    T.Pairwise (fun a b => a.FetchedAt < b.FetchedAt) := by
  have hne : T.Pairwise (fun a b => a.FetchedAt ≠ b.FetchedAt) := by
    rw [List.Nodup, List.pairwise_map] at hnd
    exact hnd
  exact (hle.and hne).imp (fun h => lt_of_le_of_ne h.1 h.2)

/-- The sorted snapshots that list a story, when their fetch times are pairwise
distinct, are in strictly increasing fetch time. -/
theorem sortSlice_filter_strict (S : SliceSorter) (hS : S.Lawful) (id : String)
    (snaps : List Snapshot)
    (hnd : ((snaps.filter (containsStory id)).map (fun s => s.FetchedAt)).Nodup) :
    ((S.sortSlice lessFetchedAt snaps).filter (containsStory id)).Pairwise
      (fun a b => a.FetchedAt < b.FetchedAt) := by
  apply pairwise_lt_of_le_of_nodup
  · apply List.Pairwise.filter
    refine (hS.2 _ lessFetchedAt snaps lessFetchedAt_asymm lessFetchedAt_negTrans).imp ?_
    intro a b hab
    simp only [lessFetchedAt, decide_eq_false_iff_not] at hab
    omega
  · exact ((((hS.1 _ lessFetchedAt snaps).filter _).map _).nodup_iff).mpr hnd

theorem timeSeries_strict (id : String) (snaps : List Snapshot)
    (hnd : ((snaps.filter (containsStory id)).map (fun s => s.FetchedAt)).Nodup) :
    (timeSeries id snaps).Pairwise (fun a b => a.FetchedAt < b.FetchedAt) := by
  apply pairwise_lt_of_le_of_nodup
  · apply List.Pairwise.filter
    refine (List.sorted_insertionSort timeOrderLE snaps).imp ?_
    intro a b hab
    unfold timeOrderLE at hab
    omega
  · exact ((((List.perm_insertionSort timeOrderLE snaps).filter _).map _).nodup_iff).mpr hnd

/-- With pairwise distinct fetch times, the code's sorted snapshots listing a story are
the story's time series. -/
theorem sortSlice_filter_eq_timeSeries (S : SliceSorter) (hS : S.Lawful) (id : String)
    (snaps : List Snapshot)
    (hnd : ((snaps.filter (containsStory id)).map (fun s => s.FetchedAt)).Nodup) :
    (S.sortSlice lessFetchedAt snaps).filter (containsStory id) = timeSeries id snaps := by
  apply List.eq_of_perm_of_sorted (r := fun a b : Snapshot => a.FetchedAt < b.FetchedAt)
  · exact ((hS.1 _ lessFetchedAt snaps).filter _).trans
      ((List.perm_insertionSort timeOrderLE snaps).filter _).symm
  · exact sortSlice_filter_strict S hS id snaps hnd
  · exact timeSeries_strict id snaps hnd

/-- The first-seen and last-seen values of every accumulator of the map, when the
snapshots listing its story have pairwise distinct fetch times. -/
theorem storyMapOf_first_last (S : SliceSorter) (hS : S.Lawful) (snaps : List Snapshot)
    (sd : storyData) (hsd : sd ∈ storyMapOf S snaps)
    (hnd : ((snaps.filter (containsStory sd.storyID)).map (fun s => s.FetchedAt)).Nodup) :
    (firstOccurrence sd.storyID snaps).map recordFields = some (firstFields sd) ∧
      (lastOccurrence sd.storyID snaps).map recordFields = some (lastFields sd) := by
  have h := storyAfter_first_last sd.storyID (S.sortSlice lessFetchedAt snaps)
    (sortSlice_filter_strict S hS sd.storyID snaps hnd) sd (aggregate_mem _ sd hsd)
  rw [sortSlice_filter_eq_timeSeries S hS sd.storyID snaps hnd] at h
  exact h

/-! ## Incremental values -/

/-- C3 (amended): each RankedStory returned by ComputeTopStories has
incremental_points = last_points - first_points and incremental_comments =
last_comments - first_comments (Go int subtraction), first and last being the
story's record in the earliest and in the latest snapshot containing it,
provided the snapshots containing the story have pairwise distinct fetched_at. -/
theorem ComputeTopStories_incremental (S : SliceSorter) (R : MapRange) (hS : S.Lawful)
    (hR : R.Lawful) (snapshots : List Snapshot) (criteria : String) (limit : Int)
    (hc : IsValidCriteria criteria = true) (hl : 0 ≤ limit) :
    ∃ result, ComputeTopStories S R snapshots criteria limit = .ok result ∧
      ∀ r ∈ result,
        ((snapshots.filter (containsStory r.StoryID)).map (fun s => s.FetchedAt)).Nodup →
        ∃ first last, firstOccurrence r.StoryID snapshots = some first ∧
          lastOccurrence r.StoryID snapshots = some last ∧
          r.IncrementalPoints = subInt64 last.Points first.Points ∧
          r.IncrementalComments = subInt64 last.Comments first.Comments := by
  refine ⟨_, ComputeTopStories_ok S R snapshots criteria limit hc hl, ?_⟩
  intro r hr hnd
  obtain ⟨sd, hsd, rfl⟩ := mem_result S R hS hR snapshots criteria _ r hr
  obtain ⟨h1, h2⟩ := storyMapOf_first_last S hS snapshots sd hsd hnd
  obtain ⟨first, hf, hf2⟩ := Option.map_eq_some'.mp h1
  obtain ⟨last, hl1, hl2⟩ := Option.map_eq_some'.mp h2
  simp only [recordFields, firstFields, lastFields, Prod.mk.injEq] at hf2 hl2
  refine ⟨first, last, hf, hl1, ?_, ?_⟩
  · simp only [toRankedStory]; rw [hf2.1, hl2.1]
  · simp only [toRankedStory]; rw [hf2.2, hl2.2]

theorem ComputeTopStories_incremental_witness :
    goSort.Lawful ∧ insertionOrder.Lawful ∧ IsValidCriteria "incremental_points" = true ∧
    (0 : Int) ≤ 2 ∧
    ∃ result, ComputeTopStories goSort insertionOrder sampleWindow "incremental_points" 2
        = .ok result ∧
      ∀ r ∈ result,
        ((sampleWindow.filter (containsStory r.StoryID)).map (fun s => s.FetchedAt)).Nodup →
        ∃ first last, firstOccurrence r.StoryID sampleWindow = some first ∧
          lastOccurrence r.StoryID sampleWindow = some last ∧
          r.IncrementalPoints = subInt64 last.Points first.Points ∧
          r.IncrementalComments = subInt64 last.Comments first.Comments :=
  ⟨goSort_lawful, insertionOrder_lawful, by decide, by decide,
   ComputeTopStories_incremental goSort insertionOrder goSort_lawful insertionOrder_lawful
     sampleWindow "incremental_points" 2 (by decide) (by decide)⟩

/-- C3 fails as stated: in two snapshots of equal fetched_at (ids 1 and 2) storyA
has 10 and then 20 points; in the time series ordered by fetched_at and then
snapshot id its first record has 10 points and its last record 20, yet the
incremental_points the code returns (0) is not their difference. -/
theorem ComputeTopStories_incremental_tie :
    ∃ result, ComputeTopStories goSort insertionOrder tieWindow "incremental_points" 10
        = .ok result ∧
      ∃ r ∈ result, ∃ first last, firstOccurrence r.StoryID tieWindow = some first ∧
        lastOccurrence r.StoryID tieWindow = some last ∧
        r.IncrementalPoints = 0 ∧ subInt64 last.Points first.Points = 10 ∧
        r.IncrementalPoints ≠ subInt64 last.Points first.Points :=
  ⟨[{ StoryID := "storyA", Headline := "headline", URL := "url", Username := "user",
      DiscussionURL := "discussion", BestRank := 1, MaxPoints := 20, MaxComments := 5,
      IncrementalPoints := 0, IncrementalComments := 0 }],
   by decide, _, List.mem_singleton.mpr rfl,
   sampleStory "storyA" 1 10 3, sampleStory "storyA" 1 20 5,
   by decide, by decide, by decide, by decide, by decide⟩

/-- C8: for every snapshot list in which a story_id occurs in exactly one
snapshot, the RankedStory returned for that story by ComputeTopStories (under
any valid criteria) has incremental_points = 0 and incremental_comments = 0. -/
theorem ComputeTopStories_single_snapshot (S : SliceSorter) (R : MapRange) (hS : S.Lawful)
    (hR : R.Lawful) (snapshots : List Snapshot) (criteria : String) (limit : Int)
    (hc : IsValidCriteria criteria = true) (hl : 0 ≤ limit) :
    ∃ result, ComputeTopStories S R snapshots criteria limit = .ok result ∧
      ∀ r ∈ result, (snapshots.filter (containsStory r.StoryID)).length = 1 →
        r.IncrementalPoints = 0 ∧ r.IncrementalComments = 0 := by
  refine ⟨_, ComputeTopStories_ok S R snapshots criteria limit hc hl, ?_⟩
  intro r hr hone
  obtain ⟨sd, hsd, rfl⟩ := mem_result S R hS hR snapshots criteria _ r hr
  change (snapshots.filter (containsStory sd.storyID)).length = 1 at hone
  obtain ⟨s, hs⟩ := List.length_eq_one.mp hone
  have hnd : ((snapshots.filter (containsStory sd.storyID)).map (fun s => s.FetchedAt)).Nodup := by
    rw [hs]; exact List.nodup_singleton _
  obtain ⟨h1, h2⟩ := storyMapOf_first_last S hS snapshots sd hsd hnd
  have hlen : (timeSeries sd.storyID snapshots).length = 1 := by
    rw [timeSeries, ((List.perm_insertionSort timeOrderLE snapshots).filter _).length_eq, hone]
  obtain ⟨s', hs'⟩ := List.length_eq_one.mp hlen
  have hsame : firstOccurrence sd.storyID snapshots = lastOccurrence sd.storyID snapshots := by
    rw [firstOccurrence, lastOccurrence, hs']
    rfl
  rw [hsame, h2] at h1
  simp only [Option.some.injEq, firstFields, lastFields, Prod.mk.injEq] at h1
  simp only [toRankedStory, h1.1, h1.2, subInt64_self, and_self]

theorem ComputeTopStories_single_snapshot_witness :
    goSort.Lawful ∧ insertionOrder.Lawful ∧ IsValidCriteria "max_points" = true ∧
    (0 : Int) ≤ 2 ∧
    ∃ result, ComputeTopStories goSort insertionOrder lateArrival "max_points" 2 = .ok result ∧
      ∀ r ∈ result, (lateArrival.filter (containsStory r.StoryID)).length = 1 →
        r.IncrementalPoints = 0 ∧ r.IncrementalComments = 0 :=
  ⟨goSort_lawful, insertionOrder_lawful, by decide, by decide,
   ComputeTopStories_single_snapshot goSort insertionOrder goSort_lawful insertionOrder_lawful
     lateArrival "max_points" 2 (by decide) (by decide)⟩

/-! ## Independence of the caller's ordering -/

theorem nodup_of_pairwise_lt (l : List Snapshot)
    (h : l.Pairwise (fun a b => a.FetchedAt < b.FetchedAt)) :
    (l.map (fun s => s.FetchedAt)).Nodup := by
  rw [List.Nodup, List.pairwise_map]
  exact h.imp (fun hab => ne_of_lt hab)

/-- Sorting by fetch time has one possible outcome when the fetch times are pairwise
distinct. -/
theorem sortSlice_eq_of_strict (S : SliceSorter) (hS : S.Lawful) (l l' : List Snapshot)
    (hp : l.Perm l') (hs : l'.Pairwise (fun a b => a.FetchedAt < b.FetchedAt)) :
    S.sortSlice lessFetchedAt l = l' := by
  have hperm : (S.sortSlice lessFetchedAt l).Perm l' := (hS.1 _ _ _).trans hp
  apply List.eq_of_perm_of_sorted (r := fun a b : Snapshot => a.FetchedAt < b.FetchedAt) hperm
  · apply pairwise_lt_of_le_of_nodup
    · refine (hS.2 _ lessFetchedAt l lessFetchedAt_asymm lessFetchedAt_negTrans).imp ?_
      intro a b hab
      simp only [lessFetchedAt, decide_eq_false_iff_not] at hab
      omega
    · exact ((hperm.map _).nodup_iff).mpr (nodup_of_pairwise_lt l' hs)
  · exact hs

theorem sortSlice_singleton (S : SliceSorter) (hS : S.Lawful) {α : Type}
    (less : α → α → Bool) (x : α) : S.sortSlice less [x] = [x] :=
  List.perm_singleton.mp (hS.1 _ less [x])

/-! ## The scenario of the specification -/

/-- C9: given two snapshots, one with fetched_at=0 containing storyA with rank 1
and points 10, one with fetched_at=60 containing storyA with rank 1 and points
20 (handed over in either order), ComputeTopStories with criteria
incremental_points and limit 1 returns exactly one entry, for storyA, with
incremental_points=10, max_points=20 and best_rank=1. -/
theorem ComputeTopStories_scenario (S : SliceSorter) (R : MapRange) (hS : S.Lawful)
    (hR : R.Lawful) (a b : Story) (snapA snapB : Snapshot) (snapshots : List Snapshot)
    (ha : a.StoryID = "storyA" ∧ a.Rank = 1 ∧ a.Points = 10)
    (hb : b.StoryID = "storyA" ∧ b.Rank = 1 ∧ b.Points = 20)
    (hA : snapA.FetchedAt = 0 ∧ snapA.Stories = [a])
    (hB : snapB.FetchedAt = 60 ∧ snapB.Stories = [b])
    (hin : snapshots = [snapA, snapB] ∨ snapshots = [snapB, snapA]) :
    ∃ r, ComputeTopStories S R snapshots "incremental_points" 1 = .ok [r] ∧
      r.StoryID = "storyA" ∧ r.IncrementalPoints = 10 ∧ r.MaxPoints = 20 ∧ r.BestRank = 1 := by
  have hsorted : S.sortSlice lessFetchedAt snapshots = [snapA, snapB] := by
    apply sortSlice_eq_of_strict S hS
    · rcases hin with h | h
      · rw [h]
      · rw [h]; exact List.Perm.swap _ _ _
    · simp [hA.1, hB.1]
  have hmap : storyMapOf S snapshots =
      [updateStoryData (newStoryData 0 a) 60 b] := by
    rw [storyMapOf, hsorted]
    simp [aggregate, processSnapshot, processStory, mapLookup, newStoryData,
      hA.1, hA.2, hB.1, hB.2, ha.1, hb.1]
  have hstories : sortedStories S R snapshots "incremental_points" =
      [(updateStoryData (newStoryData 0 a) 60 b,
        computeMetric "incremental_points" (updateStoryData (newStoryData 0 a) 60 b))] := by
    rw [sortedStories, hmap, List.perm_singleton.mp (hR _)]
    exact sortSlice_singleton S hS _ _
  refine ⟨toRankedStory (updateStoryData (newStoryData 0 a) 60 b), ?_, ?_, ?_, ?_, ?_⟩
  · rw [ComputeTopStories_ok S R snapshots _ 1 (by decide) (by decide), hstories]
    rfl
  · simp [toRankedStory, updateStoryData, newStoryData, ha.1]
  · simp only [toRankedStory, updateStoryData, newStoryData, ha.2.2, hb.2.2]
    decide
  · simp [toRankedStory, updateStoryData, newStoryData, ha.2.2, hb.2.2]
  · simp [toRankedStory, updateStoryData, newStoryData, ha.2.1, hb.2.1]

theorem ComputeTopStories_scenario_witness :
    ∃ r, ComputeTopStories goSort insertionOrder
        [sampleSnapshot 2 60 [sampleStory "storyA" 1 20 0],
         sampleSnapshot 1 0 [sampleStory "storyA" 1 10 0]] "incremental_points" 1 = .ok [r] ∧
      r.StoryID = "storyA" ∧ r.IncrementalPoints = 10 ∧ r.MaxPoints = 20 ∧ r.BestRank = 1 :=
  ComputeTopStories_scenario goSort insertionOrder goSort_lawful insertionOrder_lawful
    (sampleStory "storyA" 1 10 0) (sampleStory "storyA" 1 20 0)
    (sampleSnapshot 1 0 [sampleStory "storyA" 1 10 0])
    (sampleSnapshot 2 60 [sampleStory "storyA" 1 20 0]) _
    ⟨rfl, rfl, rfl⟩ ⟨rfl, rfl, rfl⟩ ⟨rfl, rfl⟩ ⟨rfl, rfl⟩ (Or.inr rfl)

theorem sortedStories_map_fst_perm (S : SliceSorter) (R : MapRange) (hS : S.Lawful)
    (hR : R.Lawful) (snaps : List Snapshot) (c : String) :
    ((sortedStories S R snaps c).map (fun e => toRankedStory e.1)).Perm
      ((storyMapOf S snaps).map toRankedStory) := by
  have h := (sortedStories_perm S R hS hR snaps c).map (fun e => toRankedStory e.1)
  rw [List.map_map] at h
  exact h

theorem ComputeTopStories_all (S : SliceSorter) (R : MapRange) (hS : S.Lawful) (hR : R.Lawful)
    (snaps : List Snapshot) (c : String) (limit : Int) (hc : IsValidCriteria c = true)
    (hlim : (distinctStoryCount snaps : Int) ≤ limit) :
    ∃ result, ComputeTopStories S R snaps c limit = .ok result ∧
      result.Perm ((storyMapOf S snaps).map toRankedStory) := by
  refine ⟨_, ComputeTopStories_ok S R snaps c limit hc (by omega), ?_⟩
  rw [List.take_of_length_le (by rw [sortedStories_length S R hS hR]; omega)]
  exact sortedStories_map_fst_perm S R hS hR snaps c

theorem storyMapOf_perm_eq (S : SliceSorter) (hS : S.Lawful) (snaps permuted : List Snapshot)
    (hp : permuted.Perm snaps) (hnd : (snaps.map (fun s => s.FetchedAt)).Nodup) :
    storyMapOf S permuted = storyMapOf S snaps := by
  unfold storyMapOf
  congr 1
  apply sortSlice_eq_of_strict S hS permuted _ (hp.trans (hS.1 _ lessFetchedAt snaps).symm)
  apply pairwise_lt_of_le_of_nodup
  · refine (hS.2 _ lessFetchedAt snaps lessFetchedAt_asymm lessFetchedAt_negTrans).imp ?_
    intro a b hab
    simp only [lessFetchedAt, decide_eq_false_iff_not] at hab
    omega
  · exact (((hS.1 _ lessFetchedAt snaps).map _).nodup_iff).mpr hnd

/-- C7 (amended): for every snapshot list with pairwise distinct fetched_at, every
permutation of it, every valid criteria and every limit at least the number of
distinct stories, the two calls of ComputeTopStories return the same
RankedStory records, up to their order. -/
theorem ComputeTopStories_permutation (S : SliceSorter) (R₁ R₂ : MapRange) (hS : S.Lawful)
    (hR₁ : R₁.Lawful) (hR₂ : R₂.Lawful) (snapshots permuted : List Snapshot)
    (criteria : String) (limit : Int) (hp : permuted.Perm snapshots)
    (hnd : (snapshots.map (fun s => s.FetchedAt)).Nodup)
    (hc : IsValidCriteria criteria = true)
    (hlim : (distinctStoryCount snapshots : Int) ≤ limit) :
    ∃ r₁ r₂, ComputeTopStories S R₁ snapshots criteria limit = .ok r₁ ∧
      ComputeTopStories S R₂ permuted criteria limit = .ok r₂ ∧ r₁.Perm r₂ := by
  obtain ⟨r₁, h₁, p₁⟩ := ComputeTopStories_all S R₁ hS hR₁ snapshots criteria limit hc hlim
  obtain ⟨r₂, h₂, p₂⟩ := ComputeTopStories_all S R₂ hS hR₂ permuted criteria limit hc
    (by rw [distinctStoryCount_perm hp]; exact hlim)
  rw [storyMapOf_perm_eq S hS snapshots permuted hp hnd] at p₂
  exact ⟨r₁, r₂, h₁, h₂, p₁.trans p₂.symm⟩

theorem ComputeTopStories_permutation_witness :
    ∃ r₁ r₂, ComputeTopStories goSort insertionOrder sampleWindow "best_rank" 2 = .ok r₁ ∧
      ComputeTopStories goSort reverseOrder sampleWindow.reverse "best_rank" 2 = .ok r₂ ∧
      r₁.Perm r₂ :=
  ComputeTopStories_permutation goSort insertionOrder reverseOrder goSort_lawful
    insertionOrder_lawful reverseOrder_lawful sampleWindow sampleWindow.reverse "best_rank" 2
    (List.reverse_perm _) (by decide) (by decide) (by decide)

/-- C7 fails as stated: the snapshots of `tieThenLater` and the same snapshots with the
first two (of equal fetched_at) exchanged give storyA incremental_points 40 in one
call and 30 in the other. -/
theorem ComputeTopStories_permutation_tie :
    tieThenLaterSwapped.Perm tieThenLater ∧
    (distinctStoryCount tieThenLater : Int) ≤ 1 ∧
    ∃ r₁ r₂, ComputeTopStories goSort insertionOrder tieThenLater "max_points" 1 = .ok [r₁] ∧
      ComputeTopStories goSort insertionOrder tieThenLaterSwapped "max_points" 1 = .ok [r₂] ∧
      r₁.StoryID = r₂.StoryID ∧ r₁.IncrementalPoints = 40 ∧ r₂.IncrementalPoints = 30 ∧
      r₁ ∉ [r₂] :=
  ⟨List.Perm.swap _ _ _, by decide,
   { StoryID := "storyA", Headline := "headline", URL := "url", Username := "user",
     DiscussionURL := "discussion", BestRank := 1, MaxPoints := 50, MaxComments := 9,
     IncrementalPoints := 40, IncrementalComments := 6 },
   { StoryID := "storyA", Headline := "headline", URL := "url", Username := "user",
     DiscussionURL := "discussion", BestRank := 1, MaxPoints := 50, MaxComments := 9,
     IncrementalPoints := 30, IncrementalComments := 4 },
   by decide, by decide, by decide, by decide, by decide, by decide⟩

/-! ## Independence of the criteria -/

/-- C10: for every snapshot list, any two valid criteria and every limit at least
the number of distinct stories, the two results of ComputeTopStories contain the
same RankedStory records (incremental_points and incremental_comments included),
differing at most in order. -/
theorem ComputeTopStories_criteria_independent (S : SliceSorter) (R₁ R₂ : MapRange)
    (hS : S.Lawful) (hR₁ : R₁.Lawful) (hR₂ : R₂.Lawful) (snapshots : List Snapshot)
    (c₁ c₂ : String) (limit : Int) (hc₁ : IsValidCriteria c₁ = true)
    (hc₂ : IsValidCriteria c₂ = true) (hlim : (distinctStoryCount snapshots : Int) ≤ limit) :
    ∃ r₁ r₂, ComputeTopStories S R₁ snapshots c₁ limit = .ok r₁ ∧
      ComputeTopStories S R₂ snapshots c₂ limit = .ok r₂ ∧ r₁.Perm r₂ := by
  obtain ⟨r₁, h₁, p₁⟩ := ComputeTopStories_all S R₁ hS hR₁ snapshots c₁ limit hc₁ hlim
  obtain ⟨r₂, h₂, p₂⟩ := ComputeTopStories_all S R₂ hS hR₂ snapshots c₂ limit hc₂ hlim
  exact ⟨r₁, r₂, h₁, h₂, p₁.trans p₂.symm⟩

theorem ComputeTopStories_criteria_independent_witness :
    ∃ r₁ r₂, ComputeTopStories goSort insertionOrder sampleWindow "best_rank" 2 = .ok r₁ ∧
      ComputeTopStories goSort reverseOrder sampleWindow "incremental_points" 2 = .ok r₂ ∧
      r₁.Perm r₂ :=
  ComputeTopStories_criteria_independent goSort insertionOrder reverseOrder goSort_lawful
    insertionOrder_lawful reverseOrder_lawful sampleWindow "best_rank" "incremental_points" 2
    (by decide) (by decide) (by decide)

/-! ## Ties -/

theorem sortedStories_metrics_eq (S : SliceSorter) (R₁ R₂ : MapRange) (hS : S.Lawful)
    (hR₁ : R₁.Lawful) (hR₂ : R₂.Lawful) (snaps : List Snapshot) (c : String) :
    (sortedStories S R₁ snaps c).map (fun e => e.2) =
      (sortedStories S R₂ snaps c).map (fun e => e.2) := by
  apply List.eq_of_perm_of_sorted (r := fun a b : Int => b ≤ a)
  · exact ((sortedStories_perm S R₁ hS hR₁ snaps c).trans
      (sortedStories_perm S R₂ hS hR₂ snaps c).symm).map _
  · rw [List.Sorted, List.pairwise_map]
    exact sortedStories_pairwise S R₁ hS snaps c
  · rw [List.Sorted, List.pairwise_map]
    exact sortedStories_pairwise S R₂ hS snaps c

theorem result_metrics (S : SliceSorter) (R : MapRange) (hS : S.Lawful)
    (snaps : List Snapshot) (c : String) (n : Nat) :
    (((sortedStories S R snaps c).take n).map (fun e => toRankedStory e.1)).map (rankedMetric c)
      = ((sortedStories S R snaps c).map (fun e => e.2)).take n := by
  rw [List.map_map, ← List.map_take]
  apply List.map_congr_left
  intro e he
  rw [Function.comp, rankedMetric_toRankedStory,
    sortedStories_metric S R hS snaps c e (List.mem_of_mem_take he)]

/-- C5 (amended): for every snapshot list, valid criteria and limit >= 0, the
sequence of ranking-metric values of the list ComputeTopStories returns is
uniquely determined by the input, whatever order the map iteration takes, and
is descending; nothing fixes the order of stories with equal metric. -/
theorem ComputeTopStories_metrics_determined (S : SliceSorter) (R₁ R₂ : MapRange)
    (hS : S.Lawful) (hR₁ : R₁.Lawful) (hR₂ : R₂.Lawful) (snapshots : List Snapshot)
    (criteria : String) (limit : Int) (hc : IsValidCriteria criteria = true) (hl : 0 ≤ limit) :
    ∃ r₁ r₂, ComputeTopStories S R₁ snapshots criteria limit = .ok r₁ ∧
      ComputeTopStories S R₂ snapshots criteria limit = .ok r₂ ∧
      r₁.map (rankedMetric criteria) = r₂.map (rankedMetric criteria) ∧
      (r₁.map (rankedMetric criteria)).Pairwise (fun x y => y ≤ x) := by
  refine ⟨_, _, ComputeTopStories_ok S R₁ snapshots criteria limit hc hl,
    ComputeTopStories_ok S R₂ snapshots criteria limit hc hl, ?_, ?_⟩
  · rw [result_metrics S R₁ hS, result_metrics S R₂ hS,
      sortedStories_metrics_eq S R₁ R₂ hS hR₁ hR₂]
  · rw [result_metrics S R₁ hS]
    apply List.Pairwise.sublist (List.take_sublist _ _)
    rw [List.pairwise_map]
    exact sortedStories_pairwise S R₁ hS snapshots criteria

theorem ComputeTopStories_metrics_determined_witness :
    ∃ r₁ r₂, ComputeTopStories goSort insertionOrder sampleWindow "best_rank" 1 = .ok r₁ ∧
      ComputeTopStories goSort reverseOrder sampleWindow "best_rank" 1 = .ok r₂ ∧
      r₁.map (rankedMetric "best_rank") = r₂.map (rankedMetric "best_rank") ∧
      (r₁.map (rankedMetric "best_rank")).Pairwise (fun x y => y ≤ x) :=
  ComputeTopStories_metrics_determined goSort insertionOrder reverseOrder goSort_lawful
    insertionOrder_lawful reverseOrder_lawful sampleWindow "best_rank" 1 (by decide) (by decide)

/-- C5 fails as stated: in `sampleWindow` storyA and storyB both reach rank 1, at
different times.  With criteria best_rank and limit 1 the call returns storyA
when the map iteration visits storyA first and storyB when it visits storyB
first; with limit 2 the latter lists storyB before storyA although their
metrics are equal. -/
theorem ComputeTopStories_tie_order :
    (∃ r, ComputeTopStories goSort insertionOrder sampleWindow "best_rank" 1 = .ok [r] ∧
      r.StoryID = "storyA" ∧ r.BestRank = 1) ∧
    (∃ r, ComputeTopStories goSort reverseOrder sampleWindow "best_rank" 1 = .ok [r] ∧
      r.StoryID = "storyB" ∧ r.BestRank = 1) ∧
    (∃ r₁ r₂, ComputeTopStories goSort reverseOrder sampleWindow "best_rank" 2 = .ok [r₁, r₂] ∧
      rankedMetric "best_rank" r₁ = rankedMetric "best_rank" r₂ ∧
      r₁.StoryID = "storyB" ∧ r₂.StoryID = "storyA") :=
  ⟨⟨{ StoryID := "storyA", Headline := "headline", URL := "url", Username := "user",
      DiscussionURL := "discussion", BestRank := 1, MaxPoints := 20, MaxComments := 4,
      IncrementalPoints := 10, IncrementalComments := 1 }, by decide, by decide, by decide⟩,
   ⟨{ StoryID := "storyB", Headline := "headline", URL := "url", Username := "user",
      DiscussionURL := "discussion", BestRank := 1, MaxPoints := 45, MaxComments := 9,
      IncrementalPoints := 5, IncrementalComments := 4 }, by decide, by decide, by decide⟩,
   ⟨{ StoryID := "storyB", Headline := "headline", URL := "url", Username := "user",
      DiscussionURL := "discussion", BestRank := 1, MaxPoints := 45, MaxComments := 9,
      IncrementalPoints := 5, IncrementalComments := 4 },
    { StoryID := "storyA", Headline := "headline", URL := "url", Username := "user",
      DiscussionURL := "discussion", BestRank := 1, MaxPoints := 20, MaxComments := 4,
      IncrementalPoints := 10, IncrementalComments := 1 },
    by decide, by decide, by decide, by decide⟩⟩

/-! ## Display metadata -/

theorem foldStory_metadata (os : List (Int × Story)) (sd : storyData) :
    metadataOf (foldStory sd os) =
      match os.getLast? with
      | none => metadataOf sd
      | some o => storyMetadata o.2 := by
  induction os generalizing sd with
  | nil => rfl
  | cons o os ih =>
    rw [foldStory_cons, ih]
    cases os with
    | nil => rfl
    | cons o' os =>
      rw [List.getLast?_cons_cons]
      cases hl : (o' :: os).getLast? with
      | none => simp at hl
      | some x => rfl

theorem storyAfter_metadata (os : List (Int × Story)) (sd : storyData)
    (h : storyAfter os = some sd) :
    ∃ o, os.getLast? = some o ∧ metadataOf sd = storyMetadata o.2 := by
  cases os with
  | nil => cases h
  | cons o os =>
    simp only [storyAfter, Option.some.injEq] at h
    rw [← h, foldStory_metadata]
    cases os with
    | nil => exact ⟨o, rfl, rfl⟩
    | cons o' os =>
      rw [List.getLast?_cons_cons]
      cases hl : (o' :: os).getLast? with
      | none => simp at hl
      | some x => exact ⟨x, rfl, rfl⟩

/-- The last visit of a story is its last record in the last snapshot listing it. -/
theorem flatMap_visitBlock_getLast (id : String) (T : List Snapshot) (s : Snapshot)
    (hs : containsStory id s = true) :
    ((T ++ [s]).flatMap (visitBlock id)).getLast? =
      ((s.Stories.filter (fun st => st.StoryID == id)).getLast?).map
        (fun st => (s.FetchedAt, st)) := by
  obtain ⟨st, rest, _, hblk⟩ := visitBlock_of_contains id s hs
  rw [List.flatMap_append, List.flatMap_cons, List.flatMap_nil, List.append_nil,
    List.getLast?_append]
  have : (visitBlock id s).getLast? ≠ none := by
    rw [hblk]; simp
  cases hlast : (visitBlock id s).getLast? with
  | none => exact absurd hlast this
  | some o =>
    change some o = _
    rw [← hlast, visitBlock, List.getLast?_map]

/-- The accumulator of a story carries the metadata of the story's last record in a
snapshot that no snapshot listing the story is later than. -/
theorem storyMapOf_metadata (S : SliceSorter) (hS : S.Lawful) (snaps : List Snapshot)
    (sd : storyData) (hsd : sd ∈ storyMapOf S snaps) :
    ∃ s ∈ snaps, ∃ st,
      (s.Stories.filter (fun st => st.StoryID == sd.storyID)).getLast? = some st ∧
      (∀ s' ∈ snaps, containsStory sd.storyID s' = true → s'.FetchedAt ≤ s.FetchedAt) ∧
      metadataOf sd = storyMetadata st := by
  have hafter := aggregate_mem _ sd hsd
  rw [visitsOf_visits, ← flatMap_visitBlock_filter] at hafter
  have hperm := hS.1 _ lessFetchedAt snaps
  have hsorted : ((S.sortSlice lessFetchedAt snaps).filter (containsStory sd.storyID)).Pairwise
      (fun a b => a.FetchedAt ≤ b.FetchedAt) := by
    apply List.Pairwise.filter
    refine (hS.2 _ lessFetchedAt snaps lessFetchedAt_asymm lessFetchedAt_negTrans).imp ?_
    intro a b hab
    simp only [lessFetchedAt, decide_eq_false_iff_not] at hab
    omega
  have hmem : ∀ x, x ∈ (S.sortSlice lessFetchedAt snaps).filter (containsStory sd.storyID) ↔
      x ∈ snaps ∧ containsStory sd.storyID x = true := by
    intro x
    rw [List.mem_filter, hperm.mem_iff]
  generalize (S.sortSlice lessFetchedAt snaps).filter (containsStory sd.storyID) = T
    at hafter hsorted hmem
  induction T using List.reverseRecOn with
  | nil => cases hafter
  | append_singleton T s _ =>
    have hs := (hmem s).mp (List.mem_append_right _ (List.mem_singleton_self s))
    obtain ⟨o, ho, hmeta⟩ := storyAfter_metadata _ sd hafter
    rw [flatMap_visitBlock_getLast sd.storyID T s hs.2] at ho
    obtain ⟨st, hst, rfl⟩ := Option.map_eq_some'.mp ho
    refine ⟨s, hs.1, st, hst, ?_, hmeta⟩
    intro s' hs' hc'
    have hin := (hmem s').mpr ⟨hs', hc'⟩
    rw [List.pairwise_append] at hsorted
    rcases List.mem_append.mp hin with h | h
    · exact hsorted.2.2 s' h s (List.mem_singleton_self s)
    · rw [List.mem_singleton.mp h]

/-- C11 (amended): for every snapshot list, the headline, url, username and
discussion_url of each RankedStory returned by ComputeTopStories are those of the
story's occurrence (its last record there, should the snapshot list it more than
once) in the latest snapshot that contains it, provided the snapshots containing
the story have pairwise distinct fetched_at: every other snapshot containing the
story has a smaller fetched_at. -/
theorem ComputeTopStories_metadata (S : SliceSorter) (R : MapRange) (hS : S.Lawful)
    (hR : R.Lawful) (snapshots : List Snapshot) (criteria : String) (limit : Int)
    (hc : IsValidCriteria criteria = true) (hl : 0 ≤ limit) :
    ∃ result, ComputeTopStories S R snapshots criteria limit = .ok result ∧
      ∀ r ∈ result,
        ((snapshots.filter (containsStory r.StoryID)).map (fun s => s.FetchedAt)).Nodup →
        ∃ s ∈ snapshots, ∃ st,
          (s.Stories.filter (fun st => st.StoryID == r.StoryID)).getLast? = some st ∧
          (∀ s' ∈ snapshots, containsStory r.StoryID s' = true → s' ≠ s →
            s'.FetchedAt < s.FetchedAt) ∧
          r.Headline = st.Headline ∧ r.URL = st.URL ∧ r.Username = st.Username ∧
          r.DiscussionURL = st.DiscussionURL := by
  refine ⟨_, ComputeTopStories_ok S R snapshots criteria limit hc hl, ?_⟩
  intro r hr hnd
  obtain ⟨sd, hsd, rfl⟩ := mem_result S R hS hR snapshots criteria _ r hr
  obtain ⟨s, hs, st, hst, hmax, hmeta⟩ := storyMapOf_metadata S hS snapshots sd hsd
  simp only [metadataOf, storyMetadata, Prod.mk.injEq] at hmeta
  refine ⟨s, hs, st, hst, ?_, hmeta.1, hmeta.2.1, hmeta.2.2.1, hmeta.2.2.2⟩
  have hcs : containsStory sd.storyID s = true := by
    have hmem := List.mem_of_getLast?_eq_some hst
    rw [List.mem_filter] at hmem
    unfold containsStory
    rw [List.any_eq_true]
    exact ⟨st, hmem.1, hmem.2⟩
  intro s' hs' hcs' hne
  have hle := hmax s' hs' hcs'
  rcases lt_or_eq_of_le hle with hlt | heq
  · exact hlt
  · exfalso
    have h1 : s' ∈ snapshots.filter (containsStory sd.storyID) :=
      List.mem_filter.mpr ⟨hs', hcs'⟩
    have h2 : s ∈ snapshots.filter (containsStory sd.storyID) :=
      List.mem_filter.mpr ⟨hs, hcs⟩
    exact hne (List.inj_on_of_nodup_map hnd h1 h2 heq)

theorem ComputeTopStories_metadata_witness :
    ComputeTopStories goSort reverseOrder retitledWindow "max_points" 2 =
      .ok [{ StoryID := "storyA", Headline := "new title", URL := "url", Username := "user",
             DiscussionURL := "discussion", BestRank := 1, MaxPoints := 10, MaxComments := 3,
             IncrementalPoints := 0, IncrementalComments := 0 }] ∧
    ∃ result, ComputeTopStories goSort reverseOrder retitledWindow "max_points" 2 = .ok result ∧
      ∀ r ∈ result,
        ((retitledWindow.filter (containsStory r.StoryID)).map (fun s => s.FetchedAt)).Nodup →
        ∃ s ∈ retitledWindow, ∃ st,
          (s.Stories.filter (fun st => st.StoryID == r.StoryID)).getLast? = some st ∧
          (∀ s' ∈ retitledWindow, containsStory r.StoryID s' = true → s' ≠ s →
            s'.FetchedAt < s.FetchedAt) ∧
          r.Headline = st.Headline ∧ r.URL = st.URL ∧ r.Username = st.Username ∧
          r.DiscussionURL = st.DiscussionURL :=
  ⟨by decide,
   ComputeTopStories_metadata goSort reverseOrder goSort_lawful reverseOrder_lawful
     retitledWindow "max_points" 2 (by decide) (by decide)⟩

/-- C11 fails as stated: two snapshots of fetched_at 60, the one with id 1 listing
storyA as "old title" and the one with id 2 as "new title".  In the time series
ordered by fetched_at and then snapshot id the latest occurrence is "new title",
and the code returns it for the snapshots in one order; for the same snapshots
in the other order it returns "old title". -/
theorem ComputeTopStories_metadata_tie :
    retitledTieSwapped.Perm retitledTie ∧
    ∃ r₁ r₂, ComputeTopStories goSort insertionOrder retitledTie "max_points" 1 = .ok [r₁] ∧
      ComputeTopStories goSort insertionOrder retitledTieSwapped "max_points" 1 = .ok [r₂] ∧
      r₁.Headline = "new title" ∧ r₂.Headline = "old title" ∧
      ∃ last, lastOccurrence "storyA" retitledTieSwapped = some last ∧
        last.Headline = "new title" ∧ r₂.Headline ≠ last.Headline :=
  ⟨List.Perm.swap _ _ _,
   { StoryID := "storyA", Headline := "new title", URL := "url", Username := "user",
     DiscussionURL := "discussion", BestRank := 1, MaxPoints := 10, MaxComments := 3,
     IncrementalPoints := 0, IncrementalComments := 0 },
   { StoryID := "storyA", Headline := "old title", URL := "url", Username := "user",
     DiscussionURL := "discussion", BestRank := 1, MaxPoints := 10, MaxComments := 3,
     IncrementalPoints := 0, IncrementalComments := 0 },
   by decide, by decide, by decide, by decide, titled "new title", by decide, by decide,
   by decide⟩

end Compute

namespace Store

/-! ## The write path -/

theorem insertStories_committed (faults : SaveFaults) (id : Int) (stories : List Story)
    (i : Nat) (c : Conn) :
    (insertStories faults id stories i c).1.committed = c.committed := by
  induction stories generalizing i c with
  | nil => rfl
  | cons story rest ih =>
    unfold insertStories
    split
    · rfl
    · rw [ih]; rfl

theorem insertStories_none_iff (faults : SaveFaults) (id : Int) (stories : List Story)
    (i : Nat) (c : Conn) :
    (insertStories faults id stories i c).2 = none ↔
      ∀ j, j < stories.length → faults.insertStory (i + j) = none := by
  induction stories generalizing i c with
  | nil => simp [insertStories]
  | cons story rest ih =>
    unfold insertStories
    split
    · rename_i err herr
      constructor
      · intro h; cases h
      · intro h
        have := h 0 (by simp)
        simp [herr] at this
    · rename_i hnone
      rw [ih]
      constructor
      · intro h j hj
        cases j with
        | zero => simpa using hnone
        | succ j =>
          have := h j (by simpa using hj)
          rw [← this]; congr 1; omega
      · intro h j hj
        have := h (j + 1) (by simpa using hj)
        rw [← this]; congr 1; omega

theorem insertStories_tx (faults : SaveFaults) (id : Int) (stories : List Story)
    (i : Nat) (c : Conn) (t : Tables) (hc : c.tx = some t)
    (hok : (insertStories faults id stories i c).2 = none) :
    (insertStories faults id stories i c).1.tx =
      some { t with
        stories := t.stories ++ storyRows id t.storySeq stories
        storySeq := t.storySeq + stories.length } := by
  induction stories generalizing i c t with
  | nil => simp [insertStories, storyRows, hc]
  | cons story rest ih =>
    unfold insertStories at hok ⊢
    cases hf : faults.insertStory i with
    | some err => rw [hf] at hok; cases hok
    | none =>
      rw [hf] at hok
      simp only at hok ⊢
      rw [ih (i + 1) _ (insertStoryRow t id story) (by simp [Conn.txExec, hc]) hok]
      simp only [insertStoryRow, storyRows, List.append_assoc, List.singleton_append,
        List.length_cons, Nat.cast_add, Nat.cast_one]
      congr 2
      omega

/-- The two ways a `SaveSnapshot` can end: no step fails and the committed tables
gain the header row and one row per story, or some step fails and the committed
tables are the ones before the call. -/
theorem SaveSnapshot_spec (c : Conn) (faults : SaveFaults) (snapshot : Snapshot) :
    ((faults.beginTx = none ∧ faults.insertSnapshot = none ∧ faults.lastInsertId = none ∧
        faults.prepare = none ∧
        (∀ j, j < snapshot.Stories.length → faults.insertStory j = none) ∧
        faults.commit = none) ∧
      SaveSnapshot c faults snapshot =
        ({ committed :=
            { snapshots := c.committed.snapshots ++
                [{ id := c.committed.snapshotSeq + 1, fetched_at := snapshot.FetchedAt,
                   num_pages := snapshot.NumPages, total_stories := snapshot.TotalStories }]
              stories := c.committed.stories ++
                storyRows (c.committed.snapshotSeq + 1) c.committed.storySeq snapshot.Stories
              snapshotSeq := c.committed.snapshotSeq + 1
              storySeq := c.committed.storySeq + snapshot.Stories.length }
           tx := none }, none)) ∨
    (¬ (faults.beginTx = none ∧ faults.insertSnapshot = none ∧ faults.lastInsertId = none ∧
        faults.prepare = none ∧
        (∀ j, j < snapshot.Stories.length → faults.insertStory j = none) ∧
        faults.commit = none) ∧
      (∃ err, (SaveSnapshot c faults snapshot).2 = some err) ∧
      (SaveSnapshot c faults snapshot).1.committed = c.committed) := by
  have hst := insertStories_none_iff faults
    (c.beginTx.txInsertSnapshot snapshot.FetchedAt snapshot.NumPages snapshot.TotalStories).2
    snapshot.Stories 0
    (c.beginTx.txInsertSnapshot snapshot.FetchedAt snapshot.NumPages snapshot.TotalStories).1
  have hcm := insertStories_committed faults
    (c.beginTx.txInsertSnapshot snapshot.FetchedAt snapshot.NumPages snapshot.TotalStories).2
    snapshot.Stories 0
    (c.beginTx.txInsertSnapshot snapshot.FetchedAt snapshot.NumPages snapshot.TotalStories).1
  have htx := insertStories_tx faults
    (c.beginTx.txInsertSnapshot snapshot.FetchedAt snapshot.NumPages snapshot.TotalStories).2
    snapshot.Stories 0
    (c.beginTx.txInsertSnapshot snapshot.FetchedAt snapshot.NumPages snapshot.TotalStories).1
    (insertSnapshotRow c.committed snapshot.FetchedAt snapshot.NumPages
      snapshot.TotalStories).1 (by simp [Conn.txInsertSnapshot, Conn.beginTx])
  simp only [Nat.zero_add] at hst
  unfold SaveSnapshot
  cases h1 : faults.beginTx with
  | some e => exact Or.inr ⟨by simp, ⟨e, rfl⟩, rfl⟩
  | none =>
    cases h2 : faults.insertSnapshot with
    | some e => exact Or.inr ⟨by simp, ⟨e, rfl⟩, rfl⟩
    | none =>
      cases h3 : faults.lastInsertId with
      | some e =>
        exact Or.inr ⟨by simp, ⟨e, rfl⟩, by simp [Conn.rollback, Conn.txInsertSnapshot, Conn.beginTx]⟩
      | none =>
        cases h4 : faults.prepare with
        | some e =>
          exact Or.inr ⟨by simp, ⟨e, rfl⟩,
            by simp [Conn.rollback, Conn.txInsertSnapshot, Conn.beginTx]⟩
        | none =>
          simp only [true_and]
          rcases hloop : insertStories faults
            (c.beginTx.txInsertSnapshot snapshot.FetchedAt snapshot.NumPages
              snapshot.TotalStories).2 snapshot.Stories 0
            (c.beginTx.txInsertSnapshot snapshot.FetchedAt snapshot.NumPages
              snapshot.TotalStories).1 with ⟨c', _ | err⟩
          · rw [hloop] at hst hcm htx
            simp only [true_iff] at hst
            simp only [forall_const] at htx
            cases h5 : faults.commit with
            | some e =>
              refine Or.inr ⟨by simp, ⟨e, rfl⟩, ?_⟩
              simpa [Conn.rollback, Conn.commitFailed, Conn.txInsertSnapshot, Conn.beginTx]
                using hcm
            | none =>
              refine Or.inl ⟨⟨hst, rfl⟩, ?_⟩
              simp [Conn.commit, Conn.rollback, htx, insertSnapshotRow, Conn.txInsertSnapshot,
                Conn.beginTx]
          · rw [hloop] at hst hcm
            refine Or.inr ⟨?_, ⟨err, rfl⟩, ?_⟩
            · intro h
              have := hst.mpr h.1
              cases this
            · simpa [Conn.rollback, Conn.txInsertSnapshot, Conn.beginTx] using hcm

/-- C12: atomicity of SaveSnapshot.  If SaveSnapshot returns an error (from Begin,
from inserting the snapshot header, from LastInsertId, from preparing the
statement, from inserting any story, or from Commit), the committed tables,
which are what later reads see, are exactly those from before the call; if it
returns nil, the header row and one row for every story of the snapshot have
been added.  It returns nil exactly when none of these steps fails. -/
theorem SaveSnapshot_atomic (c : Conn) (faults : SaveFaults) (snapshot : Snapshot) :
    ((∃ err, (SaveSnapshot c faults snapshot).2 = some err) →
      (SaveSnapshot c faults snapshot).1.committed = c.committed) ∧
    ((SaveSnapshot c faults snapshot).2 = none →
      (SaveSnapshot c faults snapshot).1.committed.snapshots =
        c.committed.snapshots ++
          [{ id := c.committed.snapshotSeq + 1, fetched_at := snapshot.FetchedAt,
             num_pages := snapshot.NumPages, total_stories := snapshot.TotalStories }] ∧
      (SaveSnapshot c faults snapshot).1.committed.stories =
        c.committed.stories ++
          storyRows (c.committed.snapshotSeq + 1) c.committed.storySeq snapshot.Stories) ∧
    ((SaveSnapshot c faults snapshot).2 = none ↔
      (faults.beginTx = none ∧ faults.insertSnapshot = none ∧ faults.lastInsertId = none ∧
        faults.prepare = none ∧
        (∀ j, j < snapshot.Stories.length → faults.insertStory j = none) ∧
        faults.commit = none)) := by
  rcases SaveSnapshot_spec c faults snapshot with ⟨hall, heq⟩ | ⟨hnot, ⟨err, herr⟩, hcm⟩
  · refine ⟨?_, ?_, ?_⟩
    · rintro ⟨err, herr⟩
      rw [heq] at herr
      cases herr
    · intro _
      rw [heq]
      exact ⟨rfl, rfl⟩
    · rw [heq]
      exact ⟨fun _ => hall, fun _ => rfl⟩
  · refine ⟨fun _ => hcm, ?_, ?_⟩
    · intro h
      rw [herr] at h
      cases h
    · rw [herr]
      exact ⟨fun h => (by cases h), fun h => absurd h hnot⟩

theorem SaveSnapshot_atomic_witness :
    (SaveSnapshot emptyConn commitFails sampleFetched).1.committed = emptyConn.committed ∧
    (SaveSnapshot emptyConn secondStoryFails sampleFetched).1.committed = emptyConn.committed ∧
    (SaveSnapshot emptyConn noSaveFaults sampleFetched).1.committed.stories =
      emptyConn.committed.stories ++
        storyRows (emptyConn.committed.snapshotSeq + 1) emptyConn.committed.storySeq
          sampleFetched.Stories :=
  ⟨(SaveSnapshot_atomic emptyConn commitFails sampleFetched).1 ⟨"disk I/O error", by decide⟩,
   (SaveSnapshot_atomic emptyConn secondStoryFails sampleFetched).1 ⟨"disk full", by decide⟩,
   ((SaveSnapshot_atomic emptyConn noSaveFaults sampleFetched).2.1 (by decide)).2⟩

/-! ## The read path -/

theorem scanLoop_none {ρ α : Type} (f : QueryFaults) (body : ρ → Except String α)
    (rows : List ρ) (i : Nat) (acc : List α) (h : (scanLoop f body rows i acc).2 = none) :
    ∃ vals, List.Forall₂ (fun r a => body r = .ok a) rows vals ∧
      (scanLoop f body rows i acc).1 = acc ++ vals := by
  induction rows generalizing i acc with
  | nil => exact ⟨[], List.Forall₂.nil, by simp [scanLoop]⟩
  | cons row rest ih =>
    unfold scanLoop at h ⊢
    cases h1 : iterErrAt f i with
    | some e => rw [h1] at h; cases h
    | none =>
      cases h2 : f.scan i with
      | some e => rw [h1, h2] at h; cases h
      | none =>
        cases h3 : body row with
        | error e => rw [h1, h2, h3] at h; cases h
        | ok a =>
          rw [h1, h2, h3] at h
          simp only at h ⊢
          obtain ⟨vals, hv, heq⟩ := ih (i + 1) (acc ++ [a]) h
          refine ⟨a :: vals, List.Forall₂.cons h3 hv, ?_⟩
          rw [heq, List.append_assoc]
          rfl

theorem scanLoop_noFaults {ρ α : Type} (body : ρ → Except String α) (rows : List ρ) (i : Nat)
    (acc : List α) (hbody : ∀ r ∈ rows, ∃ a, body r = .ok a) :
    (scanLoop noQueryFaults body rows i acc).2 = none := by
  induction rows generalizing i acc with
  | nil => rfl
  | cons row rest ih =>
    obtain ⟨a, ha⟩ := hbody row (List.mem_cons_self _ _)
    unfold scanLoop
    simp only [iterErrAt, noQueryFaults, ha]
    exact ih (i + 1) (acc ++ [a]) (fun r hr => hbody r (List.mem_cons_of_mem _ hr))

theorem forall₂_ok_eq {ρ : Type} (rows vals : List ρ)
    (h : List.Forall₂ (fun r a => (Except.ok r : Except String ρ) = .ok a) rows vals) :
    vals = rows := by
  induction h with
  | nil => rfl
  | cons hab _ ih => rw [ih]; cases hab; rfl

theorem getStoriesForSnapshot_none (E : Compute.SliceSorter) (db : Tables) (f : QueryFaults)
    (id : Int) (h : (getStoriesForSnapshot E db f id).2 = none) :
    (getStoriesForSnapshot E db f id).1 =
      E.sortSlice lessRank (db.stories.filter (fun st => st.SnapshotID == id)) := by
  unfold getStoriesForSnapshot at h ⊢
  cases hq : f.query with
  | some e => rw [hq] at h; cases h
  | none =>
    rw [hq] at h
    simp only at h ⊢
    obtain ⟨vals, hv, heq⟩ := scanLoop_none f _ _ 0 [] h
    rw [heq, forall₂_ok_eq _ _ hv]
    rfl

theorem getStoriesForSnapshot_noFaults (E : Compute.SliceSorter) (db : Tables) (id : Int) :
    (getStoriesForSnapshot E db noQueryFaults id).2 = none := by
  unfold getStoriesForSnapshot
  exact scanLoop_noFaults _ _ 0 [] (fun r _ => ⟨r, rfl⟩)

theorem loadSnapshot_ok (E : Compute.SliceSorter) (db : Tables) (fs : Int → QueryFaults)
    (row : SnapshotRow) (s : Snapshot) (h : loadSnapshot E db fs row = .ok s) :
    s.header = row ∧
      s.Stories = E.sortSlice lessRank (db.stories.filter (fun st => st.SnapshotID == row.id)) := by
  unfold loadSnapshot at h
  have hn := getStoriesForSnapshot_none E db (fs row.id) row.id
  rcases hres : getStoriesForSnapshot E db (fs row.id) row.id with ⟨stories, _ | err⟩
  · rw [hres] at h hn
    simp only [Except.ok.injEq] at h
    subst h
    exact ⟨rfl, hn rfl⟩
  · rw [hres] at h
    cases h

theorem loadSnapshot_noFaults (E : Compute.SliceSorter) (db : Tables) (row : SnapshotRow) :
    ∃ s, loadSnapshot E db (fun _ => noQueryFaults) row = .ok s := by
  unfold loadSnapshot
  have hn := getStoriesForSnapshot_noFaults E db row.id
  rcases hres : getStoriesForSnapshot E db noQueryFaults row.id with ⟨stories, _ | err⟩
  · exact ⟨_, rfl⟩
  · rw [hres] at hn
    cases hn

theorem GetSnapshotsInRange_none (E : Compute.SliceSorter) (db : Tables) (f : QueryFaults)
    (fs : Int → QueryFaults) (fromTime toTime : Time)
    (h : (GetSnapshotsInRange E db f fs fromTime toTime).2 = none) :
    List.Forall₂ (fun row s => loadSnapshot E db fs row = .ok s)
      (E.sortSlice lessFetched (db.snapshots.filter (inRange fromTime toTime)))
      (GetSnapshotsInRange E db f fs fromTime toTime).1 := by
  unfold GetSnapshotsInRange at h ⊢
  cases hq : f.query with
  | some e => rw [hq] at h; cases h
  | none =>
    rw [hq] at h
    simp only at h ⊢
    obtain ⟨vals, hv, heq⟩ := scanLoop_none f _ _ 0 [] h
    rw [heq]
    exact hv

theorem GetSnapshotsInRange_noFaults (E : Compute.SliceSorter) (db : Tables)
    (fromTime toTime : Time) :
    (GetSnapshotsInRange E db noQueryFaults (fun _ => noQueryFaults) fromTime toTime).2 = none := by
  unfold GetSnapshotsInRange
  exact scanLoop_noFaults _ _ 0 [] (fun r _ => loadSnapshot_noFaults E db r)

theorem lessRank_asymm (a b : Story) (h : lessRank a b = true) : lessRank b a = false := by
  simp only [lessRank, decide_eq_true_eq, decide_eq_false_iff_not] at h ⊢
  omega

theorem lessRank_negTrans (a b c : Story) (h1 : lessRank a b = false)
    (h2 : lessRank b c = false) : lessRank a c = false := by
  simp only [lessRank, decide_eq_false_iff_not] at h1 h2 ⊢
  omega

/-- The byte order of two texts is the order of the strings they spell. -/
theorem text_lt_iff (a b : List Char) : a < b ↔ String.mk a < String.mk b :=
  (@String.lt_iff_toList_lt (String.mk a) (String.mk b)).symm

theorem text_lt_asymm {a b : List Char} (h : a < b) : ¬ b < a := by
  rw [text_lt_iff] at h ⊢
  exact not_lt_of_gt h

theorem text_not_lt_trans {a b c : List Char} (h1 : ¬ a < b) (h2 : ¬ b < c) : ¬ a < c := by
  rw [text_lt_iff] at h1 h2 ⊢
  exact not_lt.mpr (le_trans (not_lt.mp h2) (not_lt.mp h1))

theorem lessFetched_asymm (a b : SnapshotRow) (h : lessFetched a b = true) :
    lessFetched b a = false := by
  simp only [lessFetched, decide_eq_true_eq, decide_eq_false_iff_not] at h ⊢
  exact text_lt_asymm h

theorem lessFetched_negTrans (a b c : SnapshotRow) (h1 : lessFetched a b = false)
    (h2 : lessFetched b c = false) : lessFetched a c = false := by
  simp only [lessFetched, decide_eq_false_iff_not] at h1 h2 ⊢
  exact text_not_lt_trans h1 h2

theorem sortedByRank (E : Compute.SliceSorter) (hE : E.Lawful) (l : List Story) :
    (E.sortSlice lessRank l).Pairwise (fun a b => a.Rank ≤ b.Rank) := by
  refine (hE.2 _ lessRank l lessRank_asymm lessRank_negTrans).imp ?_
  intro a b hab
  simp only [lessRank, decide_eq_false_iff_not] at hab
  omega

/-- The rows come out of `ORDER BY fetched_at` ascending in their stored texts. -/
theorem sortedByFetched (E : Compute.SliceSorter) (hE : E.Lawful) (l : List SnapshotRow) :
    (E.sortSlice lessFetched l).Pairwise
      (fun a b => ¬ timestampText b.fetched_at < timestampText a.fetched_at) := by
  refine (hE.2 _ lessFetched l lessFetched_asymm lessFetched_negTrans).imp ?_
  intro a b hab
  simpa only [lessFetched, decide_eq_false_iff_not] using hab

theorem forall₂_header (rows : List SnapshotRow) (result : List Snapshot)
    (E : Compute.SliceSorter) (db : Tables) (fs : Int → QueryFaults)
    (h : List.Forall₂ (fun row s => loadSnapshot E db fs row = .ok s) rows result) :
    result.map Snapshot.header = rows := by
  induction h with
  | nil => rfl
  | cons hab _ ih => rw [List.map_cons, ih, (loadSnapshot_ok E db fs _ _ hab).1]

theorem forall₂_mem_right {ρ α : Type} {R : ρ → α → Prop} {rows : List ρ} {vals : List α}
    (h : List.Forall₂ R rows vals) (a : α) (ha : a ∈ vals) : ∃ r ∈ rows, R r a := by
  induction h with
  | nil => cases ha
  | cons hab _ ih =>
    rcases List.mem_cons.mp ha with rfl | ha
    · exact ⟨_, List.mem_cons_self _ _, hab⟩
    · obtain ⟨r, hr, hR⟩ := ih ha
      exact ⟨r, List.mem_cons_of_mem _ hr, hR⟩

theorem forall₂_mem_left {ρ α : Type} {R : ρ → α → Prop} {rows : List ρ} {vals : List α}
    (h : List.Forall₂ R rows vals) (r : ρ) (hr : r ∈ rows) : ∃ a ∈ vals, R r a := by
  induction h with
  | nil => cases hr
  | cons hab _ ih =>
    rcases List.mem_cons.mp hr with rfl | hr
    · exact ⟨_, List.mem_cons_self _ _, hab⟩
    · obtain ⟨a, ha, hR⟩ := ih hr
      exact ⟨a, List.mem_cons_of_mem _ ha, hR⟩

theorem inRange_iff (fromTime toTime : Time) (row : SnapshotRow) :
    inRange fromTime toTime row = true ↔
      ¬ timestampText row.fetched_at < timestampText fromTime ∧
      ¬ timestampText toTime < timestampText row.fetched_at := by
  simp [inRange]

/-- What `GetSnapshotsInRange` returns when it returns without error: the stored
snapshots whose stored timestamp text lies between the texts of the two bounds,
ascending in that text, each with the stored stories of its id in ascending
rank order; and it returns without error when no database call fails. -/
theorem GetSnapshotsInRange_rows (E : Compute.SliceSorter) (hE : E.Lawful) (db : Tables)
    (f : QueryFaults) (fs : Int → QueryFaults) (fromTime toTime : Time) :
    (GetSnapshotsInRange E db noQueryFaults (fun _ => noQueryFaults) fromTime toTime).2 = none ∧
    ((GetSnapshotsInRange E db f fs fromTime toTime).2 = none →
      ((GetSnapshotsInRange E db f fs fromTime toTime).1.map Snapshot.header).Perm
        (db.snapshots.filter (inRange fromTime toTime)) ∧
      (GetSnapshotsInRange E db f fs fromTime toTime).1.Pairwise
        (fun a b => ¬ timestampText b.FetchedAt < timestampText a.FetchedAt) ∧
      ∀ s ∈ (GetSnapshotsInRange E db f fs fromTime toTime).1,
        s.Stories.Perm (db.stories.filter (fun st => decide (st.SnapshotID = s.ID))) ∧
        s.Stories.Pairwise (fun a b => a.Rank ≤ b.Rank)) := by
  refine ⟨GetSnapshotsInRange_noFaults E db fromTime toTime, ?_⟩
  intro hnone
  have hall := GetSnapshotsInRange_none E db f fs fromTime toTime hnone
  have hhead := forall₂_header _ _ E db fs hall
  refine ⟨?_, ?_, ?_⟩
  · rw [hhead]
    exact hE.1 _ _ _
  · have hs := sortedByFetched E hE (db.snapshots.filter (inRange fromTime toTime))
    rw [← hhead, List.pairwise_map] at hs
    exact hs
  · intro s hs
    obtain ⟨row, _, hrow⟩ := forall₂_mem_right hall s hs
    obtain ⟨hh, hst⟩ := loadSnapshot_ok E db fs row s hrow
    have hid : row.id = s.ID := by rw [← hh]; rfl
    rw [hst, hid]
    refine ⟨?_, sortedByRank E hE _⟩
    refine (hE.1 _ _ _).trans ?_
    apply List.Perm.of_eq
    apply List.filter_congr
    intro st _
    rfl

theorem lessStoryID_eq (a b : String) : lessStoryID a b = decide (a < b) := by
  unfold lessStoryID
  exact decide_eq_decide.mpr String.lt_iff_toList_lt.symm

theorem lessStoryID_asymm (a b : String) (h : lessStoryID a b = true) :
    lessStoryID b a = false := by
  simp only [lessStoryID_eq, decide_eq_true_eq, decide_eq_false_iff_not] at h ⊢
  exact not_lt_of_gt h

theorem lessStoryID_negTrans (a b c : String) (h1 : lessStoryID a b = false)
    (h2 : lessStoryID b c = false) : lessStoryID a c = false := by
  simp only [lessStoryID_eq, decide_eq_false_iff_not, not_lt] at h1 h2 ⊢
  exact le_trans h2 h1

theorem mem_joinStoriesSnapshots (db : Tables) (p : Story × SnapshotRow) :
    p ∈ joinStoriesSnapshots db ↔
      p.1 ∈ db.stories ∧ p.2 ∈ db.snapshots ∧ p.1.SnapshotID = p.2.id := by
  unfold joinStoriesSnapshots
  simp only [List.mem_flatMap, List.mem_map, List.mem_filter, beq_iff_eq]
  constructor
  · rintro ⟨st, hst, sn, ⟨hsn, hid⟩, rfl⟩
    exact ⟨hst, hsn, hid⟩
  · rintro ⟨hst, hsn, hid⟩
    exact ⟨p.1, hst, p.2, ⟨hsn, hid⟩, rfl⟩

/-- What `GetStoryIDsInRange` returns when it returns without error: without
duplicates and in ascending lexical order, the story_id values of the stored
story records whose owning snapshot's stored timestamp text lies between the
texts of the two bounds; and it returns without error when no database call
fails. -/
theorem GetStoryIDsInRange_rows (E : Compute.SliceSorter) (hE : E.Lawful) (db : Tables)
    (f : QueryFaults) (fromTime toTime : Time) :
    (GetStoryIDsInRange E db noQueryFaults fromTime toTime).2 = none ∧
    ((GetStoryIDsInRange E db f fromTime toTime).2 = none →
      (GetStoryIDsInRange E db f fromTime toTime).1.Pairwise (fun a b => a < b) ∧
      ∀ id, id ∈ (GetStoryIDsInRange E db f fromTime toTime).1 ↔
        ∃ st ∈ db.stories, st.StoryID = id ∧
          ∃ sn ∈ db.snapshots, sn.id = st.SnapshotID ∧ inRange fromTime toTime sn = true) := by
  constructor
  · unfold GetStoryIDsInRange
    exact scanLoop_noFaults _ _ 0 [] (fun r _ => ⟨r, rfl⟩)
  · intro hnone
    have hres : (GetStoryIDsInRange E db f fromTime toTime).1 =
        E.sortSlice lessStoryID
          (((joinStoriesSnapshots db).filter (fun p => inRange fromTime toTime p.2)).map
            (fun p => p.1.StoryID)).dedup := by
      unfold GetStoryIDsInRange at hnone ⊢
      cases hq : f.query with
      | some e => rw [hq] at hnone; cases hnone
      | none =>
        rw [hq] at hnone
        simp only at hnone ⊢
        obtain ⟨vals, hv, heq⟩ := scanLoop_none f _ _ 0 [] hnone
        rw [heq, forall₂_ok_eq _ _ hv]
        rfl
    rw [hres]
    have hperm := hE.1 _ lessStoryID
      (((joinStoriesSnapshots db).filter (fun p => inRange fromTime toTime p.2)).map
        (fun p => p.1.StoryID)).dedup
    constructor
    · have hsorted := hE.2 _ lessStoryID
        (((joinStoriesSnapshots db).filter (fun p => inRange fromTime toTime p.2)).map
          (fun p => p.1.StoryID)).dedup lessStoryID_asymm lessStoryID_negTrans
      have hnd : (E.sortSlice lessStoryID
          (((joinStoriesSnapshots db).filter (fun p => inRange fromTime toTime p.2)).map
            (fun p => p.1.StoryID)).dedup).Nodup := hperm.nodup_iff.mpr (List.nodup_dedup _)
      refine (hsorted.and hnd).imp ?_
      intro a b hab
      have h1 : ¬ b < a := by simpa [lessStoryID_eq] using hab.1
      exact lt_of_le_of_ne (not_lt.mp h1) hab.2
    · intro id
      rw [hperm.mem_iff, List.mem_dedup, List.mem_map]
      constructor
      · rintro ⟨p, hp, rfl⟩
        rw [List.mem_filter, mem_joinStoriesSnapshots] at hp
        exact ⟨p.1, hp.1.1, rfl, p.2, hp.1.2.1, hp.1.2.2.symm, hp.2⟩
      · rintro ⟨st, hst, rfl, sn, hsn, hid, hr⟩
        refine ⟨(st, sn), ?_, rfl⟩
        rw [List.mem_filter, mem_joinStoriesSnapshots]
        exact ⟨⟨hst, hsn, hid.symm⟩, hr⟩

/-! ## The store only grows -/

theorem wellFormed_empty : emptyTables.WellFormed :=
  ⟨fun _ h => (List.not_mem_nil _ h).elim, fun _ h => (List.not_mem_nil _ h).elim⟩

theorem storyRows_snapshotID (id seq : Int) (stories : List Story) :
    ∀ st ∈ storyRows id seq stories, st.SnapshotID = id := by
  induction stories generalizing seq with
  | nil => intro st h; cases h
  | cons story rest ih =>
    intro st h
    rcases List.mem_cons.mp h with rfl | h
    · rfl
    · exact ih _ st h

theorem storyRows_content (id seq : Int) (stories : List Story) :
    (storyRows id seq stories).map Story.content = stories.map Story.content := by
  induction stories generalizing seq with
  | nil => rfl
  | cons story rest ih =>
    simp only [storyRows, List.map_cons, ih]
    rfl

theorem Tables.Extends.refl (t : Tables) : t.Extends t :=
  ⟨[], [], by simp, by simp, fun _ h => (List.not_mem_nil _ h).elim, fun _ h => (List.not_mem_nil _ h).elim, le_refl _⟩

theorem Tables.Extends.trans {a b c : Tables} (h1 : a.Extends b) (h2 : b.Extends c) :
    a.Extends c := by
  obtain ⟨sn1, st1, hs1, ht1, hid1, hsid1, hseq1⟩ := h1
  obtain ⟨sn2, st2, hs2, ht2, hid2, hsid2, hseq2⟩ := h2
  refine ⟨sn1 ++ sn2, st1 ++ st2, by rw [hs2, hs1, List.append_assoc],
    by rw [ht2, ht1, List.append_assoc], ?_, ?_, le_trans hseq1 hseq2⟩
  · intro r hr
    rcases List.mem_append.mp hr with h | h
    · exact hid1 r h
    · exact lt_of_le_of_lt hseq1 (hid2 r h)
  · intro x hx
    rcases List.mem_append.mp hx with h | h
    · exact hsid1 x h
    · exact lt_of_le_of_lt hseq1 (hsid2 x h)

theorem SaveSnapshot_extends (c : Conn) (faults : SaveFaults) (snapshot : Snapshot) :
    c.committed.Extends (SaveSnapshot c faults snapshot).1.committed := by
  rcases SaveSnapshot_spec c faults snapshot with ⟨_, heq⟩ | ⟨_, _, hcm⟩
  · rw [heq]
    refine ⟨_, _, rfl, rfl, ?_, ?_, ?_⟩
    · intro r hr
      rw [List.mem_singleton.mp hr]
      simp
    · intro x hx
      rw [storyRows_snapshotID _ _ _ x hx]
      simp
    · simp
  · rw [hcm]
    exact Tables.Extends.refl _

theorem SaveSnapshot_wellFormed (c : Conn) (faults : SaveFaults) (snapshot : Snapshot)
    (h : c.committed.WellFormed) : (SaveSnapshot c faults snapshot).1.committed.WellFormed := by
  rcases SaveSnapshot_spec c faults snapshot with ⟨_, heq⟩ | ⟨_, _, hcm⟩
  · rw [heq]
    constructor
    · intro r hr
      rcases List.mem_append.mp hr with hr | hr
      · have := h.1 r hr
        simp only
        omega
      · rw [List.mem_singleton.mp hr]
    · intro x hx
      rcases List.mem_append.mp hx with hx | hx
      · have := h.2 x hx
        simp only
        omega
      · rw [storyRows_snapshotID _ _ _ x hx]
  · rw [hcm]
    exact h

theorem saveAll_extends (calls : List (SaveFaults × Snapshot)) (c : Conn) :
    c.committed.Extends (saveAll c calls).committed := by
  induction calls generalizing c with
  | nil => exact Tables.Extends.refl _
  | cons call rest ih =>
    exact (SaveSnapshot_extends c call.1 call.2).trans (ih _)

theorem saveAll_wellFormed (calls : List (SaveFaults × Snapshot)) (c : Conn)
    (h : c.committed.WellFormed) : (saveAll c calls).committed.WellFormed := by
  induction calls generalizing c with
  | nil => exact h
  | cons call rest ih => exact ih _ (SaveSnapshot_wellFormed c call.1 call.2 h)

/-- The stories the database holds for a snapshot saved earlier are the rows that
save inserted. -/
theorem stories_of_saved (c : Conn) (hwf : c.committed.WellFormed) (S : Snapshot)
    (db : Tables)
    (hext : Tables.Extends
      { snapshots := c.committed.snapshots ++
          [{ id := c.committed.snapshotSeq + 1, fetched_at := S.FetchedAt,
             num_pages := S.NumPages, total_stories := S.TotalStories }]
        stories := c.committed.stories ++
          storyRows (c.committed.snapshotSeq + 1) c.committed.storySeq S.Stories
        snapshotSeq := c.committed.snapshotSeq + 1
        storySeq := c.committed.storySeq + S.Stories.length } db) :
    db.stories.filter (fun st => st.SnapshotID == c.committed.snapshotSeq + 1) =
      storyRows (c.committed.snapshotSeq + 1) c.committed.storySeq S.Stories := by
  obtain ⟨sn, st, _, hst, _, hsid, _⟩ := hext
  simp only at hst hsid
  rw [hst, List.filter_append, List.filter_append]
  have h1 : c.committed.stories.filter
      (fun st => st.SnapshotID == c.committed.snapshotSeq + 1) = [] := by
    rw [List.filter_eq_nil_iff]
    intro x hx
    have := hwf.2 x hx
    simp only [beq_iff_eq]
    omega
  have h2 : st.filter (fun st => st.SnapshotID == c.committed.snapshotSeq + 1) = [] := by
    rw [List.filter_eq_nil_iff]
    intro x hx
    have := hsid x hx
    simp only [beq_iff_eq]
    omega
  have h3 : (storyRows (c.committed.snapshotSeq + 1) c.committed.storySeq S.Stories).filter
      (fun st => st.SnapshotID == c.committed.snapshotSeq + 1) =
      storyRows (c.committed.snapshotSeq + 1) c.committed.storySeq S.Stories := by
    rw [List.filter_eq_self]
    intro x hx
    simp [storyRows_snapshotID _ _ _ x hx]
  rw [h1, h2, h3]
  simp

/-- The round trip on any well-formed database. -/
theorem roundTrip_of_wellFormed (E : Compute.SliceSorter) (hE : E.Lawful) (c : Conn)
    (hwf : c.committed.WellFormed) (faults : SaveFaults) (S : Snapshot)
    (later : List (SaveFaults × Snapshot)) (f : QueryFaults) (fs : Int → QueryFaults)
    (fromTime toTime : Time) (hsave : (SaveSnapshot c faults S).2 = none)
    (hin : ∀ row : SnapshotRow, row.fetched_at = S.FetchedAt →
      inRange fromTime toTime row = true) :
    (GetSnapshotsInRange E (saveAll (SaveSnapshot c faults S).1 later).committed
      noQueryFaults (fun _ => noQueryFaults) fromTime toTime).2 = none ∧
    ((GetSnapshotsInRange E (saveAll (SaveSnapshot c faults S).1 later).committed
        f fs fromTime toTime).2 = none →
      ∃ snap ∈ (GetSnapshotsInRange E (saveAll (SaveSnapshot c faults S).1 later).committed
          f fs fromTime toTime).1,
        snap.FetchedAt = S.FetchedAt ∧ snap.NumPages = S.NumPages ∧
        snap.TotalStories = S.TotalStories ∧
        (snap.Stories.map Story.content).Perm (S.Stories.map Story.content) ∧
        snap.Stories.Pairwise (fun a b => a.Rank ≤ b.Rank)) := by
  refine ⟨GetSnapshotsInRange_noFaults E _ fromTime toTime, ?_⟩
  intro hnone
  have hext := saveAll_extends later (SaveSnapshot c faults S).1
  rcases SaveSnapshot_spec c faults S with ⟨_, heq⟩ | ⟨_, ⟨err, herr⟩, _⟩
  · generalize (saveAll (SaveSnapshot c faults S).1 later).committed = db at hext hnone ⊢
    rw [heq] at hext
    have hstories := stories_of_saved c hwf S db hext
    obtain ⟨sn, st, hsn, _, _, _, _⟩ := hext
    simp only at hsn
    have hall := GetSnapshotsInRange_none E db f fs fromTime toTime hnone
    have hrow : (⟨c.committed.snapshotSeq + 1, S.FetchedAt, S.NumPages, S.TotalStories⟩ :
        SnapshotRow) ∈ E.sortSlice lessFetched (db.snapshots.filter (inRange fromTime toTime)) := by
      rw [(hE.1 _ _ _).mem_iff, List.mem_filter, hsn]
      exact ⟨by simp, hin _ rfl⟩
    obtain ⟨snap, hsnap, hload⟩ := forall₂_mem_left hall _ hrow
    obtain ⟨hh, hst⟩ := loadSnapshot_ok E db fs _ snap hload
    simp only at hst
    rw [hstories] at hst
    have hf : snap.FetchedAt = S.FetchedAt := congrArg SnapshotRow.fetched_at hh
    have hp : snap.NumPages = S.NumPages := congrArg SnapshotRow.num_pages hh
    have ht : snap.TotalStories = S.TotalStories := congrArg SnapshotRow.total_stories hh
    refine ⟨snap, hsnap, hf, hp, ht, ?_, ?_⟩
    · rw [hst, ← storyRows_content (c.committed.snapshotSeq + 1) c.committed.storySeq S.Stories]
      exact (hE.1 _ _ _).map _
    · rw [hst]
      exact sortedByRank E hE _
  · rw [herr] at hsave
    cases hsave

/-- The round trip as the store provides it.  On a database built by earlier
SaveSnapshot calls, after SaveSnapshot(S) succeeds, and after any further
SaveSnapshot calls, every GetSnapshotsInRange(from, to) that returns without
error and whose bounds enclose the stored timestamp text of S returns a list
containing a snapshot with S's fetched_at, num_pages and total_stories whose
stories are exactly S's stories, ordered by rank ascending. -/
theorem SaveSnapshot_roundTrip_text (E : Compute.SliceSorter) (hE : E.Lawful)
    (earlier later : List (SaveFaults × Snapshot)) (faults : SaveFaults) (S : Snapshot)
    (f : QueryFaults) (fs : Int → QueryFaults) (fromTime toTime : Time)
    (hsave : (SaveSnapshot (saveAll emptyConn earlier) faults S).2 = none)
    (hin : ∀ row : SnapshotRow, row.fetched_at = S.FetchedAt →
      inRange fromTime toTime row = true) :
    (GetSnapshotsInRange E
      (saveAll (SaveSnapshot (saveAll emptyConn earlier) faults S).1 later).committed
      noQueryFaults (fun _ => noQueryFaults) fromTime toTime).2 = none ∧
    ((GetSnapshotsInRange E
        (saveAll (SaveSnapshot (saveAll emptyConn earlier) faults S).1 later).committed
        f fs fromTime toTime).2 = none →
      ∃ snap ∈ (GetSnapshotsInRange E
          (saveAll (SaveSnapshot (saveAll emptyConn earlier) faults S).1 later).committed
          f fs fromTime toTime).1,
        snap.FetchedAt = S.FetchedAt ∧ snap.NumPages = S.NumPages ∧
        snap.TotalStories = S.TotalStories ∧
        (snap.Stories.map Story.content).Perm (S.Stories.map Story.content) ∧
        snap.Stories.Pairwise (fun a b => a.Rank ≤ b.Rank)) :=
  roundTrip_of_wellFormed E hE (saveAll emptyConn earlier)
    (saveAll_wellFormed earlier emptyConn wellFormed_empty) faults S later f fs fromTime toTime
    hsave hin

end Store

namespace Parser

/-! ## Retry and back-off -/

theorem backoff_zero : backoff 0 = baseDelay := by
  simp [backoff, baseDelay, maxDelay]

theorem backoff_succ (k : Nat) :
    (if backoff k * 2 > maxDelay then maxDelay else backoff k * 2) = backoff (k + 1) := by
  unfold backoff
  have hx : baseDelay * 2 ^ (k + 1) = baseDelay * 2 ^ k * 2 := by rw [pow_succ, mul_assoc]
  have hM : (0 : Int) ≤ maxDelay := by decide
  rw [hx]
  generalize baseDelay * 2 ^ k = x
  split <;> omega

/-- The loop invariant of `retryLoop`, from a state the loop of `FetchWithRetry`
reaches: `attempt` calls have failed, each but a last one followed by its wait. -/
theorem retryLoop_spec (doFetch : Nat → Except String Store.Snapshot) (maxRetries : Int)
    (fuel attempt : Nat) (delay : Int) (lastErr : Option String) (sleeps : List Int)
    (hfuel : fuel + attempt = maxRetries.toNat)
    (hprev : ∀ j, j < attempt → ∃ e, doFetch j = .error e)
    (hdelay : attempt + 1 ≤ maxRetries.toNat → delay = backoff attempt)
    (hsleeps : sleeps = (List.range (min attempt (maxRetries.toNat - 1))).map backoff) :
    (∃ k s, k < maxRetries.toNat ∧ doFetch k = .ok s ∧
        (∀ j, j < k → ∃ e, doFetch j = .error e) ∧
        (retryLoop doFetch maxRetries fuel attempt delay lastErr sleeps).result = .ok s ∧
        (retryLoop doFetch maxRetries fuel attempt delay lastErr sleeps).attempts = k + 1 ∧
        (retryLoop doFetch maxRetries fuel attempt delay lastErr sleeps).sleeps =
          (List.range k).map backoff) ∨
    ((∀ j, j < maxRetries.toNat → ∃ e, doFetch j = .error e) ∧
        (∃ e, (retryLoop doFetch maxRetries fuel attempt delay lastErr sleeps).result
          = .error e) ∧
        (retryLoop doFetch maxRetries fuel attempt delay lastErr sleeps).attempts
          = maxRetries.toNat ∧
        (retryLoop doFetch maxRetries fuel attempt delay lastErr sleeps).sleeps =
          (List.range (maxRetries.toNat - 1)).map backoff) := by
  induction fuel generalizing attempt delay lastErr sleeps with
  | zero =>
    right
    have hat : attempt = maxRetries.toNat := by omega
    refine ⟨fun j hj => hprev j (by omega), ⟨_, rfl⟩, hat, ?_⟩
    simp only [retryLoop, hsleeps]
    congr 2
    omega
  | succ fuel ih =>
    have hlt : (attempt : Int) < maxRetries := by omega
    unfold retryLoop
    rw [if_pos hlt]
    cases hf : doFetch attempt with
    | ok s =>
      left
      refine ⟨attempt, s, by omega, hf, hprev, rfl, rfl, ?_⟩
      simp only [hsleeps]
      congr 2
      omega
    | error err =>
      have hprev2 : ∀ j, j < attempt + 1 → ∃ e, doFetch j = .error e := by
        intro j hj
        rcases Nat.lt_succ_iff_lt_or_eq.mp hj with h | h
        · exact hprev j h
        · exact ⟨err, h ▸ hf⟩
      simp only
      by_cases hlast : (attempt : Int) < maxRetries - 1
      · rw [if_pos hlast]
        apply ih (attempt + 1) _ (some err) _ (by omega) hprev2
        · intro _
          rw [hdelay (by omega)]
          exact backoff_succ attempt
        · rw [hsleeps, hdelay (by omega)]
          have h1 : min attempt (maxRetries.toNat - 1) = attempt := by omega
          have h2 : min (attempt + 1) (maxRetries.toNat - 1) = attempt + 1 := by omega
          rw [h1, h2, List.range_succ, List.map_append]
          rfl
      · rw [if_neg hlast]
        apply ih (attempt + 1) _ (some err) _ (by omega) hprev2
        · intro h
          omega
        · rw [hsleeps]
          congr 2
          omega

theorem FetchWithRetry_spec (doFetch : Nat → Except String Store.Snapshot) (maxRetries : Int) :
    (∃ k s, k < maxRetries.toNat ∧ doFetch k = .ok s ∧
        (∀ j, j < k → ∃ e, doFetch j = .error e) ∧
        (FetchWithRetry doFetch maxRetries).result = .ok s ∧
        (FetchWithRetry doFetch maxRetries).attempts = k + 1 ∧
        (FetchWithRetry doFetch maxRetries).sleeps = (List.range k).map backoff) ∨
    ((∀ j, j < maxRetries.toNat → ∃ e, doFetch j = .error e) ∧
        (∃ e, (FetchWithRetry doFetch maxRetries).result = .error e) ∧
        (FetchWithRetry doFetch maxRetries).attempts = maxRetries.toNat ∧
        (FetchWithRetry doFetch maxRetries).sleeps =
          (List.range (maxRetries.toNat - 1)).map backoff) :=
  retryLoop_spec doFetch maxRetries maxRetries.toNat 0 baseDelay none []
    (by omega) (fun j hj => absurd hj (Nat.not_lt_zero j)) (fun _ => backoff_zero.symm)
    (by simp)

/-- C17: retry policy of the fetch.  Fetch makes at most 5 attempts and
FetchWithRetry(n) at most n; the call returns the result of the first successful
attempt, which is the last attempt it makes; an error is returned exactly when
each of the n attempts failed; the waits are, in order,
min(100ms * 2^(k-1), 5s) after the k-th failed attempt, one after every attempt
but the last one made, so none after the final attempt. -/
theorem FetchWithRetry_policy (doFetch : Nat → Except String Store.Snapshot)
    (maxRetries : Int) :
    (FetchWithRetry doFetch maxRetries).attempts ≤ maxRetries.toNat ∧
    (Fetch doFetch).attempts ≤ 5 ∧
    (∀ s, (FetchWithRetry doFetch maxRetries).result = .ok s ↔
      ∃ k, k < maxRetries.toNat ∧ doFetch k = .ok s ∧
        (∀ j, j < k → ∃ e, doFetch j = .error e) ∧
        (FetchWithRetry doFetch maxRetries).attempts = k + 1) ∧
    ((∃ e, (FetchWithRetry doFetch maxRetries).result = .error e) ↔
      ∀ j, j < maxRetries.toNat → ∃ e, doFetch j = .error e) ∧
    (FetchWithRetry doFetch maxRetries).sleeps =
      (List.range ((FetchWithRetry doFetch maxRetries).attempts - 1)).map
        (fun k => min (100 * 1000000 * 2 ^ k) (5 * 1000000000)) := by
  have hfive : (Fetch doFetch).attempts ≤ 5 := by
    unfold Fetch
    rcases FetchWithRetry_spec doFetch 5 with ⟨k, s, hk, _, _, _, hat, _⟩ | ⟨_, _, hat, _⟩
    · rw [hat]
      have : (5 : Int).toNat = 5 := rfl
      omega
    · rw [hat]
      rfl
  rcases FetchWithRetry_spec doFetch maxRetries with
    ⟨k, s, hk, hok, hfirst, hres, hat, hsl⟩ | ⟨hall, ⟨e, hres⟩, hat, hsl⟩
  · refine ⟨by omega, hfive, ?_, ?_, ?_⟩
    · intro s'
      constructor
      · intro h
        rw [hres] at h
        cases h
        exact ⟨k, hk, hok, hfirst, hat⟩
      · rintro ⟨k', _, hok', hfirst', _⟩
        have hkk : k' = k := by
          rcases Nat.lt_trichotomy k' k with h | h | h
          · obtain ⟨e, he⟩ := hfirst k' h
            rw [he] at hok'
            cases hok'
          · exact h
          · obtain ⟨e, he⟩ := hfirst' k h
            rw [he] at hok
            cases hok
        subst hkk
        rw [hres, ← hok, hok']
    · constructor
      · rintro ⟨e, he⟩
        rw [hres] at he
        cases he
      · intro h
        obtain ⟨e, he⟩ := h k hk
        rw [he] at hok
        cases hok
    · rw [hsl, hat]
      rfl
  · refine ⟨by omega, hfive, ?_, ?_, ?_⟩
    · intro s
      constructor
      · intro h
        rw [hres] at h
        cases h
      · rintro ⟨k, hk, hok, _, _⟩
        obtain ⟨e', he'⟩ := hall k hk
        rw [he'] at hok
        cases hok
    · exact ⟨fun _ => hall, fun _ => ⟨e, hres⟩⟩
    · rw [hsl, hat]
      rfl

theorem FetchWithRetry_policy_witness :
    (FetchWithRetry thirdTimeLucky 5).attempts = 3 ∧
    (FetchWithRetry thirdTimeLucky 5).sleeps = [100000000, 200000000] ∧
    (FetchWithRetry alwaysDown 8).attempts = 8 ∧
    (FetchWithRetry alwaysDown 8).sleeps =
      [100000000, 200000000, 400000000, 800000000, 1600000000, 3200000000, 5000000000] ∧
    (FetchWithRetry alwaysDown 8).sleeps =
      (List.range ((FetchWithRetry alwaysDown 8).attempts - 1)).map
        (fun k => min (100 * 1000000 * 2 ^ k) (5 * 1000000000)) :=
  ⟨by decide, by decide, by decide, by decide, (FetchWithRetry_policy alwaysDown 8).2.2.2.2⟩

end Parser

namespace Scheduler

/-! ## Start-up of the scheduler -/

/-- C16: scheduler start-up target.  When the store has no last snapshot time the
first fetch target is the clock reading 'now'; otherwise it is last + interval,
replaced by 'now' when that instant is before 'now', so that for one instant
'now' the target is max(last + interval, now); with last = now - 2*interval the
target is 'now' and there is no initial wait.  The target is what the statistics
show as next_snapshot_at. -/
theorem startup_target (E : Compute.SliceSorter) (freq : Int) (env : StartEnv) (st : State) :
    ((Store.GetLastSnapshotTime E st.db.committed env.lastQueryFault).1 = none →
      (startup E freq env st).nextFetch = env.nowNoPrevious ∧
      (env.nowNoPrevious ≤ env.nowUntil → (startup E freq env st).initialDelay ≤ 0)) ∧
    (∀ last, (Store.GetLastSnapshotTime E st.db.committed env.lastQueryFault).1 = some last →
      (env.nowCheck = env.nowClamp →
        (startup E freq env st).nextFetch = max (last + freq) env.nowCheck) ∧
      (last + freq < env.nowCheck →
        (startup E freq env st).nextFetch = env.nowClamp ∧
        (env.nowClamp ≤ env.nowUntil → (startup E freq env st).initialDelay ≤ 0)) ∧
      (0 ≤ freq → last = env.nowCheck - 2 * freq → env.nowClamp = env.nowCheck →
        env.nowCheck ≤ env.nowUntil →
        (startup E freq env st).nextFetch = env.nowCheck ∧
        (startup E freq env st).initialDelay ≤ 0)) ∧
    (startup E freq env st).state.stats.NextSnapshotAt = some (startup E freq env st).nextFetch := by
  refine ⟨?_, ?_, rfl⟩
  · intro hnone
    simp only [startup, hnone]
    exact ⟨trivial, fun h => by linarith⟩
  · intro last hlast
    simp only [startup, hlast]
    refine ⟨?_, ?_, ?_⟩
    · intro heq
      by_cases h : last + freq < env.nowCheck
      · rw [if_pos h, max_eq_right (le_of_lt h), heq]
      · rw [if_neg h, max_eq_left (not_lt.mp h)]
    · intro hlt
      rw [if_pos hlt]
      exact ⟨rfl, fun h => by linarith⟩
    · intro hfreq hl hclamp hle
      by_cases h : last + freq < env.nowCheck
      · rw [if_pos h]
        exact ⟨hclamp, by linarith⟩
      · rw [if_neg h]
        have h1 : last + freq = env.nowCheck := le_antisymm (by linarith) (not_lt.mp h)
        exact ⟨h1, by linarith⟩

theorem startup_target_witness :
    (startup Compute.goSort oneMinute
        { lastQueryFault := none, log := sampleLog, nowNoPrevious := 1000, nowCheck := 1000,
          nowClamp := 1000, nowUntil := 1000 } freshScheduler).nextFetch = 1000 ∧
    (startup Compute.goSort oneMinute
        { lastQueryFault := none, log := sampleLog, nowNoPrevious := 1000, nowCheck := 1000,
          nowClamp := 1000, nowUntil := 1000 } freshScheduler).initialDelay ≤ 0 ∧
    (Store.GetLastSnapshotTime Compute.goSort savedScheduler.db.committed none).1 = some 60 ∧
    (startup Compute.goSort oneMinute
        { lastQueryFault := none, log := sampleLog, nowNoPrevious := 1000, nowCheck := 1000,
          nowClamp := 1000, nowUntil := 1000 } savedScheduler).nextFetch =
      max (60 + oneMinute) 1000 ∧
    (startup Compute.goSort oneMinute
        { lastQueryFault := none, log := sampleLog, nowNoPrevious := 0,
          nowCheck := 90000000000, nowClamp := 90000000001, nowUntil := 90000000002 }
        savedScheduler).nextFetch = 90000000001 ∧
    (startup Compute.goSort oneMinute
        { lastQueryFault := none, log := sampleLog, nowNoPrevious := 0,
          nowCheck := 90000000000, nowClamp := 90000000001, nowUntil := 90000000002 }
        savedScheduler).initialDelay ≤ 0 ∧
    (startup Compute.goSort oneMinute
        { lastQueryFault := none, log := sampleLog, nowNoPrevious := 0,
          nowCheck := 60 + 2 * oneMinute, nowClamp := 60 + 2 * oneMinute,
          nowUntil := 60 + 2 * oneMinute } savedScheduler).nextFetch = 60 + 2 * oneMinute ∧
    (startup Compute.goSort oneMinute
        { lastQueryFault := none, log := sampleLog, nowNoPrevious := 0,
          nowCheck := 60 + 2 * oneMinute, nowClamp := 60 + 2 * oneMinute,
          nowUntil := 60 + 2 * oneMinute } savedScheduler).initialDelay ≤ 0 :=
  have hnone := (startup_target Compute.goSort oneMinute
      { lastQueryFault := none, log := sampleLog, nowNoPrevious := 1000, nowCheck := 1000,
        nowClamp := 1000, nowUntil := 1000 } freshScheduler).1 (by decide)
  have hmax := ((startup_target Compute.goSort oneMinute
      { lastQueryFault := none, log := sampleLog, nowNoPrevious := 1000, nowCheck := 1000,
        nowClamp := 1000, nowUntil := 1000 } savedScheduler).2.1 60 (by decide)).1 rfl
  have hclamp := ((startup_target Compute.goSort oneMinute
      { lastQueryFault := none, log := sampleLog, nowNoPrevious := 0,
        nowCheck := 90000000000, nowClamp := 90000000001, nowUntil := 90000000002 }
      savedScheduler).2.1 60 (by decide)).2.1 (by decide)
  have hcatch := ((startup_target Compute.goSort oneMinute
      { lastQueryFault := none, log := sampleLog, nowNoPrevious := 0,
        nowCheck := 60 + 2 * oneMinute, nowClamp := 60 + 2 * oneMinute,
        nowUntil := 60 + 2 * oneMinute } savedScheduler).2.1 60 (by decide)).2.2
      (by decide) (by decide) rfl (le_refl _)
  ⟨hnone.1, hnone.2 (by decide), by decide, hmax, hclamp.1, hclamp.2 (by decide),
    hcatch.1, hcatch.2⟩

/-! ## The fetch cycle -/

theorem logError_stats (st : State) (env : LogEnv) (errMsg context : String) :
    (logError st env errMsg context).stats = st.stats := by
  unfold logError
  split <;> rfl

theorem fetchSnapshot_success (freq : Int) (env : CycleEnv) (st : State)
    (snapshot : Store.Snapshot) (hfetch : (Parser.Fetch env.doFetch).result = .ok snapshot)
    (hsave : (Store.SaveSnapshot st.db env.saveFaults snapshot).2 = none) :
    (fetchSnapshot freq env st).stats =
      { st.stats with
        NextSnapshotAt := some (env.nowStart + freq)
        SnapshotsTotal := st.stats.SnapshotsTotal + 1
        LastSnapshotAt := some env.nowSaved } := by
  unfold fetchSnapshot
  simp only [hfetch]
  rcases hres : Store.SaveSnapshot st.db env.saveFaults snapshot with ⟨db, _ | err⟩
  · rfl
  · rw [hres] at hsave
    cases hsave

theorem fetchSnapshot_failure (freq : Int) (env : CycleEnv) (st : State)
    (hfail : (∃ e, (Parser.Fetch env.doFetch).result = .error e) ∨
      ∃ snapshot e, (Parser.Fetch env.doFetch).result = .ok snapshot ∧
        (Store.SaveSnapshot st.db env.saveFaults snapshot).2 = some e) :
    (fetchSnapshot freq env st).stats =
      { st.stats with
        NextSnapshotAt := some (env.nowStart + freq)
        SnapshotsErrors := st.stats.SnapshotsErrors + 1 } := by
  unfold fetchSnapshot
  rcases hfail with ⟨e, he⟩ | ⟨snapshot, e, hfetch, hsave⟩
  · simp only [he, logError_stats]
  · simp only [hfetch]
    rcases hres : Store.SaveSnapshot st.db env.saveFaults snapshot with ⟨db, _ | err⟩
    · rw [hres] at hsave
      cases hsave
    · simp only [logError_stats]

/-- C18: a fetch cycle in which both the fetch and the save succeed increments
snapshots_total by exactly 1, sets last_snapshot_at to a non-null time (the
clock reading taken after the save), and leaves snapshots_errors and started_at
unchanged. -/
theorem fetchSnapshot_success_stats (freq : Int) (env : CycleEnv) (st : State)
    (snapshot : Store.Snapshot) (hfetch : (Parser.Fetch env.doFetch).result = .ok snapshot)
    (hsave : (Store.SaveSnapshot st.db env.saveFaults snapshot).2 = none) :
    (fetchSnapshot freq env st).stats.SnapshotsTotal = st.stats.SnapshotsTotal + 1 ∧
    (fetchSnapshot freq env st).stats.LastSnapshotAt = some env.nowSaved ∧
    (fetchSnapshot freq env st).stats.SnapshotsErrors = st.stats.SnapshotsErrors ∧
    (fetchSnapshot freq env st).stats.StartedAt = st.stats.StartedAt := by
  rw [fetchSnapshot_success freq env st snapshot hfetch hsave]
  exact ⟨rfl, rfl, rfl, rfl⟩

theorem fetchSnapshot_success_stats_witness :
    (fetchSnapshot oneMinute slowCycle freshScheduler).stats.SnapshotsTotal = 0 + 1 ∧
    (fetchSnapshot oneMinute slowCycle freshScheduler).stats.LastSnapshotAt
      = some 2000000000 ∧
    (fetchSnapshot oneMinute slowCycle freshScheduler).stats.SnapshotsErrors = 0 ∧
    (fetchSnapshot oneMinute slowCycle freshScheduler).stats.StartedAt = 0 :=
  fetchSnapshot_success_stats oneMinute slowCycle freshScheduler Store.sampleFetched
    rfl (by decide)

/-- C19: a fetch cycle that fails (the fetch exhausts its retries, or the save
returns an error) increments snapshots_errors by exactly 1 and leaves
snapshots_total and last_snapshot_at (and started_at) unchanged. -/
theorem fetchSnapshot_failure_stats (freq : Int) (env : CycleEnv) (st : State)
    (hfail : (∃ e, (Parser.Fetch env.doFetch).result = .error e) ∨
      ∃ snapshot e, (Parser.Fetch env.doFetch).result = .ok snapshot ∧
        (Store.SaveSnapshot st.db env.saveFaults snapshot).2 = some e) :
    (fetchSnapshot freq env st).stats.SnapshotsErrors = st.stats.SnapshotsErrors + 1 ∧
    (fetchSnapshot freq env st).stats.SnapshotsTotal = st.stats.SnapshotsTotal ∧
    (fetchSnapshot freq env st).stats.LastSnapshotAt = st.stats.LastSnapshotAt ∧
    (fetchSnapshot freq env st).stats.StartedAt = st.stats.StartedAt := by
  rw [fetchSnapshot_failure freq env st hfail]
  exact ⟨rfl, rfl, rfl, rfl⟩

theorem fetchSnapshot_failure_stats_witness :
    ((fetchSnapshot oneMinute failedCycle freshScheduler).stats.SnapshotsErrors = 0 + 1 ∧
      (fetchSnapshot oneMinute failedCycle freshScheduler).stats.SnapshotsTotal = 0 ∧
      (fetchSnapshot oneMinute failedCycle freshScheduler).stats.LastSnapshotAt = none ∧
      (fetchSnapshot oneMinute failedCycle freshScheduler).stats.StartedAt = 0) ∧
    ((fetchSnapshot oneMinute unsavedCycle freshScheduler).stats.SnapshotsErrors = 0 + 1 ∧
      (fetchSnapshot oneMinute unsavedCycle freshScheduler).stats.SnapshotsTotal = 0 ∧
      (fetchSnapshot oneMinute unsavedCycle freshScheduler).stats.LastSnapshotAt = none ∧
      (fetchSnapshot oneMinute unsavedCycle freshScheduler).stats.StartedAt = 0) :=
  ⟨fetchSnapshot_failure_stats oneMinute failedCycle freshScheduler
     (Or.inl ⟨_, rfl⟩),
   fetchSnapshot_failure_stats oneMinute unsavedCycle freshScheduler
     (Or.inr ⟨Store.sampleFetched, "disk I/O error", rfl, by decide⟩)⟩

/-- C20 (amended): every fetch cycle, whether it ends in success or in failure, sets
next_snapshot_at to now + interval, where now is the clock reading taken on
entry to the cycle, before the fetch; so no cycle leaves next_snapshot_at null,
and with a positive interval no cycle leaves it unchanged when its previous
value was not in the future. -/
theorem fetchSnapshot_next (freq : Int) (env : CycleEnv) (st : State) :
    (fetchSnapshot freq env st).stats.NextSnapshotAt = some (env.nowStart + freq) ∧
    (0 < freq → ∀ p, st.stats.NextSnapshotAt = some p → p ≤ env.nowStart →
      (fetchSnapshot freq env st).stats.NextSnapshotAt ≠ st.stats.NextSnapshotAt) := by
  have h : (fetchSnapshot freq env st).stats.NextSnapshotAt = some (env.nowStart + freq) := by
    unfold fetchSnapshot
    cases hf : (Parser.Fetch env.doFetch).result with
    | error e => simp only [logError_stats]
    | ok snapshot =>
      simp only
      rcases hres : Store.SaveSnapshot st.db env.saveFaults snapshot with ⟨db, _ | err⟩
      · rfl
      · simp only [logError_stats]
  refine ⟨h, ?_⟩
  intro hfreq p hp hle
  rw [h, hp]
  intro heq
  have := Option.some.inj heq
  linarith

theorem fetchSnapshot_next_witness :
    (fetchSnapshot oneMinute failedCycle
        { freshScheduler with stats := { freshScheduler.stats with NextSnapshotAt := some 0 } }
      ).stats.NextSnapshotAt ≠ some 0 :=
  (fetchSnapshot_next oneMinute failedCycle
    { freshScheduler with stats := { freshScheduler.stats with NextSnapshotAt := some 0 } }).2
    (by decide) 0 rfl (by decide)

/-- C20 fails as stated: a cycle entered at instant 0 whose fetch succeeds at the
third attempt and whose save is done two seconds later (the time the code itself
records as last_snapshot_at) sets next_snapshot_at to 0 + one minute, not to the
time of the outcome + one minute. -/
theorem fetchSnapshot_next_not_outcome :
    (fetchSnapshot oneMinute slowCycle freshScheduler).stats.LastSnapshotAt
      = some 2000000000 ∧
    (fetchSnapshot oneMinute slowCycle freshScheduler).stats.NextSnapshotAt
      = some 60000000000 ∧
    (fetchSnapshot oneMinute slowCycle freshScheduler).stats.NextSnapshotAt
      ≠ some (2000000000 + oneMinute) := by
  decide

end Scheduler

namespace Compute

/-! ## The result as a head of the full ranking -/

theorem storyMapOf_keys_nodup (S : SliceSorter) (snaps : List Snapshot) :
    ((storyMapOf S snaps).map (fun sd => sd.storyID)).Nodup :=
  aggregate_keys_nodup _

theorem storyMapOf_mem_keys (S : SliceSorter) (hS : S.Lawful) (snaps : List Snapshot)
    (id : String) :
    id ∈ (storyMapOf S snaps).map (fun sd => sd.storyID) ↔
      id ∈ (allStories snaps).map (fun st => st.StoryID) := by
  have h := aggregate_mem_keys (S.sortSlice lessFetchedAt snaps) id
  unfold mapKeys at h
  rw [storyMapOf, h]
  exact ((allStories_perm (hS.1 _ lessFetchedAt snaps)).map _).mem_iff

theorem ranked_ids_perm (S : SliceSorter) (R : MapRange) (hS : S.Lawful) (hR : R.Lawful)
    (snaps : List Snapshot) (c : String) :
    (((sortedStories S R snaps c).map (fun e => toRankedStory e.1)).map
        (fun r => r.StoryID)).Perm
      ((storyMapOf S snaps).map (fun sd => sd.storyID)) := by
  have h := (sortedStories_map_fst_perm S R hS hR snaps c).map (fun r => r.StoryID)
  rw [List.map_map (l := storyMapOf S snaps)] at h
  exact h

/-- C28: for every snapshot list, valid criteria and limit >= 0, the output of
ComputeTopStories is the first min(limit, count) entries of the full ranking
(the output for limit = number of distinct stories), which is descending by
metric and holds every story_id of the input exactly once; so every returned
story_id occurs in the input, no story_id is returned twice, and every story
left out has a metric less than or equal to the metric of every returned
story. -/
theorem ComputeTopStories_head_of_ranking (S : SliceSorter) (R : MapRange) (hS : S.Lawful)
    (hR : R.Lawful) (snapshots : List Snapshot) (criteria : String) (limit : Int)
    (hc : IsValidCriteria criteria = true) (hl : 0 ≤ limit) :
    ∃ result full,
      ComputeTopStories S R snapshots criteria limit = .ok result ∧
      ComputeTopStories S R snapshots criteria (distinctStoryCount snapshots) = .ok full ∧
      result = full.take limit.toNat ∧
      full.Pairwise (fun a b => rankedMetric criteria b ≤ rankedMetric criteria a) ∧
      (full.map (fun r => r.StoryID)).Nodup ∧
      (∀ id, id ∈ full.map (fun r => r.StoryID) ↔
        id ∈ (allStories snapshots).map (fun st => st.StoryID)) ∧
      (∀ r ∈ result, r.StoryID ∈ (allStories snapshots).map (fun st => st.StoryID)) ∧
      (result.map (fun r => r.StoryID)).Nodup ∧
      (∀ x ∈ full, x.StoryID ∉ result.map (fun r => r.StoryID) →
        ∀ r ∈ result, rankedMetric criteria x ≤ rankedMetric criteria r) := by
  have hfull : ComputeTopStories S R snapshots criteria (distinctStoryCount snapshots) =
      .ok ((sortedStories S R snapshots criteria).map (fun e => toRankedStory e.1)) := by
    rw [ComputeTopStories_ok S R snapshots criteria _ hc (by omega),
      List.take_of_length_le (by rw [sortedStories_length S R hS hR]; omega)]
  have hsorted : ((sortedStories S R snapshots criteria).map
      (fun e => toRankedStory e.1)).Pairwise
      (fun a b => rankedMetric criteria b ≤ rankedMetric criteria a) := by
    rw [List.pairwise_map]
    refine (sortedStories_pairwise S R hS snapshots criteria).imp_of_mem ?_
    intro a b ha hb hab
    rw [rankedMetric_toRankedStory, rankedMetric_toRankedStory,
      ← sortedStories_metric S R hS snapshots criteria a ha,
      ← sortedStories_metric S R hS snapshots criteria b hb]
    exact hab
  have hperm := ranked_ids_perm S R hS hR snapshots criteria
  have hnodup := hperm.nodup_iff.mpr (storyMapOf_keys_nodup S snapshots)
  have hmem : ∀ id, id ∈ ((sortedStories S R snapshots criteria).map
      (fun e => toRankedStory e.1)).map (fun r => r.StoryID) ↔
      id ∈ (allStories snapshots).map (fun st => st.StoryID) := by
    intro id
    rw [hperm.mem_iff, storyMapOf_mem_keys S hS]
  have hres : ComputeTopStories S R snapshots criteria limit =
      .ok (((sortedStories S R snapshots criteria).map
        (fun e => toRankedStory e.1)).take limit.toNat) := by
    rw [ComputeTopStories_ok S R snapshots criteria limit hc hl, List.map_take]
  generalize (sortedStories S R snapshots criteria).map (fun e => toRankedStory e.1) = full
    at hfull hsorted hperm hnodup hmem hres
  refine ⟨full.take limit.toNat, full, hres, hfull, rfl, hsorted, hnodup, hmem, ?_, ?_, ?_⟩
  · intro r hr
    exact (hmem _).mp (List.mem_map_of_mem _ (List.mem_of_mem_take hr))
  · rw [List.map_take]
    exact hnodup.sublist (List.take_sublist _ _)
  · intro x hx hout r hr
    have hsplit := List.take_append_drop limit.toNat full
    have hxd : x ∈ full.drop limit.toNat := by
      rw [← hsplit] at hx
      rcases List.mem_append.mp hx with h | h
      · exact absurd (List.mem_map_of_mem _ h) hout
      · exact h
    rw [← hsplit, List.pairwise_append] at hsorted
    exact hsorted.2.2 r hr x hxd

theorem ComputeTopStories_head_of_ranking_witness :
    ∃ result full,
      ComputeTopStories goSort reverseOrder sampleWindow "max_points" 1 = .ok result ∧
      ComputeTopStories goSort reverseOrder sampleWindow "max_points"
        (distinctStoryCount sampleWindow) = .ok full ∧
      result = full.take (1 : Int).toNat ∧
      full.Pairwise (fun a b => rankedMetric "max_points" b ≤ rankedMetric "max_points" a) ∧
      (full.map (fun r => r.StoryID)).Nodup ∧
      (∀ id, id ∈ full.map (fun r => r.StoryID) ↔
        id ∈ (allStories sampleWindow).map (fun st => st.StoryID)) ∧
      (∀ r ∈ result, r.StoryID ∈ (allStories sampleWindow).map (fun st => st.StoryID)) ∧
      (result.map (fun r => r.StoryID)).Nodup ∧
      (∀ x ∈ full, x.StoryID ∉ result.map (fun r => r.StoryID) →
        ∀ r ∈ result, rankedMetric "max_points" x ≤ rankedMetric "max_points" r) :=
  ComputeTopStories_head_of_ranking goSort reverseOrder goSort_lawful reverseOrder_lawful
    sampleWindow "max_points" 1 (by decide) (by decide)

end Compute

namespace Scheduler

/-! ## States reachable by fetch cycles -/

/-- A fetch cycle ends in one of two ways. -/
theorem fetchSnapshot_cases (freq : Int) (env : CycleEnv) (st : State) :
    (fetchSnapshot freq env st).stats =
        { st.stats with
          NextSnapshotAt := some (env.nowStart + freq)
          SnapshotsTotal := st.stats.SnapshotsTotal + 1
          LastSnapshotAt := some env.nowSaved } ∨
    (fetchSnapshot freq env st).stats =
        { st.stats with
          NextSnapshotAt := some (env.nowStart + freq)
          SnapshotsErrors := st.stats.SnapshotsErrors + 1 } := by
  cases hf : (Parser.Fetch env.doFetch).result with
  | error e => exact Or.inr (fetchSnapshot_failure freq env st (Or.inl ⟨e, hf⟩))
  | ok snapshot =>
    cases hs : (Store.SaveSnapshot st.db env.saveFaults snapshot).2 with
    | none => exact Or.inl (fetchSnapshot_success freq env st snapshot hf hs)
    | some e => exact Or.inr (fetchSnapshot_failure freq env st (Or.inr ⟨snapshot, e, hf, hs⟩))

theorem runCycles_invariant (freq : Int) (envs : List CycleEnv) (st : State) (n : Int)
    (h : 0 ≤ st.stats.SnapshotsTotal ∧
      (st.stats.LastSnapshotAt = none ↔ st.stats.SnapshotsTotal = 0) ∧
      st.stats.SnapshotsTotal + st.stats.SnapshotsErrors = n) :
    0 ≤ (runCycles freq envs st).stats.SnapshotsTotal ∧
      ((runCycles freq envs st).stats.LastSnapshotAt = none ↔
        (runCycles freq envs st).stats.SnapshotsTotal = 0) ∧
      (runCycles freq envs st).stats.SnapshotsTotal +
        (runCycles freq envs st).stats.SnapshotsErrors = n + envs.length := by
  induction envs generalizing st n with
  | nil => simpa [runCycles] using h
  | cons env rest ih =>
    have hstep : 0 ≤ (fetchSnapshot freq env st).stats.SnapshotsTotal ∧
        ((fetchSnapshot freq env st).stats.LastSnapshotAt = none ↔
          (fetchSnapshot freq env st).stats.SnapshotsTotal = 0) ∧
        (fetchSnapshot freq env st).stats.SnapshotsTotal +
          (fetchSnapshot freq env st).stats.SnapshotsErrors = n + 1 := by
      obtain ⟨h0, hiff, hsum⟩ := h
      rcases fetchSnapshot_cases freq env st with hc | hc
      · rw [hc]
        refine ⟨by simp only; omega, ?_, by simp only; omega⟩
        simp only [reduceCtorEq, false_iff]
        omega
      · rw [hc]
        exact ⟨h0, hiff, by simp only; omega⟩
    have := ih (fetchSnapshot freq env st) (n + 1) hstep
    simp only [List.length_cons, Nat.cast_add, Nat.cast_one] at this ⊢
    rw [show n + (↑rest.length + 1) = n + 1 + ↑rest.length by ring]
    exact this

/-- C29: in every state reachable from a newly constructed scheduler by any
sequence of fetch cycles, last_snapshot_at is null if and only if
snapshots_total is 0, and snapshots_total + snapshots_errors equals the number
of fetch cycles completed; each cycle increments exactly one of the two
counters, by exactly 1. -/
theorem reachable_stats (freq now : Int) (db : Store.Conn) (errorLog : List ErrorEntry)
    (envs : List CycleEnv) :
    ((runCycles freq envs (New now db errorLog)).stats.LastSnapshotAt = none ↔
      (runCycles freq envs (New now db errorLog)).stats.SnapshotsTotal = 0) ∧
    (runCycles freq envs (New now db errorLog)).stats.SnapshotsTotal +
      (runCycles freq envs (New now db errorLog)).stats.SnapshotsErrors = envs.length ∧
    (∀ env st,
      ((fetchSnapshot freq env st).stats.SnapshotsTotal = st.stats.SnapshotsTotal + 1 ∧
        (fetchSnapshot freq env st).stats.SnapshotsErrors = st.stats.SnapshotsErrors) ∨
      ((fetchSnapshot freq env st).stats.SnapshotsTotal = st.stats.SnapshotsTotal ∧
        (fetchSnapshot freq env st).stats.SnapshotsErrors = st.stats.SnapshotsErrors + 1)) := by
  have h := runCycles_invariant freq envs (New now db errorLog) 0
    ⟨le_refl _, ⟨fun _ => rfl, fun _ => rfl⟩, rfl⟩
  refine ⟨h.2.1, by simpa using h.2.2, ?_⟩
  intro env st
  rcases fetchSnapshot_cases freq env st with hc | hc
  · exact Or.inl (by rw [hc]; exact ⟨rfl, rfl⟩)
  · exact Or.inr (by rw [hc]; exact ⟨rfl, rfl⟩)

end Scheduler

/-! # Text to integer -/

namespace Strconv

theorem le_foldl_digits (ds : List Char) (n : Nat) :
    n ≤ ds.foldl (fun n c => n * 10 + (c.toNat - 48)) n := by
  induction ds generalizing n with
  | nil => exact le_refl _
  | cons c cs ih =>
    rw [List.foldl_cons]
    exact le_trans (by omega) (ih _)

theorem isDecimal_iff (c : Char) : isDecimal c = true ↔ 48 ≤ c.toNat ∧ c.toNat ≤ 57 := by
  simp [isDecimal]

/-- The loop of `ParseUint` returns the number the digits write when the text is
all digits and the number fits 64 bits, and an error in every other case. -/
theorem parseUintLoop_spec (ds : List Char) (n : Nat) (hn : n ≤ maxUint64) :
    if ds.all isDecimal = true ∧ ds.foldl (fun n c => n * 10 + (c.toNat - 48)) n ≤ maxUint64 then
      parseUintLoop ds n = (ds.foldl (fun n c => n * 10 + (c.toNat - 48)) n, none)
    else
      parseUintLoop ds n = (0, some .ErrSyntax) ∨
        parseUintLoop ds n = (maxUint64, some .ErrRange) := by
  induction ds generalizing n with
  | nil =>
    rw [if_pos ⟨rfl, hn⟩]
    rfl
  | cons c cs ih =>
    have hmax : maxUint64 = 18446744073709551615 := by decide
    by_cases hc : isDecimal c = true
    · have hd := (isDecimal_iff c).mp hc
      have hge := le_foldl_digits cs (n * 10 + (c.toNat - 48))
      simp only [List.all_cons, hc, Bool.true_and, List.foldl_cons]
      by_cases h1 : n ≥ maxUint64 / 10 + 1
      · have hstep : parseUintLoop (c :: cs) n = (maxUint64, some .ErrRange) := by
          rw [parseUintLoop, if_pos hc]
          exact if_pos h1
        rw [hstep, if_neg]
        · exact Or.inr rfl
        · rintro ⟨-, hle⟩
          rw [hmax] at h1 hle
          omega
      · have h1' := h1
        rw [hmax] at h1' hn
        have e10 : n * 10 % 2 ^ 64 = n * 10 := Nat.mod_eq_of_lt (by omega)
        by_cases h2 : n * 10 + (c.toNat - 48) < 2 ^ 64
        · have e1 : (n * 10 + (c.toNat - 48)) % 2 ^ 64 = n * 10 + (c.toNat - 48) :=
            Nat.mod_eq_of_lt h2
          have hstep : parseUintLoop (c :: cs) n =
              parseUintLoop cs (n * 10 + (c.toNat - 48)) := by
            rw [parseUintLoop, if_pos hc]
            simp only [e10, e1]
            rw [if_neg h1, if_neg (by rw [hmax]; omega)]
          rw [hstep]
          exact ih _ (by rw [hmax]; omega)
        · have hstep : parseUintLoop (c :: cs) n = (maxUint64, some .ErrRange) := by
            rw [parseUintLoop, if_pos hc]
            simp only [e10]
            rw [if_neg h1, if_pos (Or.inl (by omega))]
          rw [hstep, if_neg]
          · exact Or.inr rfl
          · rintro ⟨-, hle⟩
            rw [hmax] at hle
            omega
    · have hstep : parseUintLoop (c :: cs) n = (0, some .ErrSyntax) := by
        rw [parseUintLoop, if_neg hc]
      rw [hstep, if_neg]
      · exact Or.inl rfl
      · rintro ⟨hall, -⟩
        simp only [List.all_cons, Bool.and_eq_true] at hall
        exact hc hall.1

theorem ParseUint_spec (ds : List Char) :
    if ds ≠ [] ∧ ds.all isDecimal = true ∧ decimalValue ds ≤ maxUint64 then
      ParseUint ds = (decimalValue ds, none)
    else
      ParseUint ds = (0, some .ErrSyntax) ∨ ParseUint ds = (maxUint64, some .ErrRange) := by
  unfold ParseUint
  by_cases he : ds = []
  · rw [if_pos he, if_neg (fun h => h.1 he)]
    exact Or.inl rfl
  · rw [if_neg he]
    have h := parseUintLoop_spec ds 0 (Nat.zero_le _)
    by_cases hg : ds.all isDecimal = true ∧
        ds.foldl (fun n c => n * 10 + (c.toNat - 48)) 0 ≤ maxUint64
    · rw [if_pos hg] at h
      rw [if_pos ⟨he, hg⟩]
      exact h
    · rw [if_neg hg] at h
      rw [if_neg (fun h' => hg h'.2)]
      exact h

theorem int64Wrap_of_bounds (x : Int) (h1 : -(2 : Int) ^ 63 ≤ x) (h2 : x < 2 ^ 63) :
    Compute.int64Wrap x = x := by
  unfold Compute.int64Wrap
  norm_num at h1 h2 ⊢
  omega

theorem signAndDigits_cons (c : Char) (rest : List Char) :
    signAndDigits (c :: rest) =
      (decide (c = '-'), if c = '+' ∨ c = '-' then rest else c :: rest) := by
  unfold signAndDigits
  by_cases h1 : c = '-'
  · subst h1
    rfl
  · by_cases h2 : c = '+'
    · subst h2
      rfl
    · simp [h1, h2]

/-- The refinement of `ParseInt` to the number a text denotes: the call succeeds
exactly on the texts that denote a 64-bit integer, and then returns it. -/
theorem ParseInt_spec (s : String) :
    (∀ v, int64Of s = some v → ParseInt s = (v, none)) ∧
    (int64Of s = none → ∃ e, (ParseInt s).2 = some e) := by
  unfold ParseInt int64Of
  cases hs : s.data with
  | nil =>
    refine ⟨fun v h => ?_, fun _ => ⟨_, rfl⟩⟩
    simp [signAndDigits] at h
  | cons c rest =>
    rw [signAndDigits_cons]
    simp only []
    generalize (if c = '+' ∨ c = '-' then rest else c :: rest) = ds
    generalize decide (c = '-') = neg
    have hU := ParseUint_spec ds
    have hmax : maxUint64 = 18446744073709551615 := by decide
    by_cases hg : ds ≠ [] ∧ ds.all isDecimal = true ∧ decimalValue ds ≤ maxUint64
    · rw [if_pos hg] at hU
      rw [hU, if_pos ⟨hg.1, hg.2.1⟩]
      simp only []
      generalize decimalValue ds = un
      cases neg
      · simp only [Bool.not_false, Bool.true_and, Bool.false_and, Bool.false_eq_true, if_false,
          decide_eq_true_eq]
        by_cases h : un ≥ 2 ^ 63
        · rw [if_pos h, if_neg (by norm_num at h ⊢; omega)]
          exact ⟨fun v hv => (by cases hv), fun _ => ⟨_, rfl⟩⟩
        · rw [if_neg h, if_pos (by norm_num at h ⊢; omega)]
          refine ⟨fun v hv => ?_, fun hv => by cases hv⟩
          cases hv
          rw [int64Wrap_of_bounds _ (by norm_num; omega) (by norm_num at h ⊢; omega)]
      · simp only [Bool.not_true, Bool.false_and, Bool.true_and, Bool.false_eq_true, if_false,
          if_true, decide_eq_true_eq]
        by_cases h : un > 2 ^ 63
        · rw [if_pos h, if_neg (by norm_num at h ⊢; omega)]
          exact ⟨fun v hv => (by cases hv), fun _ => ⟨_, rfl⟩⟩
        · rw [if_neg h, if_pos (by norm_num at h ⊢; omega)]
          refine ⟨fun v hv => ?_, fun hv => by cases hv⟩
          cases hv
          have : Compute.negInt64 (Compute.int64Wrap (un : Int)) = -(un : Int) := by
            unfold Compute.negInt64 Compute.int64Wrap
            norm_num at h ⊢
            omega
          rw [this]
    · rw [if_neg hg] at hU
      have hnone : (if ds ≠ [] ∧ ds.all isDecimal = true then
          (if -(2 : Int) ^ 63 ≤ (if neg = true then -(decimalValue ds : Int) else (decimalValue ds : Int)) ∧
              (if neg = true then -(decimalValue ds : Int) else (decimalValue ds : Int)) ≤ 2 ^ 63 - 1 then
            some (if neg = true then -(decimalValue ds : Int) else (decimalValue ds : Int)) else none)
          else none) = none := by
        by_cases hd : ds ≠ [] ∧ ds.all isDecimal = true
        · rw [if_pos hd]
          have hbig : ¬ decimalValue ds ≤ maxUint64 := fun h => hg ⟨hd.1, hd.2, h⟩
          rw [hmax] at hbig
          rw [if_neg]
          cases neg
          · simp only [Bool.false_eq_true, if_false]
            norm_num
            omega
          · simp only [if_true]
            norm_num
            omega
        · rw [if_neg hd]
      rw [hnone]
      refine ⟨fun v hv => (by cases hv), fun _ => ?_⟩
      rcases hU with hU | hU
      · rw [hU]
        exact ⟨_, rfl⟩
      · rw [hU, hmax]
        cases neg
        · exact ⟨_, rfl⟩
        · exact ⟨_, rfl⟩

theorem ParseInt_ok_iff (s : String) (v : Int) :
    ParseInt s = (v, none) ↔ int64Of s = some v := by
  constructor
  · intro h
    cases hi : int64Of s with
    | none =>
      obtain ⟨e, he⟩ := (ParseInt_spec s).2 hi
      rw [h] at he
      cases he
    | some w =>
      have := (ParseInt_spec s).1 w hi
      rw [h] at this
      cases this
      rfl
  · exact (ParseInt_spec s).1 v

theorem ParseInt_err_iff (s : String) :
    (∃ e, (ParseInt s).2 = some e) ↔ int64Of s = none := by
  constructor
  · rintro ⟨e, he⟩
    cases hi : int64Of s with
    | none => rfl
    | some w =>
      rw [(ParseInt_spec s).1 w hi] at he
      cases he
  · exact (ParseInt_spec s).2

end Strconv

/-! # The HTTP interface of the snapshot store -/

namespace Api

theorem Get_eq_lookup (r : Request) (key : String) :
    r.Get key = (r.Query.lookup key).getD "" := by
  unfold Request.Get
  induction r.Query with
  | nil => rfl
  | cons p rest ih =>
    obtain ⟨k, v⟩ := p
    by_cases h : k = key
    · subst h
      simp [List.find?, List.lookup]
    · have h1 : (k == key) = false := by simpa using h
      have h2 : (key == k) = false := by simpa using fun e : key = k => h e.symm
      simp only [List.find?, List.lookup, h1, h2]
      exact ih

theorem missingOrEmpty_iff (r : Request) (key : String) :
    r.missingOrEmpty key ↔ r.Get key = "" := by
  rw [Get_eq_lookup]
  unfold Request.missingOrEmpty
  cases h : r.Query.lookup key with
  | none => simp
  | some v => simp

/-- The method `parseTimeRange` in terms of the integers the two texts denote. -/
theorem parseTimeRange_spec (r : Request) :
    parseTimeRange r =
      if r.Get "from" = "" then .error { param := "from", message := "required" }
      else if r.Get "to" = "" then .error { param := "to", message := "required" }
      else
        match Strconv.int64Of (r.Get "from"), Strconv.int64Of (r.Get "to") with
        | none, _ => .error { param := "from", message := "must be a valid Unix timestamp" }
        | some _, none => .error { param := "to", message := "must be a valid Unix timestamp" }
        | some a, some b =>
          if a > b then
            .error { param := "from/to", message := "from must be less than or equal to to" }
          else .ok (timeUnix a, timeUnix b) := by
  unfold parseTimeRange
  simp only []
  by_cases h1 : r.Get "from" = ""
  · rw [if_pos h1, if_pos h1]
  rw [if_neg h1, if_neg h1]
  by_cases h2 : r.Get "to" = ""
  · rw [if_pos h2, if_pos h2]
  rw [if_neg h2, if_neg h2]
  cases ha : Strconv.int64Of (r.Get "from") with
  | none =>
    obtain ⟨e, he⟩ := (Strconv.ParseInt_spec _).2 ha
    rcases hp : Strconv.ParseInt (r.Get "from") with ⟨v, e'⟩
    rw [hp] at he
    cases he
    rfl
  | some a =>
    rw [(Strconv.ParseInt_spec _).1 a ha]
    cases hb : Strconv.int64Of (r.Get "to") with
    | none =>
      obtain ⟨e, he⟩ := (Strconv.ParseInt_spec _).2 hb
      rcases hp : Strconv.ParseInt (r.Get "to") with ⟨v, e'⟩
      rw [hp] at he
      cases he
      rfl
    | some b =>
      rw [(Strconv.ParseInt_spec _).1 b hb]

theorem int64Of_empty : Strconv.int64Of "" = none := by decide

theorem parseTimeRange_error_iff (r : Request) :
    (∃ e, parseTimeRange r = .error e) ↔ r.badTimeRange := by
  rw [parseTimeRange_spec]
  unfold Request.badTimeRange Request.isInt64
  rw [missingOrEmpty_iff, missingOrEmpty_iff]
  by_cases h1 : r.Get "from" = ""
  · rw [if_pos h1]
    exact ⟨fun _ => Or.inl h1, fun _ => ⟨_, rfl⟩⟩
  rw [if_neg h1]
  by_cases h2 : r.Get "to" = ""
  · rw [if_pos h2]
    exact ⟨fun _ => Or.inr (Or.inl h2), fun _ => ⟨_, rfl⟩⟩
  rw [if_neg h2]
  cases ha : Strconv.int64Of (r.Get "from") with
  | none =>
    refine ⟨fun _ => Or.inr (Or.inr (Or.inl ?_)), fun _ => ⟨_, rfl⟩⟩
    rintro ⟨v, hv⟩
    cases hv
  | some a =>
    cases hb : Strconv.int64Of (r.Get "to") with
    | none =>
      refine ⟨fun _ => Or.inr (Or.inr (Or.inr (Or.inl ?_))), fun _ => ⟨_, rfl⟩⟩
      rintro ⟨v, hv⟩
      cases hv
    | some b =>
      simp only []
      by_cases hab : a > b
      · rw [if_pos hab]
        exact ⟨fun _ => Or.inr (Or.inr (Or.inr (Or.inr ⟨a, b, rfl, rfl, hab⟩))),
          fun _ => ⟨_, rfl⟩⟩
      · rw [if_neg hab]
        constructor
        · rintro ⟨e, he⟩
          cases he
        · rintro (h | h | h | h | ⟨a', b', ha', hb', hgt⟩)
          · exact (h1 h).elim
          · exact (h2 h).elim
          · exact (h ⟨a, rfl⟩).elim
          · exact (h ⟨b, rfl⟩).elim
          · cases ha'
            cases hb'
            exact (hab hgt).elim

theorem parseTimeRange_ok (r : Request) (a b : Int)
    (ha : Strconv.int64Of (r.Get "from") = some a) (hb : Strconv.int64Of (r.Get "to") = some b)
    (hab : a ≤ b) : parseTimeRange r = .ok (timeUnix a, timeUnix b) := by
  rw [parseTimeRange_spec]
  have h1 : r.Get "from" ≠ "" := fun h => by rw [h, int64Of_empty] at ha; cases ha
  have h2 : r.Get "to" ≠ "" := fun h => by rw [h, int64Of_empty] at hb; cases hb
  rw [if_neg h1, if_neg h2, ha, hb]
  simp only []
  rw [if_neg (not_lt.mpr hab)]

theorem handleSnapshots_400 (E : Compute.SliceSorter) (Local : Int → Int) (db : Store.Tables)
    (f : Store.QueryFaults) (fs : Int → Store.QueryFaults) (r : Request)
    (hget : r.Method = "GET") :
    (handleSnapshots E Local db f fs r).status = 400 ↔ ∃ e, parseTimeRange r = .error e := by
  unfold handleSnapshots
  rw [if_neg (not_not.mpr hget)]
  cases hp : parseTimeRange r with
  | error e => exact ⟨fun _ => ⟨e, rfl⟩, fun _ => rfl⟩
  | ok p =>
    obtain ⟨x, y⟩ := p
    simp only []
    rcases hq : Store.GetSnapshotsInRange E db f fs (localTime Local x) (localTime Local y)
      with ⟨l, _ | err⟩
    · exact ⟨fun h => (by cases h), fun ⟨e, he⟩ => (by cases he)⟩
    · exact ⟨fun h => (by cases h), fun ⟨e, he⟩ => (by cases he)⟩

theorem handleStories_400 (E : Compute.SliceSorter) (Local : Int → Int) (db : Store.Tables)
    (f : Store.QueryFaults) (r : Request) (hget : r.Method = "GET") :
    (handleStories E Local db f r).status = 400 ↔ ∃ e, parseTimeRange r = .error e := by
  unfold handleStories
  rw [if_neg (not_not.mpr hget)]
  cases hp : parseTimeRange r with
  | error e => exact ⟨fun _ => ⟨e, rfl⟩, fun _ => rfl⟩
  | ok p =>
    obtain ⟨x, y⟩ := p
    simp only []
    rcases hq : Store.GetStoryIDsInRange E db f (localTime Local x) (localTime Local y)
      with ⟨l, _ | err⟩
    · exact ⟨fun h => (by cases h), fun ⟨e, he⟩ => (by cases he)⟩
    · exact ⟨fun h => (by cases h), fun ⟨e, he⟩ => (by cases he)⟩

/-- The answer of `handleStory` to a `GET` request with a story id whose time
range is accepted. -/
theorem handleStory_ok (E : Compute.SliceSorter) (Local : Int → Int) (db : Store.Tables)
    (f : Store.QueryFaults) (r : Request) (hget : r.Method = "GET")
    (hid : trimLeading r.Path "/story/" ≠ "") (x y : Int)
    (hp : parseTimeRange r = .ok (x, y)) :
    handleStory E Local db f r =
      match Store.GetStoryInRange E db f (trimLeading r.Path "/story/") (localTime Local x)
          (localTime Local y) with
      | (_, some err) => writeError 500 ("database error: " ++ err)
      | (occurrences, none) =>
        if occurrences = [] then writeError 404 "story not found in the specified time range"
        else
          { status := 200,
            body := .StoryResponse (trimLeading r.Path "/story/")
              (occurrences.map occurrenceDTO) } := by
  unfold handleStory
  rw [if_neg (not_not.mpr hget)]
  simp only []
  rw [if_neg hid, hp]
  simp only [List.length_eq_zero]

theorem handleStory_400 (E : Compute.SliceSorter) (Local : Int → Int) (db : Store.Tables)
    (f : Store.QueryFaults) (r : Request) (hget : r.Method = "GET")
    (hid : trimLeading r.Path "/story/" ≠ "") :
    (handleStory E Local db f r).status = 400 ↔ ∃ e, parseTimeRange r = .error e := by
  cases hp : parseTimeRange r with
  | error e =>
    unfold handleStory
    rw [if_neg (not_not.mpr hget)]
    simp only []
    rw [if_neg hid, hp]
    exact ⟨fun _ => ⟨e, rfl⟩, fun _ => rfl⟩
  | ok p =>
    obtain ⟨x, y⟩ := p
    rw [handleStory_ok E Local db f r hget hid x y hp]
    rcases hq : Store.GetStoryInRange E db f (trimLeading r.Path "/story/")
      (localTime Local x) (localTime Local y) with ⟨l, _ | err⟩
    · simp only []
      by_cases hl : l = []
      · rw [if_pos hl]
        exact ⟨fun h => (by cases h), fun ⟨e, he⟩ => (by cases he)⟩
      · rw [if_neg hl]
        exact ⟨fun h => (by cases h), fun ⟨e, he⟩ => (by cases he)⟩
    · exact ⟨fun h => (by cases h), fun ⟨e, he⟩ => (by cases he)⟩

/-- C21: parseTimeRange fails, and for a GET request the /snapshots, /stories and
(given a story id) /story/{id} handlers answer 400, if and only if from is
missing or empty, to is missing or empty, either is not a base-10 64-bit
integer, or from > to; otherwise it returns the two instants time.Unix(from, 0)
and time.Unix(to, 0), and from = to is accepted. -/
theorem parseTimeRange_exact (E : Compute.SliceSorter) (Local : Int → Int) (db : Store.Tables)
    (f : Store.QueryFaults) (fs : Int → Store.QueryFaults) (r : Request) :
    ((∃ e, parseTimeRange r = .error e) ↔ r.badTimeRange) ∧
    (¬ r.badTimeRange →
      ∃ a b, Strconv.int64Of (r.Get "from") = some a ∧
        Strconv.int64Of (r.Get "to") = some b ∧ a ≤ b ∧
        parseTimeRange r = .ok (timeUnix a, timeUnix b)) ∧
    (∀ a, Strconv.int64Of (r.Get "from") = some a → Strconv.int64Of (r.Get "to") = some a →
      parseTimeRange r = .ok (timeUnix a, timeUnix a)) ∧
    (r.Method = "GET" →
      ((handleSnapshots E Local db f fs r).status = 400 ↔ r.badTimeRange) ∧
      ((handleStories E Local db f r).status = 400 ↔ r.badTimeRange) ∧
      (trimLeading r.Path "/story/" ≠ "" →
        ((handleStory E Local db f r).status = 400 ↔ r.badTimeRange))) := by
  refine ⟨parseTimeRange_error_iff r, fun hgood => ?_,
    fun a ha hb => parseTimeRange_ok r a a ha hb (le_refl a), fun hget => ⟨?_, ?_, fun hid => ?_⟩⟩
  · have hfrom : r.isInt64 "from" := by
      by_contra h
      exact hgood (Or.inr (Or.inr (Or.inl h)))
    have hto : r.isInt64 "to" := by
      by_contra h
      exact hgood (Or.inr (Or.inr (Or.inr (Or.inl h))))
    obtain ⟨a, ha⟩ := hfrom
    obtain ⟨b, hb⟩ := hto
    have hab : a ≤ b := by
      by_contra h
      exact hgood (Or.inr (Or.inr (Or.inr (Or.inr ⟨a, b, ha, hb, not_le.mp h⟩))))
    exact ⟨a, b, ha, hb, hab, parseTimeRange_ok r a b ha hb hab⟩
  · rw [handleSnapshots_400 E Local db f fs r hget, parseTimeRange_error_iff]
  · rw [handleStories_400 E Local db f r hget, parseTimeRange_error_iff]
  · rw [handleStory_400 E Local db f r hget hid, parseTimeRange_error_iff]

theorem parseTimeRange_exact_witness :
    ¬ (get "/story/storyA" [("from", "5"), ("to", "5")]).badTimeRange ∧
    parseTimeRange (get "/story/storyA" [("from", "5"), ("to", "5")]) =
      .ok (5000000000, 5000000000) ∧
    (handleStory Compute.goSort utc sampleDB Store.noQueryFaults
      (get "/story/storyA" [("from", "5"), ("to", "5")])).status ≠ 400 ∧
    (get "/story/storyA" [("from", "7"), ("to", "5")]).badTimeRange ∧
    (handleStory Compute.goSort utc sampleDB Store.noQueryFaults
      (get "/story/storyA" [("from", "7"), ("to", "5")])).status = 400 :=
  have hgood : ¬ (get "/story/storyA" [("from", "5"), ("to", "5")]).badTimeRange :=
    fun h => by
      have h1 := (parseTimeRange_exact Compute.goSort utc sampleDB Store.noQueryFaults
        (fun _ => Store.noQueryFaults)
        (get "/story/storyA" [("from", "5"), ("to", "5")])).1.mpr h
      obtain ⟨e, he⟩ := h1
      cases he
  have hbad : (get "/story/storyA" [("from", "7"), ("to", "5")]).badTimeRange :=
    Or.inr (Or.inr (Or.inr (Or.inr ⟨7, 5, by decide, by decide, by decide⟩)))
  ⟨hgood,
   (parseTimeRange_exact Compute.goSort utc sampleDB Store.noQueryFaults
      (fun _ => Store.noQueryFaults)
      (get "/story/storyA" [("from", "5"), ("to", "5")])).2.2.1 5 (by decide) (by decide),
   fun h => hgood ((((parseTimeRange_exact Compute.goSort utc sampleDB Store.noQueryFaults
      (fun _ => Store.noQueryFaults)
      (get "/story/storyA" [("from", "5"), ("to", "5")])).2.2.2 rfl).2.2 (by decide)).mp h),
   hbad,
   (((parseTimeRange_exact Compute.goSort utc sampleDB Store.noQueryFaults
      (fun _ => Store.noQueryFaults)
      (get "/story/storyA" [("from", "7"), ("to", "5")])).2.2.2 rfl).2.2 (by decide)).mpr hbad⟩

end Api

namespace Store

theorem forall₂_ok_map {ρ α : Type} (g : ρ → α) (rows : List ρ) (vals : List α)
    (h : List.Forall₂ (fun r a => (Except.ok (g r) : Except String α) = .ok a) rows vals) :
    vals = rows.map g := by
  induction h with
  | nil => rfl
  | cons hab _ ih => rw [ih]; cases hab; rfl

theorem lessJoinedFetched_asymm (a b : Story × SnapshotRow) (h : lessJoinedFetched a b = true) :
    lessJoinedFetched b a = false := by
  simp only [lessJoinedFetched, decide_eq_true_eq, decide_eq_false_iff_not] at h ⊢
  exact text_lt_asymm h

theorem lessJoinedFetched_negTrans (a b c : Story × SnapshotRow)
    (h1 : lessJoinedFetched a b = false) (h2 : lessJoinedFetched b c = false) :
    lessJoinedFetched a c = false := by
  simp only [lessJoinedFetched, decide_eq_false_iff_not] at h1 h2 ⊢
  exact text_not_lt_trans h1 h2

/-- What `GetStoryInRange` returns when it returns no error: the selected columns
of the joined rows of the story in the range, in the order of the `ORDER BY`. -/
theorem GetStoryInRange_none (E : Compute.SliceSorter) (db : Tables) (f : QueryFaults)
    (storyID : String) (fromTime toTime : Time)
    (h : (GetStoryInRange E db f storyID fromTime toTime).2 = none) :
    (GetStoryInRange E db f storyID fromTime toTime).1 =
      (E.sortSlice lessJoinedFetched
        ((joinStoriesSnapshots db).filter
          (fun p => p.1.StoryID == storyID && inRange fromTime toTime p.2))).map
        occurrenceOf := by
  unfold GetStoryInRange at h ⊢
  cases hq : f.query with
  | some e => rw [hq] at h; cases h
  | none =>
    rw [hq] at h
    simp only at h ⊢
    obtain ⟨vals, hv, heq⟩ := scanLoop_none f _ _ 0 [] h
    rw [heq, forall₂_ok_map _ _ _ hv]
    rfl

/-- The occurrences come out of `ORDER BY snapshots.fetched_at` ascending in
their stored timestamp texts. -/
theorem GetStoryInRange_text_order (E : Compute.SliceSorter) (hE : E.Lawful) (db : Tables)
    (f : QueryFaults) (storyID : String) (fromTime toTime : Time)
    (h : (GetStoryInRange E db f storyID fromTime toTime).2 = none) :
    (GetStoryInRange E db f storyID fromTime toTime).1.Pairwise
      (fun a b => ¬ timestampText b.FetchedAt < timestampText a.FetchedAt) := by
  rw [GetStoryInRange_none E db f storyID fromTime toTime h, List.pairwise_map]
  refine (hE.2 _ lessJoinedFetched _ lessJoinedFetched_asymm lessJoinedFetched_negTrans).imp ?_
  intro a b hab
  simpa only [lessJoinedFetched, decide_eq_false_iff_not, occurrenceOf] using hab

end Store

namespace Api

/-- What `handleStory` answers to a GET request with a story id and an accepted
time range: 500 if the store returns an error, 404 if it returns no occurrence,
and otherwise 200 with the story id and one entry per returned occurrence, in
the store's order, which is ascending in the stored timestamp text. -/
theorem handleStory_outcomes (E : Compute.SliceSorter) (hE : E.Lawful) (Local : Int → Int)
    (db : Store.Tables) (f : Store.QueryFaults) (r : Request) (hget : r.Method = "GET")
    (hid : trimLeading r.Path "/story/" ≠ "") (hrange : ¬ r.badTimeRange) :
    ∃ x y, parseTimeRange r = .ok (x, y) ∧
      (∀ err, (Store.GetStoryInRange E db f (trimLeading r.Path "/story/")
          (localTime Local x) (localTime Local y)).2 = some err →
        handleStory E Local db f r = writeError 500 ("database error: " ++ err)) ∧
      ((Store.GetStoryInRange E db f (trimLeading r.Path "/story/")
          (localTime Local x) (localTime Local y)).2 = none →
        (Store.GetStoryInRange E db f (trimLeading r.Path "/story/")
          (localTime Local x) (localTime Local y)).1.Pairwise
          (fun a b => ¬ Store.timestampText b.FetchedAt < Store.timestampText a.FetchedAt) ∧
        ((Store.GetStoryInRange E db f (trimLeading r.Path "/story/")
            (localTime Local x) (localTime Local y)).1 = [] →
          handleStory E Local db f r =
            writeError 404 "story not found in the specified time range") ∧
        ((Store.GetStoryInRange E db f (trimLeading r.Path "/story/")
            (localTime Local x) (localTime Local y)).1 ≠ [] →
          handleStory E Local db f r =
            { status := 200,
              body := .StoryResponse (trimLeading r.Path "/story/")
                ((Store.GetStoryInRange E db f (trimLeading r.Path "/story/")
                  (localTime Local x) (localTime Local y)).1.map occurrenceDTO) })) ∧
      ((handleStory E Local db f r).status = 404 ↔
        (Store.GetStoryInRange E db f (trimLeading r.Path "/story/")
          (localTime Local x) (localTime Local y)).2 = none ∧
        (Store.GetStoryInRange E db f (trimLeading r.Path "/story/")
          (localTime Local x) (localTime Local y)).1 = []) := by
  have hok : ∃ x y, parseTimeRange r = .ok (x, y) := by
    cases hp : parseTimeRange r with
    | error e => exact (hrange ((parseTimeRange_error_iff r).mp ⟨e, hp⟩)).elim
    | ok p => exact ⟨p.1, p.2, rfl⟩
  obtain ⟨x, y, hp⟩ := hok
  refine ⟨x, y, hp, ?_⟩
  have hs := handleStory_ok E Local db f r hget hid x y hp
  have hasc := Store.GetStoryInRange_text_order E hE db f (trimLeading r.Path "/story/")
    (localTime Local x) (localTime Local y)
  rcases hq : Store.GetStoryInRange E db f (trimLeading r.Path "/story/")
    (localTime Local x) (localTime Local y) with ⟨l, _ | err⟩
  · rw [hq] at hs hasc
    simp only [] at hs
    have hl := hasc rfl
    refine ⟨fun err h => (by cases h), fun _ => ⟨hl, fun he => ?_, fun hne => ?_⟩, ?_⟩
    · change l = [] at he
      rw [hs, if_pos he]
    · change l ≠ [] at hne
      rw [hs, if_neg hne]
    · by_cases he : l = []
      · rw [hs, if_pos he]
        exact ⟨fun _ => ⟨rfl, he⟩, fun _ => rfl⟩
      · rw [hs, if_neg he]
        exact ⟨fun h => (by cases h), fun h => (he h.2).elim⟩
  · rw [hq] at hs
    simp only [] at hs
    refine ⟨fun e h => ?_, fun h => (by cases h), ?_⟩
    · cases h
      exact hs
    · rw [hs]
      exact ⟨fun h => (by cases h), fun h => (by cases h.1)⟩

end Api

/-! # The HTTP interface of the window viewer -/

namespace Handlers

theorem parseLimit_eq_some_iff (s : String) (n : Int) :
    parseLimit s = some n ↔
      (s = "" ∧ n = 10) ∨ (s ≠ "" ∧ Strconv.int64Of s = some n ∧ 1 ≤ n) := by
  unfold parseLimit Strconv.Atoi
  by_cases hs : s = ""
  · rw [if_neg (not_not.mpr hs)]
    constructor
    · intro h
      cases h
      exact Or.inl ⟨hs, rfl⟩
    · rintro (⟨-, rfl⟩ | ⟨h, -⟩)
      · rfl
      · exact (h hs).elim
  · rw [if_pos hs]
    cases hi : Strconv.int64Of s with
    | none =>
      obtain ⟨e, he⟩ := (Strconv.ParseInt_spec s).2 hi
      rcases hp : Strconv.ParseInt s with ⟨v, e'⟩
      rw [hp] at he
      cases he
      simp only []
      constructor
      · intro h
        cases h
      · rintro (⟨h, -⟩ | ⟨-, h, -⟩)
        · exact (hs h).elim
        · cases h
    | some v =>
      rw [(Strconv.ParseInt_spec s).1 v hi]
      simp only []
      by_cases hv : v < 1
      · rw [if_pos hv]
        constructor
        · intro h
          cases h
        · rintro (⟨h, -⟩ | ⟨-, h, h1⟩)
          · exact (hs h).elim
          · cases h
            omega
      · rw [if_neg hv]
        constructor
        · intro h
          cases h
          exact Or.inr ⟨hs, rfl, by omega⟩
        · rintro (⟨h, -⟩ | ⟨-, h, -⟩)
          · exact (hs h).elim
          · rw [h]

theorem parseLimit_pos (s : String) (n : Int) (h : parseLimit s = some n) : 1 ≤ n := by
  rcases (parseLimit_eq_some_iff s n).mp h with ⟨-, rfl⟩ | ⟨-, -, h1⟩
  · decide
  · exact h1

/-- The checks of `TopHandler` in terms of the integers the texts denote. -/
theorem topParams_spec (r : Api.Request) (hget : r.Method = "GET") :
    topParams r =
      if r.Get "from" = "" then .error (writeError 400 "missing required parameter: from")
      else if r.Get "to" = "" then .error (writeError 400 "missing required parameter: to")
      else if r.Get "criteria" = "" then
        .error (writeError 400 "missing required parameter: criteria")
      else
        match Strconv.int64Of (r.Get "from"), Strconv.int64Of (r.Get "to") with
        | none, _ =>
          .error (writeError 400 "invalid 'from' parameter: must be a Unix timestamp")
        | some _, none =>
          .error (writeError 400 "invalid 'to' parameter: must be a Unix timestamp")
        | some a, some b =>
          if a > b then .error (writeError 400 "'from' must be less than or equal to 'to'")
          else if !Compute.IsValidCriteria (r.Get "criteria") then
            .error (writeError 400
              ("invalid criteria: must be one of " ++ ", ".intercalate Compute.ValidCriteria))
          else
            match parseLimit (r.Get "limit") with
            | none =>
              .error (writeError 400 "invalid 'limit' parameter: must be a positive integer")
            | some limit =>
              .ok { fromUnix := a, toUnix := b, criteria := r.Get "criteria",
                    limit := limit } := by
  unfold topParams
  rw [if_neg (not_not.mpr hget)]
  simp only []
  by_cases h1 : r.Get "from" = ""
  · rw [if_pos h1, if_pos h1]
  rw [if_neg h1, if_neg h1]
  by_cases h2 : r.Get "to" = ""
  · rw [if_pos h2, if_pos h2]
  rw [if_neg h2, if_neg h2]
  by_cases h3 : r.Get "criteria" = ""
  · rw [if_pos h3, if_pos h3]
  rw [if_neg h3, if_neg h3]
  cases ha : Strconv.int64Of (r.Get "from") with
  | none =>
    obtain ⟨e, he⟩ := (Strconv.ParseInt_spec _).2 ha
    rcases hp : Strconv.ParseInt (r.Get "from") with ⟨v, e'⟩
    rw [hp] at he
    cases he
    rfl
  | some a =>
    rw [(Strconv.ParseInt_spec _).1 a ha]
    cases hb : Strconv.int64Of (r.Get "to") with
    | none =>
      obtain ⟨e, he⟩ := (Strconv.ParseInt_spec _).2 hb
      rcases hp : Strconv.ParseInt (r.Get "to") with ⟨v, e'⟩
      rw [hp] at he
      cases he
      rfl
    | some b =>
      rw [(Strconv.ParseInt_spec _).1 b hb]

theorem isValidCriteria_mem (c : String) :
    Compute.IsValidCriteria c = true ↔ c ∈ Compute.ValidCriteria := by
  rw [Compute.isValidCriteria_iff]
  simp [Compute.ValidCriteria, Compute.CriteriaBestRank, Compute.CriteriaMaxPoints,
    Compute.CriteriaMaxComments, Compute.CriteriaIncrementalComments,
    Compute.CriteriaIncrementalPoints]

/-- When the checks pass: what the parameters are. -/
theorem topParams_ok_iff (r : Api.Request) (hget : r.Method = "GET") (p : TopParams) :
    topParams r = .ok p ↔
      (Strconv.int64Of (r.Get "from") = some p.fromUnix ∧
        Strconv.int64Of (r.Get "to") = some p.toUnix ∧ p.fromUnix ≤ p.toUnix ∧
        r.Get "criteria" ∈ Compute.ValidCriteria ∧ p.criteria = r.Get "criteria" ∧
        parseLimit (r.Get "limit") = some p.limit) := by
  rw [topParams_spec r hget]
  by_cases h1 : r.Get "from" = ""
  · rw [if_pos h1, h1, Api.int64Of_empty]
    exact ⟨fun h => (by cases h), fun h => (by cases h.1)⟩
  rw [if_neg h1]
  by_cases h2 : r.Get "to" = ""
  · rw [if_pos h2, h2, Api.int64Of_empty]
    exact ⟨fun h => (by cases h), fun h => (by cases h.2.1)⟩
  rw [if_neg h2]
  by_cases h3 : r.Get "criteria" = ""
  · rw [if_pos h3, h3]
    refine ⟨fun h => (by cases h), fun h => ?_⟩
    have hno : "" ∉ Compute.ValidCriteria := by decide
    exact (hno h.2.2.2.1).elim
  rw [if_neg h3]
  cases ha : Strconv.int64Of (r.Get "from") with
  | none => exact ⟨fun h => (by cases h), fun h => (by cases h.1)⟩
  | some a =>
    cases hb : Strconv.int64Of (r.Get "to") with
    | none => exact ⟨fun h => (by cases h), fun h => (by cases h.2.1)⟩
    | some b =>
      simp only []
      by_cases hab : a > b
      · rw [if_pos hab]
        refine ⟨fun h => (by cases h), fun h => ?_⟩
        obtain ⟨h1, h2, h3, -⟩ := h
        cases h1
        cases h2
        omega
      rw [if_neg hab]
      by_cases hc : Compute.IsValidCriteria (r.Get "criteria") = true
      · rw [hc]
        simp only [Bool.not_true, Bool.false_eq_true, if_false]
        cases hl : parseLimit (r.Get "limit") with
        | none => exact ⟨fun h => (by cases h), fun h => (by cases h.2.2.2.2.2)⟩
        | some n =>
          simp only []
          constructor
          · intro h
            cases h
            exact ⟨rfl, rfl, not_lt.mp hab, (isValidCriteria_mem _).mp hc, rfl, rfl⟩
          · rintro ⟨h1, h2, -, -, h5, h6⟩
            cases h1
            cases h2
            cases h6
            obtain ⟨pa, pb, pc, pl⟩ := p
            cases h5
            rfl
      · have hc' : Compute.IsValidCriteria (r.Get "criteria") = false := by
          simpa using hc
        rw [hc']
        simp only [Bool.not_false, if_true]
        exact ⟨fun h => (by cases h),
          fun h => (hc ((isValidCriteria_mem _).mpr h.2.2.2.1)).elim⟩

/-- A failed check of a GET request answers 400. -/
theorem topParams_error_status (r : Api.Request) (hget : r.Method = "GET") (resp : Response)
    (h : topParams r = .error resp) : resp.status = 400 := by
  rw [topParams_spec r hget] at h
  by_cases h1 : r.Get "from" = ""
  · rw [if_pos h1] at h; cases h; rfl
  rw [if_neg h1] at h
  by_cases h2 : r.Get "to" = ""
  · rw [if_pos h2] at h; cases h; rfl
  rw [if_neg h2] at h
  by_cases h3 : r.Get "criteria" = ""
  · rw [if_pos h3] at h; cases h; rfl
  rw [if_neg h3] at h
  cases ha : Strconv.int64Of (r.Get "from") with
  | none => rw [ha] at h; cases h; rfl
  | some a =>
    cases hb : Strconv.int64Of (r.Get "to") with
    | none => rw [ha, hb] at h; cases h; rfl
    | some b =>
      rw [ha, hb] at h
      simp only [] at h
      by_cases h4 : a > b
      · rw [if_pos h4] at h; cases h; rfl
      rw [if_neg h4] at h
      by_cases h5 : (!Compute.IsValidCriteria (r.Get "criteria")) = true
      · rw [if_pos h5] at h; cases h; rfl
      rw [if_neg h5] at h
      cases hl : parseLimit (r.Get "limit") with
      | none => rw [hl] at h; cases h; rfl
      | some n => rw [hl] at h; cases h

/-- When the checks pass, some parameters come out of them. -/
theorem topParams_ok_of_good (r : Api.Request) (hget : r.Method = "GET")
    (hw : ¬ badWindow r) (hl : ¬ limitRefused r) :
    ∃ p, topParams r = .ok p := by
  unfold badWindow at hw
  simp only [not_or, not_not, not_exists, not_and] at hw
  obtain ⟨-, -, -, ⟨a, ha⟩, ⟨b, hb⟩, hab, hc⟩ := hw
  have hlim : ∃ n, parseLimit (r.Get "limit") = some n := by
    by_cases he : r.Get "limit" = ""
    · exact ⟨10, (parseLimit_eq_some_iff _ _).mpr (Or.inl ⟨he, rfl⟩)⟩
    · unfold limitRefused at hl
      simp only [not_and, not_not] at hl
      obtain ⟨n, hn, h1⟩ := hl he
      exact ⟨n, (parseLimit_eq_some_iff _ _).mpr (Or.inr ⟨he, hn, h1⟩)⟩
  obtain ⟨n, hn⟩ := hlim
  refine ⟨{ fromUnix := a, toUnix := b, criteria := r.Get "criteria", limit := n }, ?_⟩
  rw [topParams_ok_iff r hget]
  exact ⟨ha, hb, not_lt.mp (hab a b ha hb), hc, rfl, hn⟩

/-- The checks of a GET request fail exactly on a refused window or limit. -/
theorem topParams_error_iff (r : Api.Request) (hget : r.Method = "GET") :
    (∃ resp, topParams r = .error resp) ↔ badWindow r ∨ limitRefused r := by
  constructor
  · rintro ⟨resp, hresp⟩
    by_contra hcon
    rw [not_or] at hcon
    obtain ⟨p, hp⟩ := topParams_ok_of_good r hget hcon.1 hcon.2
    rw [hp] at hresp
    cases hresp
  · intro hbad
    cases hp : topParams r with
    | error resp => exact ⟨resp, rfl⟩
    | ok p =>
      exfalso
      obtain ⟨ha, hb, hab, hc, -, hl⟩ := (topParams_ok_iff r hget p).mp hp
      have h1 : r.Get "from" ≠ "" := fun h => by rw [h, Api.int64Of_empty] at ha; cases ha
      have h2 : r.Get "to" ≠ "" := fun h => by rw [h, Api.int64Of_empty] at hb; cases hb
      have h3 : r.Get "criteria" ≠ "" := fun h => by
        rw [h] at hc
        exact absurd hc (by decide)
      rcases hbad with (h | h | h | h | h | ⟨a', b', ha', hb', hgt⟩ | h) | ⟨hne, hno⟩
      · exact h1 ((Api.missingOrEmpty_iff _ _).mp h)
      · exact h2 ((Api.missingOrEmpty_iff _ _).mp h)
      · exact h3 ((Api.missingOrEmpty_iff _ _).mp h)
      · exact h ⟨_, ha⟩
      · exact h ⟨_, hb⟩
      · rw [ha] at ha'
        rw [hb] at hb'
        cases ha'
        cases hb'
        omega
      · exact h hc
      · rcases (parseLimit_eq_some_iff _ _).mp hl with ⟨he, -⟩ | ⟨-, hn, h1n⟩
        · exact hne he
        · exact hno ⟨_, hn, h1n⟩

/-- The handler after its checks have passed: the call of `ComputeTopStories`
returns the first `limit` entries of the ranking. -/
theorem TopHandler_of_params (S : Compute.SliceSorter) (R : Compute.MapRange)
    (g : Int → Int → Except String (List Compute.Snapshot)) (r : Api.Request)
    (hget : r.Method = "GET") (p : TopParams) (hp : topParams r = .ok p) :
    TopHandler S R g r =
      match g p.fromUnix p.toUnix with
      | .error err => .ok (writeError 500 ("failed to fetch snapshots: " ++ err))
      | .ok snapshots =>
        .ok { status := 200,
              body := .TopStoriesResponse p.fromUnix p.toUnix p.criteria
                (((Compute.sortedStories S R snapshots p.criteria).take p.limit.toNat).map
                  (fun e => Compute.toRankedStory e.1)) } := by
  obtain ⟨-, -, -, hc, hpc, hl⟩ := (topParams_ok_iff r hget p).mp hp
  have hvalid : Compute.IsValidCriteria p.criteria = true := by
    rw [hpc]
    exact (isValidCriteria_mem _).mpr hc
  have hpos := parseLimit_pos _ _ hl
  unfold TopHandler
  rw [hp]
  simp only []
  cases hg : g p.fromUnix p.toUnix with
  | error err => rfl
  | ok snapshots =>
    simp only []
    rw [Compute.ComputeTopStories_ok S R snapshots p.criteria p.limit hvalid (by omega)]

theorem topParams_get (r : Api.Request) (p : TopParams) (h : topParams r = .ok p) :
    r.Method = "GET" := by
  by_contra hm
  unfold topParams at h
  rw [if_pos hm] at h
  cases h

theorem not_badWindow_of (r : Api.Request) (a b : Int)
    (ha : Strconv.int64Of (r.Get "from") = some a) (hb : Strconv.int64Of (r.Get "to") = some b)
    (hab : a ≤ b) (hc : r.Get "criteria" ∈ Compute.ValidCriteria) : ¬ badWindow r := by
  have h1 : r.Get "from" ≠ "" := fun h => by rw [h, Api.int64Of_empty] at ha; cases ha
  have h2 : r.Get "to" ≠ "" := fun h => by rw [h, Api.int64Of_empty] at hb; cases hb
  have h3 : r.Get "criteria" ≠ "" := fun h => by
    rw [h] at hc
    exact absurd hc (by decide)
  rintro (h | h | h | h | h | ⟨a', b', ha', hb', hgt⟩ | h)
  · exact h1 ((Api.missingOrEmpty_iff _ _).mp h)
  · exact h2 ((Api.missingOrEmpty_iff _ _).mp h)
  · exact h3 ((Api.missingOrEmpty_iff _ _).mp h)
  · exact h ⟨_, ha⟩
  · exact h ⟨_, hb⟩
  · rw [ha] at ha'
    rw [hb] at hb'
    cases ha'
    cases hb'
    omega
  · exact h hc

/-- C23 as stated fails at two requests whose window and criteria are accepted.
A limit of 2^63 is an integer >= 1, yet the answer is 400; an empty limit is
present and is no integer, yet the answer is 200 with the ranking of limit 10. -/
theorem TopHandler_limit_counterexample :
    (¬ badWindow (topRequest [("limit", "9223372036854775808")]) ∧
      ¬ limitPresentNotPositive (topRequest [("limit", "9223372036854775808")]) ∧
      answered (TopHandler Compute.goSort Compute.insertionOrder sampleClient
        (topRequest [("limit", "9223372036854775808")])) = some 400) ∧
    (limitPresentNotPositive (topRequest [("limit", "")]) ∧
      answered (TopHandler Compute.goSort Compute.insertionOrder sampleClient
        (topRequest [("limit", "")])) = some 200 ∧
      TopHandler Compute.goSort Compute.insertionOrder sampleClient (topRequest [("limit", "")]) =
        TopHandler Compute.goSort Compute.insertionOrder sampleClient
          (topRequest [("limit", "10")])) := by
  refine ⟨⟨not_badWindow_of _ 0 100 (by decide) (by decide) (by decide) (by decide), ?_,
    by decide⟩, ⟨⟨by decide, ?_⟩, by decide, by decide⟩⟩
  · rintro ⟨-, hno⟩
    exact hno ⟨9223372036854775808, by decide, by decide⟩
  · rintro ⟨n, hn, -⟩
    have he : integerOf ((topRequest [("limit", "")]).Get "limit") = none := by decide
    rw [he] at hn
    cases hn

/-- C23 (amended): for a GET /top request, TopHandler answers 400 exactly when
from, to or criteria is missing or empty, from or to is not a base-10 64-bit
integer, from > to, criteria is not one of the five valid values, or limit is
non-empty and is not a base-10 integer between 1 and 2^63 - 1; when limit is
absent or empty the ranking is computed with limit 10, and a successful response
echoes the request's from, to and criteria. -/
theorem TopHandler_400_iff (S : Compute.SliceSorter) (R : Compute.MapRange)
    (g : Int → Int → Except String (List Compute.Snapshot)) (r : Api.Request)
    (hget : r.Method = "GET") :
    (answered (TopHandler S R g r) = some 400 ↔ badWindow r ∨ limitRefused r) ∧
    (¬ badWindow r → r.Get "limit" = "" →
      ∃ a b, Strconv.int64Of (r.Get "from") = some a ∧
        Strconv.int64Of (r.Get "to") = some b ∧
        ∀ snapshots, g a b = .ok snapshots →
          ∃ stories,
            Compute.ComputeTopStories S R snapshots (r.Get "criteria") 10 = .ok stories ∧
            TopHandler S R g r =
              .ok { status := 200,
                    body := .TopStoriesResponse a b (r.Get "criteria") stories }) ∧
    (∀ response, TopHandler S R g r = .ok response → response.status = 200 →
      ∃ a b stories, Strconv.int64Of (r.Get "from") = some a ∧
        Strconv.int64Of (r.Get "to") = some b ∧
        response.body = .TopStoriesResponse a b (r.Get "criteria") stories) := by
  refine ⟨?_, ?_, ?_⟩
  · rw [← topParams_error_iff r hget]
    cases hp : topParams r with
    | error resp =>
      have hs := topParams_error_status r hget resp hp
      have ht : TopHandler S R g r = .ok resp := by
        unfold TopHandler
        rw [hp]
      rw [ht]
      exact ⟨fun _ => ⟨resp, rfl⟩, fun _ => congrArg some hs⟩
    | ok p =>
      rw [TopHandler_of_params S R g r hget p hp]
      cases hg : g p.fromUnix p.toUnix with
      | error err => exact ⟨fun h => (by cases h), fun ⟨_, h⟩ => (by cases h)⟩
      | ok snapshots => exact ⟨fun h => (by cases h), fun ⟨_, h⟩ => (by cases h)⟩
  · intro hw hl
    have hlr : ¬ limitRefused r := fun h => h.1 hl
    obtain ⟨p, hp⟩ := topParams_ok_of_good r hget hw hlr
    obtain ⟨ha, hb, -, hc, hpc, hlim⟩ := (topParams_ok_iff r hget p).mp hp
    have h10 : p.limit = 10 := by
      rcases (parseLimit_eq_some_iff _ _).mp hlim with ⟨-, h⟩ | ⟨h, -⟩
      · exact h
      · exact (h hl).elim
    refine ⟨p.fromUnix, p.toUnix, ha, hb, fun snapshots hg => ?_⟩
    have hvalid : Compute.IsValidCriteria (r.Get "criteria") = true :=
      (isValidCriteria_mem _).mpr hc
    refine ⟨_, Compute.ComputeTopStories_ok S R snapshots (r.Get "criteria") 10 hvalid
      (by decide), ?_⟩
    rw [TopHandler_of_params S R g r hget p hp, hg, hpc, h10]
  · intro response hresp hs
    cases hp : topParams r with
    | error resp =>
      have h4 := topParams_error_status r hget resp hp
      have ht : TopHandler S R g r = .ok resp := by
        unfold TopHandler
        rw [hp]
      rw [ht] at hresp
      cases hresp
      rw [h4] at hs
      cases hs
    | ok p =>
      obtain ⟨ha, hb, -, -, hpc, -⟩ := (topParams_ok_iff r hget p).mp hp
      rw [TopHandler_of_params S R g r hget p hp] at hresp
      cases hg : g p.fromUnix p.toUnix with
      | error err =>
        rw [hg] at hresp
        cases hresp
        cases hs
      | ok snapshots =>
        rw [hg] at hresp
        cases hresp
        exact ⟨_, _, _, ha, hb, by rw [hpc]⟩

theorem TopHandler_400_iff_witness :
    answered (TopHandler Compute.goSort Compute.insertionOrder sampleClient
      (topRequest [("limit", "0")])) = some 400 ∧
    (∃ stories,
      Compute.ComputeTopStories Compute.goSort Compute.insertionOrder Compute.sampleWindow
        "max_points" 10 = .ok stories ∧
      TopHandler Compute.goSort Compute.insertionOrder sampleClient (topRequest []) =
        .ok { status := 200, body := .TopStoriesResponse 0 100 "max_points" stories }) :=
  ⟨(TopHandler_400_iff Compute.goSort Compute.insertionOrder sampleClient
      (topRequest [("limit", "0")]) rfl).1.mpr
      (Or.inr ⟨by decide, fun ⟨n, hn, h1⟩ => by
        have h0 : Strconv.int64Of ((topRequest [("limit", "0")]).Get "limit") = some 0 := by
          decide
        rw [h0] at hn
        cases hn
        exact absurd h1 (by decide)⟩),
   by
    obtain ⟨a, b, ha, hb, h⟩ := (TopHandler_400_iff Compute.goSort Compute.insertionOrder
      sampleClient (topRequest []) rfl).2.1
      (not_badWindow_of _ 0 100 (by decide) (by decide) (by decide) (by decide)) (by decide)
    have ha0 : Strconv.int64Of ((topRequest []).Get "from") = some 0 := by decide
    have hb0 : Strconv.int64Of ((topRequest []).Get "to") = some 100 := by decide
    rw [ha0] at ha
    rw [hb0] at hb
    cases ha
    cases hb
    exact h Compute.sampleWindow rfl⟩

/-- C30: TopHandler only calls ComputeTopStories with a criteria accepted by
IsValidCriteria and a limit >= 1, so on every request the call returns a result,
neither an error nor a panic for a negative length: the handler always answers,
the 500 branch of the computation is never taken, and a 500 from /top comes from
the snapshot fetch. -/
theorem TopHandler_compute_ok (S : Compute.SliceSorter) (R : Compute.MapRange)
    (g : Int → Int → Except String (List Compute.Snapshot)) (r : Api.Request) :
    (∀ p, topParams r = .ok p →
      Compute.IsValidCriteria p.criteria = true ∧ 1 ≤ p.limit ∧
      ∀ snapshots, ∃ stories,
        Compute.ComputeTopStories S R snapshots p.criteria p.limit = .ok stories) ∧
    (∃ response, TopHandler S R g r = .ok response) ∧
    (∀ response, TopHandler S R g r = .ok response → response.status = 500 →
      ∃ p err, topParams r = .ok p ∧ g p.fromUnix p.toUnix = .error err ∧
        response = writeError 500 ("failed to fetch snapshots: " ++ err)) := by
  have hcall : ∀ p, topParams r = .ok p →
      Compute.IsValidCriteria p.criteria = true ∧ 1 ≤ p.limit := by
    intro p hp
    have hget := topParams_get r p hp
    obtain ⟨-, -, -, hc, hpc, hl⟩ := (topParams_ok_iff r hget p).mp hp
    refine ⟨?_, parseLimit_pos _ _ hl⟩
    rw [hpc]
    exact (isValidCriteria_mem _).mpr hc
  refine ⟨fun p hp => ⟨(hcall p hp).1, (hcall p hp).2, fun snapshots =>
    ⟨_, Compute.ComputeTopStories_ok S R snapshots p.criteria p.limit (hcall p hp).1
      (by have := (hcall p hp).2; omega)⟩⟩, ?_, ?_⟩
  · cases hp : topParams r with
    | error resp =>
      refine ⟨resp, ?_⟩
      unfold TopHandler
      rw [hp]
    | ok p =>
      rw [TopHandler_of_params S R g r (topParams_get r p hp) p hp]
      cases hg : g p.fromUnix p.toUnix with
      | error err => exact ⟨_, rfl⟩
      | ok snapshots => exact ⟨_, rfl⟩
  · intro response hresp hs
    cases hp : topParams r with
    | error resp =>
      exfalso
      have ht : TopHandler S R g r = .ok resp := by
        unfold TopHandler
        rw [hp]
      rw [ht] at hresp
      have hrr : resp = response := by
        cases hresp
        rfl
      rw [← hrr] at hs
      by_cases hget : r.Method = "GET"
      · rw [topParams_error_status r hget resp hp] at hs
        cases hs
      · unfold topParams at hp
        rw [if_pos hget] at hp
        cases hp
        cases hs
    | ok p =>
      rw [TopHandler_of_params S R g r (topParams_get r p hp) p hp] at hresp
      cases hg : g p.fromUnix p.toUnix with
      | error err =>
        rw [hg] at hresp
        cases hresp
        exact ⟨p, err, rfl, hg, rfl⟩
      | ok snapshots =>
        rw [hg] at hresp
        cases hresp
        cases hs

theorem TopHandler_compute_ok_witness :
    topParams (topRequest [("limit", "1")]) =
      .ok { fromUnix := 0, toUnix := 100, criteria := "max_points", limit := 1 } ∧
    (∃ stories, Compute.ComputeTopStories Compute.goSort Compute.insertionOrder
      Compute.sampleWindow "max_points" 1 = .ok stories) ∧
    (∃ p err, topParams (topRequest [("limit", "1")]) = .ok p ∧
      downClient p.fromUnix p.toUnix = .error err ∧
      writeError 500 ("failed to fetch snapshots: " ++
          "failed to fetch snapshots: connection refused") =
        writeError 500 ("failed to fetch snapshots: " ++ err)) :=
  ⟨rfl,
   ((TopHandler_compute_ok Compute.goSort Compute.insertionOrder sampleClient
      (topRequest [("limit", "1")])).1
      { fromUnix := 0, toUnix := 100, criteria := "max_points", limit := 1 }
      rfl).2.2 Compute.sampleWindow,
   (TopHandler_compute_ok Compute.goSort Compute.insertionOrder downClient
      (topRequest [("limit", "1")])).2.2 _ rfl rfl⟩

end Handlers

/-! # The querier: filters and sorting -/

namespace Query

theorem foldl_append_filter {α : Type} (p : α → Bool) (l acc : List α) :
    l.foldl (fun result x => if p x then result ++ [x] else result) acc = acc ++ l.filter p := by
  induction l generalizing acc with
  | nil => simp
  | cons x xs ih =>
    rw [List.foldl_cons, ih]
    by_cases hx : p x = true
    · simp [hx]
    · simp [hx]

/-- The loop of `Filter` keeps the matching stories in their order. -/
theorem Filter_some (L : FuzzyLib) (stories : List Story) (f : Filters) :
    Filter L stories (some f) = stories.filter (fun s => matchesAllFilters L s f) := by
  unfold Filter
  simp only []
  rw [foldl_append_filter (fun s => matchesAllFilters L s f) stories []]
  rfl

theorem passes_matchesRange (value : Int) (r : Option RangeInt) :
    passes r (matchesRange value) = true ↔ withinRange value r := by
  unfold withinRange passes
  cases r with
  | none => exact ⟨fun _ range h => (by cases h), fun _ => rfl⟩
  | some range =>
    simp only [Option.some.injEq, forall_eq']
    unfold matchesRange
    rcases hmin : range.Min with _ | lo <;> rcases hmax : range.Max with _ | hi <;> simp

theorem matchesAllFilters_ranges (L : FuzzyLib) (s : Story) (f : Filters)
    (h1 : f.Headline = none) (h2 : f.Username = none) (h3 : f.URL = none)
    (h4 : f.Age = none) :
    matchesAllFilters L s f = true ↔ satisfiesRanges f s := by
  unfold satisfiesRanges
  rw [← passes_matchesRange, ← passes_matchesRange, ← passes_matchesRange,
    ← passes_matchesRange]
  unfold matchesAllFilters
  rw [h1, h2, h3, h4]
  simp only [passes, Bool.not_true, Bool.false_eq_true, if_false]
  cases passes f.Points (matchesRange s.Points) <;>
    cases passes f.Comments (matchesRange s.Comments) <;>
    cases passes f.Rank (matchesRange s.Rank) <;>
    cases passes f.Page (matchesRange s.Page) <;> simp

/-- C25: Filter combines all present filters with AND and treats range bounds
as inclusive: for every story list and every Filters value without fuzzy or age
filters, Filter returns exactly the stories, in their input order, whose points,
comments, rank and page each satisfy min <= value <= max for the corresponding
range filter, an omitted min or max meaning no bound on that side; with nil
filters the input is returned unchanged. -/
theorem Filter_ranges (L : FuzzyLib) (stories : List Story) (f : Filters)
    (h1 : f.Headline = none) (h2 : f.Username = none) (h3 : f.URL = none)
    (h4 : f.Age = none) :
    (∃ keep : Story → Bool, (∀ s, keep s = true ↔ satisfiesRanges f s) ∧
      Filter L stories (some f) = stories.filter keep) ∧
    (∀ s, s ∈ Filter L stories (some f) ↔ s ∈ stories ∧ satisfiesRanges f s) ∧
    Filter L stories none = stories :=
  ⟨⟨fun s => matchesAllFilters L s f,
      fun s => matchesAllFilters_ranges L s f h1 h2 h3 h4, Filter_some L stories f⟩,
    fun s => by
      rw [Filter_some, List.mem_filter, matchesAllFilters_ranges L s f h1 h2 h3 h4],
    rfl⟩

theorem Filter_ranges_witness :
    Filter exactLib sampleStories (some sampleFilters) =
      [sampleStory "a" 10 7 1, sampleStory "c" 10 5 3, sampleStory "d" 20 5 4] ∧
    (sampleStory "b" 30 2 2 ∈ Filter exactLib sampleStories (some sampleFilters) ↔
      sampleStory "b" 30 2 2 ∈ sampleStories ∧
        satisfiesRanges sampleFilters (sampleStory "b" 30 2 2)) ∧
    Filter exactLib sampleStories none = sampleStories :=
  ⟨by decide,
   (Filter_ranges exactLib sampleStories sampleFilters rfl rfl rfl rfl).2.1 _,
   (Filter_ranges exactLib sampleStories sampleFilters rfl rfl rfl rfl).2.2⟩

/-! ## Stability of the insertion sort -/

theorem insertLeft_filter {α : Type} (less : α → α → Bool) (q : α → Bool) (x : α)
    (acc : List α) (h : ∀ y, q x = true → q y = true → less x y = false) :
    (Compute.insertLeft less x acc).filter q = (x :: acc).filter q := by
  induction acc with
  | nil => rfl
  | cons y ys ih =>
    unfold Compute.insertLeft
    by_cases hl : less x y = true
    · rw [if_pos hl]
      by_cases qx : q x = true
      · have qy : q y = false := by
          by_contra hqy
          have := h y qx (by simpa using hqy)
          rw [this] at hl
          cases hl
        rw [List.filter_cons_of_neg (by simp [qy]), ih, List.filter_cons_of_pos qx,
          List.filter_cons_of_pos qx, List.filter_cons_of_neg (by simp [qy])]
      · have qx' : ¬ q x = true := qx
        rw [List.filter_cons_of_neg qx'] at ih ⊢
        rw [List.filter_cons, List.filter_cons, ih]
    · rw [if_neg hl]

theorem foldl_insertLeft_filter {α : Type} (less : α → α → Bool) (q : α → Bool)
    (h : ∀ a b, q a = true → q b = true → less a b = false) (l acc : List α) :
    (l.foldl (fun acc x => Compute.insertLeft less x acc) acc).filter q =
      (l.reverse ++ acc).filter q := by
  induction l generalizing acc with
  | nil => rfl
  | cons x xs ih =>
    rw [List.foldl_cons, ih, List.filter_append, insertLeft_filter less q x acc (h x),
      List.reverse_cons, List.append_assoc, List.filter_append]
    rfl

theorem insertionSort_filter {α : Type} (less : α → α → Bool) (q : α → Bool)
    (h : ∀ a b, q a = true → q b = true → less a b = false) (l : List α) :
    (Compute.insertionSort less l).filter q = l.filter q := by
  unfold Compute.insertionSort
  rw [List.filter_reverse, foldl_insertLeft_filter less q h l [], List.append_nil,
    List.filter_reverse, List.reverse_reverse]

/-- Go's insertion sort meets the contract of `sort.SliceStable`. -/
theorem goSort_stable : StableSorter Compute.goSort :=
  ⟨Compute.goSort_lawful, fun _ less l q _ _ h => insertionSort_filter less q h l⟩

/-! ## Three-way comparisons -/

theorem IsCmp.swap_le {α : Type} {cmp : α → α → Int} (h : IsCmp cmp) (a b : α) :
    cmp a b ≤ 0 ↔ 0 ≤ cmp b a := by
  have := h.1 b a
  constructor <;> intro h' <;> by_contra hc <;> omega

theorem IsCmp.zero_symm {α : Type} {cmp : α → α → Int} (h : IsCmp cmp) (a b : α) :
    cmp a b = 0 ↔ cmp b a = 0 := by
  have h1 := h.1 a b
  have h2 := h.1 b a
  constructor <;> intro h' <;> omega

theorem IsCmp.neg {α : Type} {cmp : α → α → Int} (h : IsCmp cmp) :
    IsCmp (fun a b => -cmp a b) := by
  refine ⟨fun a b => ?_, fun a b c h1 h2 => ?_⟩
  · have := h.1 b a
    constructor <;> intro h' <;> simp only [] at h' ⊢ <;> omega
  · simp only [] at h1 h2 ⊢
    have e1 := h.swap_le b a
    have e2 := h.swap_le c b
    have e3 := h.swap_le c a
    have := h.2 c b a (by omega) (by omega)
    omega

theorem IsCmp.lt_of_lt_le {α : Type} {cmp : α → α → Int} (h : IsCmp cmp) (a b c : α)
    (h1 : cmp a b < 0) (h2 : cmp b c ≤ 0) : cmp a c < 0 := by
  have hle := h.2 a b c (by omega) h2
  by_contra hc
  have h0 : cmp a c = 0 := by omega
  have hca : cmp c a ≤ 0 := by
    have := (h.zero_symm a c).mp h0
    omega
  have hba := h.2 b c a h2 hca
  have := (h.swap_le b a).mp hba
  omega

theorem IsCmp.lt_of_le_lt {α : Type} {cmp : α → α → Int} (h : IsCmp cmp) (a b c : α)
    (h1 : cmp a b ≤ 0) (h2 : cmp b c < 0) : cmp a c < 0 := by
  have hle := h.2 a b c h1 (by omega)
  by_contra hc
  have h0 : cmp a c = 0 := by omega
  have hca : cmp c a ≤ 0 := by
    have := (h.zero_symm a c).mp h0
    omega
  have hcb := h.2 c a b hca h1
  have := (h.swap_le c b).mp hcb
  omega

theorem stringsCompare_eq (a b : String) :
    stringsCompare a b = if a = b then 0 else if a < b then -1 else 1 := by
  unfold stringsCompare
  by_cases h : a = b
  · rw [if_pos h, if_pos h]
  · rw [if_neg h, if_neg h]
    by_cases hl : a < b
    · rw [if_pos hl, if_pos (String.lt_iff_toList_lt.mp hl)]
    · rw [if_neg hl, if_neg (fun h' => hl (String.lt_iff_toList_lt.mpr h'))]

theorem stringsCompare_neg (a b : String) : stringsCompare a b < 0 ↔ a < b := by
  rw [stringsCompare_eq]
  by_cases h : a = b
  · subst h
    simp
  · by_cases hl : a < b
    · simp [h, hl]
    · simp [h, hl]

theorem stringsCompare_pos (a b : String) : 0 < stringsCompare a b ↔ b < a := by
  rw [stringsCompare_eq]
  by_cases h : a = b
  · subst h
    simp
  · by_cases hl : a < b
    · simp [h, hl, not_lt_of_gt hl]
    · simp only [h, hl, if_false]
      exact ⟨fun _ => lt_of_le_of_ne (not_lt.mp hl) (fun e => h e.symm), fun _ => by decide⟩

theorem compareInt_neg (a b : Int) : compareInt a b < 0 ↔ a < b := by
  unfold compareInt
  split_ifs <;> omega

theorem compareInt_pos (a b : Int) : 0 < compareInt a b ↔ b < a := by
  unfold compareInt
  split_ifs <;> omega

/-- A comparison that reads off the order of a key is a three-way comparison. -/
theorem isCmp_of_key {α κ : Type} [LinearOrder κ] (cmp : κ → κ → Int) (k : α → κ)
    (hneg : ∀ x y, cmp x y < 0 ↔ x < y) (hpos : ∀ x y, 0 < cmp x y ↔ y < x) :
    IsCmp (fun a b => cmp (k a) (k b)) := by
  refine ⟨fun a b => ?_, fun a b c h1 h2 => ?_⟩
  · simp only []
    rw [hneg, hpos]
  · simp only [] at h1 h2 ⊢
    have e1 : k a ≤ k b := not_lt.mp (fun h => by have := (hpos _ _).mpr h; omega)
    have e2 : k b ≤ k c := not_lt.mp (fun h => by have := (hpos _ _).mpr h; omega)
    have e3 : ¬ k c < k a := not_lt.mpr (le_trans e1 e2)
    by_contra hc
    exact e3 ((hpos _ _).mp (by omega))

theorem compareField_isCmp (field : String) : IsCmp (fun a b => compareField a b field) := by
  by_cases h0 : field = "id"
  · have e : (fun a b => compareField a b field) =
        fun a b : Story => stringsCompare (a.ID) (b.ID) := by
      funext a b
      unfold compareField
      rw [if_pos h0]
    rw [e]
    exact isCmp_of_key stringsCompare (fun s : Story => s.ID) stringsCompare_neg stringsCompare_pos
  by_cases h1 : field = "headline"
  · have e : (fun a b => compareField a b field) =
        fun a b : Story => stringsCompare (a.Headline) (b.Headline) := by
      funext a b
      unfold compareField
      rw [if_neg h0, if_pos h1]
    rw [e]
    exact isCmp_of_key stringsCompare (fun s : Story => s.Headline) stringsCompare_neg stringsCompare_pos
  by_cases h2 : field = "url"
  · have e : (fun a b => compareField a b field) =
        fun a b : Story => stringsCompare (a.URL) (b.URL) := by
      funext a b
      unfold compareField
      rw [if_neg h0, if_neg h1, if_pos h2]
    rw [e]
    exact isCmp_of_key stringsCompare (fun s : Story => s.URL) stringsCompare_neg stringsCompare_pos
  by_cases h3 : field = "discussion_url"
  · have e : (fun a b => compareField a b field) =
        fun a b : Story => stringsCompare (a.DiscussionURL) (b.DiscussionURL) := by
      funext a b
      unfold compareField
      rw [if_neg h0, if_neg h1, if_neg h2, if_pos h3]
    rw [e]
    exact isCmp_of_key stringsCompare (fun s : Story => s.DiscussionURL) stringsCompare_neg stringsCompare_pos
  by_cases h4 : field = "username"
  · have e : (fun a b => compareField a b field) =
        fun a b : Story => stringsCompare (a.Username) (b.Username) := by
      funext a b
      unfold compareField
      rw [if_neg h0, if_neg h1, if_neg h2, if_neg h3, if_pos h4]
    rw [e]
    exact isCmp_of_key stringsCompare (fun s : Story => s.Username) stringsCompare_neg stringsCompare_pos
  by_cases h5 : field = "points"
  · have e : (fun a b => compareField a b field) =
        fun a b : Story => compareInt (a.Points) (b.Points) := by
      funext a b
      unfold compareField
      rw [if_neg h0, if_neg h1, if_neg h2, if_neg h3, if_neg h4, if_pos h5]
    rw [e]
    exact isCmp_of_key compareInt (fun s : Story => s.Points) compareInt_neg compareInt_pos
  by_cases h6 : field = "comments"
  · have e : (fun a b => compareField a b field) =
        fun a b : Story => compareInt (a.Comments) (b.Comments) := by
      funext a b
      unfold compareField
      rw [if_neg h0, if_neg h1, if_neg h2, if_neg h3, if_neg h4, if_neg h5, if_pos h6]
    rw [e]
    exact isCmp_of_key compareInt (fun s : Story => s.Comments) compareInt_neg compareInt_pos
  by_cases h7 : field = "rank"
  · have e : (fun a b => compareField a b field) =
        fun a b : Story => compareInt (a.Rank) (b.Rank) := by
      funext a b
      unfold compareField
      rw [if_neg h0, if_neg h1, if_neg h2, if_neg h3, if_neg h4, if_neg h5, if_neg h6, if_pos h7]
    rw [e]
    exact isCmp_of_key compareInt (fun s : Story => s.Rank) compareInt_neg compareInt_pos
  by_cases h8 : field = "page"
  · have e : (fun a b => compareField a b field) =
        fun a b : Story => compareInt (a.Page) (b.Page) := by
      funext a b
      unfold compareField
      rw [if_neg h0, if_neg h1, if_neg h2, if_neg h3, if_neg h4, if_neg h5, if_neg h6, if_neg h7, if_pos h8]
    rw [e]
    exact isCmp_of_key compareInt (fun s : Story => s.Page) compareInt_neg compareInt_pos
  by_cases h9 : field = "age_value"
  · have e : (fun a b => compareField a b field) =
        fun a b : Story => compareInt (a.AgeValue) (b.AgeValue) := by
      funext a b
      unfold compareField
      rw [if_neg h0, if_neg h1, if_neg h2, if_neg h3, if_neg h4, if_neg h5, if_neg h6, if_neg h7, if_neg h8, if_pos h9]
    rw [e]
    exact isCmp_of_key compareInt (fun s : Story => s.AgeValue) compareInt_neg compareInt_pos
  by_cases h10 : field = "age"
  · have e : (fun a b => compareField a b field) =
        fun a b : Story => compareInt (toMinutes a.AgeValue a.AgeUnit) (toMinutes b.AgeValue b.AgeUnit) := by
      funext a b
      unfold compareField
      rw [if_neg h0, if_neg h1, if_neg h2, if_neg h3, if_neg h4, if_neg h5, if_neg h6, if_neg h7, if_neg h8, if_neg h9, if_pos h10]
    rw [e]
    exact isCmp_of_key compareInt (fun s : Story => toMinutes s.AgeValue s.AgeUnit) compareInt_neg compareInt_pos
  have e : (fun a b => compareField a b field) = fun _ _ : Story => (0 : Int) := by
    funext a b
    unfold compareField
    rw [if_neg h0, if_neg h1, if_neg h2, if_neg h3, if_neg h4, if_neg h5, if_neg h6, if_neg h7, if_neg h8, if_neg h9, if_neg h10]
  rw [e]
  exact ⟨fun _ _ => by simp, fun _ _ _ _ _ => le_refl _⟩

theorem directed_isCmp (spec : SortSpec) : IsCmp (directed spec) := by
  unfold directed
  by_cases h : spec.Direction = "desc"
  · simp only [h, if_true]
    exact (compareField_isCmp spec.Field).neg
  · simp only [h, if_false]
    exact compareField_isCmp spec.Field

/-! ## The comparison of `Sort` and the order of a multi-key sort -/

theorem lessBySpecs_cons (spec : SortSpec) (rest : List SortSpec) (a b : Story) :
    lessBySpecs (spec :: rest) a b =
      if directed spec a b = 0 then lessBySpecs rest a b else decide (directed spec a b < 0) := by
  unfold directed
  rw [lessBySpecs]
  by_cases hd : spec.Direction = "desc"
  · simp only [hd, if_true]
    by_cases h0 : compareField a b spec.Field = 0
    · rw [if_pos h0, if_pos (by omega)]
    · rw [if_neg h0, if_neg (by omega)]
      exact decide_eq_decide.mpr (by omega)
  · simp only [hd, if_false]

theorem mayPrecede_cons (spec : SortSpec) (rest : List SortSpec) (a b : Story) :
    mayPrecede (spec :: rest) a b ↔
      directed spec a b < 0 ∨ (directed spec a b = 0 ∧ mayPrecede rest a b) := by
  rw [mayPrecede]
  unfold strictlyBefore tiedOn directed
  by_cases hd : spec.Direction = "desc"
  · simp only [hd, if_true]
    constructor
    · rintro (h | ⟨h, h'⟩)
      · exact Or.inl (by omega)
      · exact Or.inr ⟨by omega, h'⟩
    · rintro (h | ⟨h, h'⟩)
      · exact Or.inl (by omega)
      · exact Or.inr ⟨by omega, h'⟩
  · simp only [hd, if_false]

/-- Story `b` is not `less` than `a` exactly when `a` may stand before `b`. -/
theorem lessBySpecs_false_iff (specs : List SortSpec) (a b : Story) :
    lessBySpecs specs b a = false ↔ mayPrecede specs a b := by
  induction specs with
  | nil => simp [lessBySpecs, mayPrecede]
  | cons spec rest ih =>
    rw [lessBySpecs_cons, mayPrecede_cons]
    have h1 := (directed_isCmp spec).1 a b
    have h2 := (directed_isCmp spec).1 b a
    by_cases h0 : directed spec b a = 0
    · rw [if_pos h0, ih]
      constructor
      · intro h
        exact Or.inr ⟨by omega, h⟩
      · rintro (h | ⟨-, h⟩)
        · omega
        · exact h
    · rw [if_neg h0, decide_eq_false_iff_not]
      constructor
      · intro h
        exact Or.inl (by omega)
      · rintro (h | ⟨h, -⟩)
        · omega
        · omega

theorem mayPrecede_total (specs : List SortSpec) (a b : Story) :
    mayPrecede specs a b ∨ mayPrecede specs b a := by
  induction specs with
  | nil => exact Or.inl trivial
  | cons spec rest ih =>
    rw [mayPrecede_cons, mayPrecede_cons]
    have h1 := (directed_isCmp spec).1 a b
    have h2 := (directed_isCmp spec).1 b a
    by_cases hlt : directed spec a b < 0
    · exact Or.inl (Or.inl hlt)
    · by_cases hgt : 0 < directed spec a b
      · exact Or.inr (Or.inl (by omega))
      · rcases ih with h | h
        · exact Or.inl (Or.inr ⟨by omega, h⟩)
        · exact Or.inr (Or.inr ⟨by omega, h⟩)

theorem mayPrecede_trans (specs : List SortSpec) (a b c : Story)
    (hab : mayPrecede specs a b) (hbc : mayPrecede specs b c) : mayPrecede specs a c := by
  induction specs with
  | nil => trivial
  | cons spec rest ih =>
    rw [mayPrecede_cons] at hab hbc ⊢
    have hc := directed_isCmp spec
    rcases hab with h1 | ⟨h1, r1⟩
    · rcases hbc with h2 | ⟨h2, -⟩
      · exact Or.inl (hc.lt_of_lt_le a b c h1 (by omega))
      · exact Or.inl (hc.lt_of_lt_le a b c h1 (by omega))
    · rcases hbc with h2 | ⟨h2, r2⟩
      · exact Or.inl (hc.lt_of_le_lt a b c (by omega) h2)
      · refine Or.inr ⟨?_, ih r1 r2⟩
        have hle := hc.2 a b c (by omega) (by omega)
        have hba := (hc.zero_symm a b).mp h1
        have hcb := (hc.zero_symm b c).mp h2
        have hge := hc.2 c b a (by omega) (by omega)
        have := (hc.swap_le c a).mp hge
        omega

theorem lessBySpecs_asymm (specs : List SortSpec) (a b : Story)
    (h : lessBySpecs specs a b = true) : lessBySpecs specs b a = false := by
  rw [lessBySpecs_false_iff]
  rcases mayPrecede_total specs a b with h' | h'
  · exact h'
  · rw [← lessBySpecs_false_iff, h] at h'
    cases h'

theorem lessBySpecs_negTrans (specs : List SortSpec) (a b c : Story)
    (h1 : lessBySpecs specs a b = false) (h2 : lessBySpecs specs b c = false) :
    lessBySpecs specs a c = false := by
  rw [lessBySpecs_false_iff] at h1 h2 ⊢
  exact mayPrecede_trans specs c b a h2 h1

theorem tiedOnAll_iff (specs : List SortSpec) (a b : Story) :
    tiedOnAll specs a b = true ↔ ∀ spec ∈ specs, tiedOn spec a b := by
  unfold tiedOnAll tiedOn
  simp only [List.all_eq_true, decide_eq_true_eq]

/-- Two stories tied with a third on every specification are not `less` than
each other. -/
theorem not_less_of_tied (specs : List SortSpec) (x a b : Story)
    (ha : tiedOnAll specs x a = true) (hb : tiedOnAll specs x b = true) :
    lessBySpecs specs a b = false := by
  rw [tiedOnAll_iff] at ha hb
  induction specs with
  | nil => rfl
  | cons spec rest ih =>
    rw [lessBySpecs_cons]
    have hc := compareField_isCmp spec.Field
    have hxa : compareField x a spec.Field = 0 := ha spec (List.mem_cons_self _ _)
    have hxb : compareField x b spec.Field = 0 := hb spec (List.mem_cons_self _ _)
    have hax := (hc.zero_symm x a).mp hxa
    have hbx := (hc.zero_symm x b).mp hxb
    have hle := hc.2 a x b (by simp only []; omega) (by simp only []; omega)
    have hge := hc.2 b x a (by simp only []; omega) (by simp only []; omega)
    have hsw := (hc.swap_le b a).mp hge
    simp only [] at hle hsw
    have h0 : directed spec a b = 0 := by
      unfold directed
      split_ifs <;> omega
    rw [if_pos h0]
    exact ih (fun s hs => ha s (List.mem_cons_of_mem _ hs))
      (fun s hs => hb s (List.mem_cons_of_mem _ hs))

/-- The function `Sort` as a stable multi-key sort by `compareField`: for every
story list and spec list the result is a permutation of the input, ordered by
the first specification on which two stories compare as different (in its
direction), stories that compare as equal on every specification keeping their
relative input order; an empty spec list returns the input unchanged. -/
theorem SortStories_stable_multikey (S : Compute.SliceSorter) (hS : StableSorter S)
    (stories : List Story) (specs : List SortSpec) :
    (SortStories S stories specs).Perm stories ∧
    (SortStories S stories specs).Pairwise (mayPrecede specs) ∧
    (∀ x, (SortStories S stories specs).filter (tiedOnAll specs x) =
      stories.filter (tiedOnAll specs x)) ∧
    SortStories S stories [] = stories := by
  refine ⟨?_, ?_, ?_, rfl⟩
  · unfold SortStories
    split_ifs
    · exact List.Perm.refl _
    · exact hS.1.1 _ _ _
  · unfold SortStories
    split_ifs with h0
    · rw [List.length_eq_zero.mp h0]
      exact List.pairwise_of_forall (fun _ _ => trivial)
    · refine (hS.1.2 _ (lessBySpecs specs) stories (lessBySpecs_asymm specs)
        (lessBySpecs_negTrans specs)).imp ?_
      intro a b h
      exact (lessBySpecs_false_iff specs a b).mp h
  · intro x
    unfold SortStories
    split_ifs
    · rfl
    · exact hS.2 _ (lessBySpecs specs) stories (tiedOnAll specs x) (lessBySpecs_asymm specs)
        (lessBySpecs_negTrans specs) (fun a b ha hb => not_less_of_tied specs x a b ha hb)

theorem SortStories_stable_multikey_witness :
    SortStories Compute.goSort sampleStories [⟨"points", "desc"⟩, ⟨"comments", "asc"⟩] =
      [sampleStory "b" 30 2 2, sampleStory "d" 20 5 4, sampleStory "c" 10 5 3,
       sampleStory "a" 10 7 1] ∧
    SortStories Compute.goSort sampleStories [⟨"points", "asc"⟩] =
      [sampleStory "a" 10 7 1, sampleStory "c" 10 5 3, sampleStory "d" 20 5 4,
       sampleStory "b" 30 2 2] ∧
    (SortStories Compute.goSort sampleStories [⟨"points", "asc"⟩]).Pairwise
      (mayPrecede [⟨"points", "asc"⟩]) ∧
    (SortStories Compute.goSort sampleStories [⟨"points", "asc"⟩]).filter
        (tiedOnAll [⟨"points", "asc"⟩] (sampleStory "a" 10 7 1)) =
      [sampleStory "a" 10 7 1, sampleStory "c" 10 5 3] :=
  ⟨by decide, by decide,
   (SortStories_stable_multikey Compute.goSort goSort_stable sampleStories
      [⟨"points", "asc"⟩]).2.1,
   ((SortStories_stable_multikey Compute.goSort goSort_stable sampleStories
      [⟨"points", "asc"⟩]).2.2.1 (sampleStory "a" 10 7 1)).trans (by decide)⟩

end Query

/-! # The page parser: the age of a story -/

namespace HNParser

/-- C27: parseAge returns the word of the age text as the unit, unchanged. On
"4 hours ago" the unit is "hours", but on "1 hour ago" it is "hour", which is
none of minutes, hours, days, and which the querier converts as if it were
minutes. -/
theorem parseAge_singular_unit :
    parseAge "4 hours ago" = (4, "hours") ∧
    parseAge "1 hour ago" = (1, "hour") ∧
    (parseAge "1 hour ago").2 ∉ ageUnits ∧
    Query.toMinutes (parseAge "1 hour ago").1 (parseAge "1 hour ago").2 = 1 ∧
    Query.toMinutes 1 "hours" = 60 := by
  refine ⟨by decide, by decide, by decide, by decide, by decide⟩

end HNParser

/-! # Timestamps are compared as text -/

namespace Store

/-- C13: the round trip fails for a bound beyond the year 9999.  SaveSnapshot of
the snapshot fetched on 6 December 2025 succeeds, and its fetched_at lies
between time.Unix(0, 0) and time.Unix(300000000000, 0); yet
GetSnapshotsInRange with these bounds returns no snapshot, because the text
bound for the upper bound begins with "11476-" and the stored text with
"2025-", and the two are compared byte by byte.  With the upper bound
time.Unix(2000000000, 0) the snapshot is returned. -/
theorem SaveSnapshot_roundTrip_far_bound :
    (SaveSnapshot emptyConn noSaveFaults fetched2025).2 = none ∧
    (unixUTC 0).instant ≤ fetched2025.FetchedAt.instant ∧
    fetched2025.FetchedAt.instant ≤ (unixUTC 300000000000).instant ∧
    timestampText fetched2025.FetchedAt = "2025-12-06 10:30:00+00:00".data ∧
    timestampText (unixUTC 300000000000) = "11476-08-15 05:20:00+00:00".data ∧
    GetSnapshotsInRange Compute.goSort
      (SaveSnapshot emptyConn noSaveFaults fetched2025).1.committed
      noQueryFaults (fun _ => noQueryFaults) (unixUTC 0) (unixUTC 300000000000) = ([], none) ∧
    (GetSnapshotsInRange Compute.goSort
      (SaveSnapshot emptyConn noSaveFaults fetched2025).1.committed
      noQueryFaults (fun _ => noQueryFaults) (unixUTC 0) (unixUTC 2000000000)).1.map
        (fun s => s.FetchedAt) = [fetched2025.FetchedAt] := by
  refine ⟨by decide, by decide, by decide, by decide, by decide, by decide, by decide⟩

/-- C15: GetStoryIDsInRange leaves out story ids for a bound beyond the year
9999.  The store holds storyA and storyB in a snapshot fetched on 6 December
2025, which lies between time.Unix(0, 0) and time.Unix(300000000000, 0); with
these bounds the call returns no id, with the upper bound
time.Unix(2000000000, 0) it returns both. -/
theorem GetStoryIDsInRange_far_bound :
    (∀ row ∈ store2025.snapshots,
      (unixUTC 0).instant ≤ row.fetched_at.instant ∧
        row.fetched_at.instant ≤ (unixUTC 300000000000).instant) ∧
    (store2025.stories.map (fun st => st.StoryID)) = ["storyB", "storyA"] ∧
    GetStoryIDsInRange Compute.goSort store2025 noQueryFaults (unixUTC 0)
      (unixUTC 300000000000) = ([], none) ∧
    GetStoryIDsInRange Compute.goSort store2025 noQueryFaults (unixUTC 0)
      (unixUTC 2000000000) = (["storyA", "storyB"], none) := by
  refine ⟨by decide, by decide, by decide, by decide⟩

end Store

namespace Api

/-- C14: GetSnapshotsInRange leaves out a stored snapshot for a bound beyond the
year 9999.  On a store holding one snapshot, fetched at Unix time 1765017000,
the request GET /snapshots?from=0&to=300000000000 is answered 200 with no
snapshot, and the store call behind it returns the empty list, although
0 <= 1765017000 <= 300000000000; with to=2000000000 the snapshot is returned. -/
theorem handleSnapshots_far_bound :
    (Store.store2025.snapshots.map (fun row => unixSeconds row.fetched_at.instant)) =
      [1765017000] ∧
    parseTimeRange (get "/snapshots" [("from", "0"), ("to", "300000000000")]) =
      .ok (timeUnix 0, timeUnix 300000000000) ∧
    Store.GetSnapshotsInRange Compute.goSort Store.store2025 Store.noQueryFaults
      (fun _ => Store.noQueryFaults) (localTime utc (timeUnix 0))
      (localTime utc (timeUnix 300000000000)) = ([], none) ∧
    handleSnapshots Compute.goSort utc Store.store2025 Store.noQueryFaults
      (fun _ => Store.noQueryFaults) (get "/snapshots" [("from", "0"), ("to", "300000000000")]) =
      { status := 200, body := .SnapshotsResponse [] } ∧
    (Store.GetSnapshotsInRange Compute.goSort Store.store2025 Store.noQueryFaults
      (fun _ => Store.noQueryFaults) (localTime utc (timeUnix 0))
      (localTime utc (timeUnix 2000000000))).1.map (fun s => unixSeconds s.FetchedAt.instant) =
      [1765017000] := by
  refine ⟨by decide, rfl, by decide, by decide, by decide⟩

/-- C22: the occurrences handleStory returns are not in ascending fetched_at when
the stored times carry different UTC offsets.  The store holds storyA in a
snapshot fetched at 12:00:00+02:00 (Unix time 1765015200) and in one fetched half
an hour later at 10:30:00Z (Unix time 1765017000); GET
/story/storyA?from=0&to=2000000000 is answered 200 with the later occurrence
first, because ORDER BY compares the stored texts. -/
theorem handleStory_mixed_offsets :
    (handleStory Compute.goSort utc mixedOffsetsDB Store.noQueryFaults
      (get "/story/storyA" [("from", "0"), ("to", "2000000000")])).status = 200 ∧
    occurrenceTimes (handleStory Compute.goSort utc mixedOffsetsDB Store.noQueryFaults
      (get "/story/storyA" [("from", "0"), ("to", "2000000000")])) =
      [1765017000, 1765015200] ∧
    ¬ (occurrenceTimes (handleStory Compute.goSort utc mixedOffsetsDB Store.noQueryFaults
      (get "/story/storyA" [("from", "0"), ("to", "2000000000")]))).Pairwise
        (fun a b => a ≤ b) ∧
    Store.timestampText Store.fetchedEast.FetchedAt = "2025-12-06 12:00:00+02:00".data ∧
    Store.timestampText Store.fetched2025.FetchedAt = "2025-12-06 10:30:00+00:00".data := by
  refine ⟨by decide, by decide, by decide, by decide, by decide⟩

end Api

namespace Query

/-- C26: Sort by the field age does not order stories by their age when a unit
is singular.  The parser reads "1 hour ago" as 1 "hour" and "2 minutes ago" as 2
"minutes"; toMinutes knows the plural units only and counts the hour as one
minute, so the descending sort by age puts the story of two minutes before the
story of one hour.  With "2 hours ago" in place of "1 hour ago" the older story
comes first. -/
theorem SortStories_age_singular_unit :
    agedStory "old" "1 hour ago" =
      { sampleStory "old" 10 5 1 with AgeValue := 1, AgeUnit := "hour" } ∧
    agedStory "new" "2 minutes ago" =
      { sampleStory "new" 10 5 1 with AgeValue := 2, AgeUnit := "minutes" } ∧
    toMinutes 1 "hour" = 1 ∧ toMinutes 1 "hours" = 60 ∧
    compareField (agedStory "old" "1 hour ago") (agedStory "new" "2 minutes ago") "age" = -1 ∧
    SortStories Compute.goSort [agedStory "old" "1 hour ago", agedStory "new" "2 minutes ago"]
        [⟨"age", "desc"⟩] =
      [agedStory "new" "2 minutes ago", agedStory "old" "1 hour ago"] ∧
    SortStories Compute.goSort [agedStory "new" "2 minutes ago", agedStory "old" "2 hours ago"]
        [⟨"age", "desc"⟩] =
      [agedStory "old" "2 hours ago", agedStory "new" "2 minutes ago"] := by
  refine ⟨by decide, by decide, by decide, by decide, by decide, by decide, by decide⟩

end Query
